import Mathlib

/-!
# savegame-manager: the AUXSPI save-chip layer (`arm9/source/auxspi.cpp`)

A shallow embedding of the high-level AUXSPI functions.  The byte-level
transport (`auxspi_core.inc`) is not part of the sources: its operations are
the constructors of `Op`, and the hardware behind it is a `Device`, a state
machine that consumes the operations and exposes the byte the last transfer
shifted in.  Every function threads a `World`: the device state together with
the trace of transport operations issued so far.
-/

namespace Strings

/-! ## Message strings (`arm9/source/strings.cpp`) -/

/-- What a lookup in the message table does: it returns the null pointer, or
it loads the element `message_strings[index]` and returns it. -/
inductive Lookup where
  | null
  | element (index : Int)
  deriving DecidableEq

/-- `const char *stringsGetMessageString(int id)` (lines 103-109).  `STR_LAST`
is the last enumerator of `strings.h`, which is not part of the sources, and is
taken as a parameter. -/
def stringsGetMessageString (STR_LAST : Nat) (id : Int) : Lookup :=
  if id > (STR_LAST : Int) then Lookup.null else Lookup.element id

/-- The indices of the table `stringsLoadFile` allocates at line 59,
`message_strings = new char*[STR_LAST]`. -/
def allocated (STR_LAST : Nat) (i : Int) : Prop :=
  0 ≤ i ∧ i < (STR_LAST : Int)

end Strings

namespace Auxspi

/-! ## Transport -/

/-- Operations of the byte-level transport, in the order the code issues them.
`set_data v` is the store `REG_AUXSPIDATA = v` of the busy-poll loop. -/
inductive Op where
  | disable_infrared
  | open_ (device : Nat)
  | write (b : Nat)
  | read
  | close
  | close_lite
  | set_data (v : Nat)
  | wait_busy
  deriving DecidableEq

/-- The hardware behind the transport: `step` consumes one operation,
`input` is the byte `auxspi_read` returns once the read has been clocked,
`data` is the value a load of `REG_AUXSPIDATA` yields. -/
structure Device (σ : Type) where
  step : Op → σ → σ
  input : σ → Nat
  data : σ → Nat

/-- Device state plus the transport operations issued so far (oldest first). -/
structure World (σ : Type) where
  dev : σ
  trace : List Op

/-- Ways a run of the embedded code can fail to produce a result. -/
inductive Fault where
  /-- a busy-poll or write loop did not finish within the iteration budget -/
  | fuel
  deriving DecidableEq

variable {σ : Type}

/-- Issue one transport operation. -/
def emit (D : Device σ) (op : Op) (w : World σ) : World σ :=
  ⟨D.step op w.dev, w.trace ++ [op]⟩

/-- `auxspi_disable_infrared()` (line 246): forwards to the core routine. -/
def auxspi_disable_infrared (D : Device σ) (w : World σ) : World σ :=
  emit D Op.disable_infrared w

/-- `if (ir) auxspi_disable_infrared();` -/
def ir_gate (D : Device σ) (ir : Bool) (w : World σ) : World σ :=
  if ir then auxspi_disable_infrared D w else w

/-- `auxspi_open(uint8 device)`. -/
def auxspi_open (D : Device σ) (device : Nat) (w : World σ) : World σ :=
  emit D (Op.open_ (device % 256)) w

/-- `auxspi_write(uint8 out)`: the argument is converted to 8 bits. -/
def auxspi_write (D : Device σ) (out : Nat) (w : World σ) : World σ :=
  emit D (Op.write (out % 256)) w

/-- `uint8 auxspi_read()`. -/
def auxspi_read (D : Device σ) (w : World σ) : Nat × World σ :=
  let w1 := emit D Op.read w
  (D.input w1.dev % 256, w1)

/-- `auxspi_close()`. -/
def auxspi_close (D : Device σ) (w : World σ) : World σ :=
  emit D Op.close w

/-- `auxspi_close_lite()`. -/
def auxspi_close_lite (D : Device σ) (w : World σ) : World σ :=
  emit D Op.close_lite w

/-- `auxspi_wait_busy()`. -/
def auxspi_wait_busy (D : Device σ) (w : World σ) : World σ :=
  emit D Op.wait_busy w

/-! ## Capacity table -/

/-- The auxiliary id table of `globals.h`, which is not part of the sources:
`EXTRA_ARRAY_SIZE`, `extra_id[]` and `extra_size[]` are taken as parameters. -/
structure ExtraTable where
  EXTRA_ARRAY_SIZE : Nat
  extra_id : Nat → Nat
  extra_size : Nat → Nat

/-- The `default:` loop of `jedec_table` (lines 62-66), `n` iterations left,
loop variable `i`.  The result is converted to the `uint8` return type. -/
def jedec_extra (X : ExtraTable) (id : Nat) : Nat → Nat → Nat
  | 0, _ => 0
  | n + 1, i => if X.extra_id i = id then X.extra_size i % 256 else jedec_extra X id n (i + 1)

/-- `uint8 jedec_table(uint32 id)` (lines 40-69). -/
def jedec_table (X : ExtraTable) (id : Nat) : Nat :=
  if id = 0x204012 ∨ id = 0x621600 then 0x12
  else if id = 0x204013 ∨ id = 0x621100 then 0x13
  else if id = 0x204014 then 0x14
  else if id = 0x204015 then 0x15
  else if id = 0x202017 ∨ id = 0x204017 then 0x17
  else jedec_extra X id X.EXTRA_ARRAY_SIZE 0

/-- The ids of the `case` labels of `jedec_table`. -/
def static_ids : List Nat :=
  [0x204012, 0x621600, 0x204013, 0x621100, 0x204014, 0x204015, 0x202017, 0x204017]

/-! ## Identification -/

/-- `uint32 auxspi_save_jedec_id(bool ir)` (lines 129-142). -/
def auxspi_save_jedec_id (D : Device σ) (ir : Bool) (w : World σ) : Nat × World σ :=
  let id := 0
  let w := ir_gate D ir w
  let w := auxspi_open D 0 w
  let w := auxspi_write D 0x9f w
  let r := auxspi_read D w
  let id := (id ||| (r.1 <<< 16)) % 2 ^ 32
  let r := auxspi_read D r.2
  let id := (id ||| (r.1 <<< 8)) % 2 ^ 32
  let r := auxspi_read D r.2
  let id := (id ||| r.1) % 2 ^ 32
  let w := auxspi_close D r.2
  (id, w)

/-- `uint8 auxspi_save_status_register(bool ir)` (lines 144-154). -/
def auxspi_save_status_register (D : Device σ) (ir : Bool) (w : World σ) : Nat × World σ :=
  let w := ir_gate D ir w
  let w := auxspi_open D 0 w
  let w := auxspi_write D 0x05 w
  let r := auxspi_read D w
  let w := auxspi_close D r.2
  (r.1, w)

/-- Conversion of a `uint8` value to `int8` (two's complement). -/
def to_int8 (v : Nat) : Int :=
  if v % 256 < 128 then ((v % 256 : Nat) : Int) else ((v % 256 : Nat) : Int) - 256

/-- The 32-bit two's-complement pattern of an `int`. -/
def int_bits (x : Int) : Nat := (x % 2 ^ 32).toNat

/-- The `int` a 32-bit pattern denotes. -/
def int_of_bits (b : Nat) : Int :=
  if b % 2 ^ 32 < 2 ^ 31 then ((b % 2 ^ 32 : Nat) : Int) else ((b % 2 ^ 32 : Nat) : Int) - 2 ^ 32

/-- `x & y` on `int`. -/
def int_and (x y : Int) : Int := int_of_bits (int_bits x &&& int_bits y)

/-- Lines 98-103 of `auxspi_save_type`: the decision on the JEDEC id and the
status register, the latter held in the `int8` variable `sr` and promoted to
`int` for the mask. -/
def save_type_decision (jedec : Nat) (sr : Int) : Nat :=
  if int_and sr 0xfd = 0xF0 ∧ jedec = 0x00ffffff then 1
  else if int_and sr 0xfd = 0x00 ∧ jedec = 0x00ffffff then 2
  else if int_and sr 0xfd = 0x00 ∧ jedec ≠ 0x00ffffff then 3
  else 0

/-- `uint8 auxspi_save_type(bool ir)` (lines 93-104). -/
def auxspi_save_type (D : Device σ) (ir : Bool) (w : World σ) : Nat × World σ :=
  let j := auxspi_save_jedec_id D ir w
  let s := auxspi_save_status_register D ir j.2
  let sr : Int := to_int8 s.1
  (save_type_decision j.1 sr, s.2)

/-! ## Data transfer -/

/-- The read loop of `auxspi_read_data` (lines 178-181): `cnt` bytes left,
the next one goes to `buf[i]`. -/
def read_loop (D : Device σ) : Nat → Nat → (Nat → Nat) → World σ → (Nat → Nat) × World σ
  | 0, _, buf, w => (buf, w)
  | cnt + 1, i, buf, w =>
    let r := auxspi_read D w
    read_loop D cnt (i + 1) (Function.update buf i r.1) r.2

/-- `void auxspi_read_data(uint32 addr, uint8* buf, uint16 cnt, uint8 type, bool ir)`
(lines 156-184).  The buffer is the memory `buf` points to, by offset; the
result is that memory after the call. -/
def auxspi_read_data (D : Device σ) (addr : Nat) (buf : Nat → Nat) (cnt type : Nat)
    (ir : Bool) (w : World σ) : (Nat → Nat) × World σ :=
  let t := if type = 0 then auxspi_save_type D ir w else (type, w)
  if t.1 = 0 then (buf, t.2)
  else
    let type := t.1
    let w := ir_gate D ir t.2
    let w := auxspi_open D 0 w
    let w := auxspi_write D (0x03 ||| (if type = 1 then ((addr >>> 8) <<< 3) % 2 ^ 32 else 0)) w
    let w := if type = 3 then auxspi_write D ((addr >>> 16) &&& 0xFF) w else w
    let w := if type ≥ 2 then auxspi_write D ((addr >>> 8) &&& 0xFF) w else w
    let w := auxspi_write D (addr &&& 0xFF) w
    let r := read_loop D cnt 0 buf w
    (r.1, auxspi_close D r.2)

/-- The argument `auxspi_save_type()` receives at line 189, where the call
passes none: the default of the declaration in `auxspi.h`, which is not part
of the sources.  Taken to be `false`, as in `type2_size(bool ir = false)`. -/
def save_type_default_ir : Bool := false

/-- `BIT(n)` of the platform headers: `1 << n`. -/
def BIT (n : Nat) : Nat := 1 <<< n

/-- The busy poll `do { REG_AUXSPIDATA = 0; auxspi_wait_busy(); }
while (REG_AUXSPIDATA & 0x01);` (lines 240, 284, 322), at most `fuel`
iterations. -/
def wait_wip (D : Device σ) : Nat → World σ → Except Fault (World σ)
  | 0, _ => Except.error Fault.fuel
  | fuel + 1, w =>
    let w := emit D (Op.set_data 0) w
    let w := auxspi_wait_busy D w
    if D.data w.dev &&& 0x01 ≠ 0 then wait_wip D fuel w else Except.ok w

/-- The "wait programming to finish" phase (lines 236-242, 280-286, 318-324). -/
def wait_phase (D : Device σ) (fuel : Nat) (ir : Bool) (w : World σ) : Except Fault (World σ) :=
  let w := ir_gate D ir w
  let w := auxspi_open D 0 w
  let w := auxspi_write D 5 w
  match wait_wip D fuel w with
  | Except.error e => Except.error e
  | Except.ok w =>
    let w := auxspi_wait_busy D w
    Except.ok (auxspi_close D w)

/-- The "set WEL" phase (lines 203-208, 263-268, 301-306). -/
def wel_phase (D : Device σ) (ir : Bool) (w : World σ) : World σ :=
  let w := ir_gate D ir w
  let w := auxspi_open D 0 w
  let w := auxspi_write D 0x06 w
  auxspi_close_lite D w

/-- The initial "write" command of a burst (lines 214-228). -/
def write_command (D : Device σ) (type addr : Nat) (w : World σ) : World σ :=
  if type = 1 then
    let w := auxspi_write D (0x02 ||| ((addr &&& BIT 8) >>> (8 - 3))) w
    auxspi_write D (addr &&& 0xFF) w
  else if type = 2 then
    let w := auxspi_write D 0x02 w
    let w := auxspi_write D ((addr >>> 8) &&& 0xff) w
    auxspi_write D (addr &&& 0xFF) w
  else if type = 3 then
    let w := auxspi_write D 0x02 w
    let w := auxspi_write D ((addr >>> 16) &&& 0xff) w
    let w := auxspi_write D ((addr >>> 8) &&& 0xff) w
    auxspi_write D (addr &&& 0xFF) w
  else w

/-- The burst loop `for (i=0; addr < addr_end && i < maxblocks; i++, addr++)
auxspi_write(*buf++);` (lines 230-232): `n = maxblocks - i` rounds left, `p`
is the offset of `buf` from its initial value.  Returns the new `addr`, the
new offset and the world. -/
def burst_loop (D : Device σ) (buf : Nat → Nat) (addr_end : Nat) :
    Nat → Nat → Nat → World σ → Nat × Nat × World σ
  | 0, addr, p, w => (addr, p, w)
  | n + 1, addr, p, w =>
    if addr < addr_end then
      burst_loop D buf addr_end n ((addr + 1) % 2 ^ 32) (p + 1) (auxspi_write D (buf p) w)
    else (addr, p, w)

/-- The loop `while (addr < addr_end)` of `auxspi_write_data` (lines 202-243),
at most `fuel` passes, each busy poll at most `pfuel` iterations. -/
def write_loop (D : Device σ) (buf : Nat → Nat) (addr_end type maxblocks pfuel : Nat)
    (ir : Bool) : Nat → Nat → Nat → World σ → Except Fault (World σ)
  | 0, addr, _, w => if addr < addr_end then Except.error Fault.fuel else Except.ok w
  | fuel + 1, addr, p, w =>
    if addr < addr_end then
      let w := wel_phase D ir w
      let w := ir_gate D ir w
      let w := auxspi_open D 0 w
      let w := write_command D type addr w
      let b := burst_loop D buf addr_end maxblocks addr p w
      let w := auxspi_close_lite D b.2.2
      match wait_phase D pfuel ir w with
      | Except.error e => Except.error e
      | Except.ok w => write_loop D buf addr_end type maxblocks pfuel ir fuel b.1 b.2.1 w
    else Except.ok w

/-- `maxblocks` as computed at lines 195-198. -/
def maxblocks_of (type : Nat) : Nat :=
  let maxblocks := 32
  let maxblocks := if type = 1 then 16 else maxblocks
  let maxblocks := if type = 2 then 32 else maxblocks
  if type = 3 then 256 else maxblocks

/-- `void auxspi_write_data(uint32 addr, uint8 *buf, uint16 cnt, uint8 type, bool ir)`
(lines 186-244).  `fuel` bounds the passes of the write loop and the
iterations of each busy poll. -/
def auxspi_write_data (D : Device σ) (fuel : Nat) (addr : Nat) (buf : Nat → Nat)
    (cnt type : Nat) (ir : Bool) (w : World σ) : Except Fault (World σ) :=
  let t := if type = 0 then auxspi_save_type D save_type_default_ir w else (type, w)
  if t.1 = 0 then Except.ok t.2
  else
    let type := t.1
    let addr_end := (addr + cnt) % 2 ^ 32
    write_loop D buf addr_end type (maxblocks_of type) fuel ir fuel addr 0 t.2

/-! ## Capacity resolution -/

/-- `~x` stored to a `u8`. -/
def not8 (v : Nat) : Nat := 255 - v % 256

/-- `uint8 type2_size(bool ir)` (lines 71-89).  Each `u8` local is a
one-byte buffer; its value before the read that fills it is irrelevant. -/
def type2_size (D : Device σ) (fuel : Nat) (ir : Bool) (w : World σ) :
    Except Fault (Nat × World σ) :=
  let offset0 := 8 * 1024 - 1
  let offset1 := 2 * 8 * 1024 - 1
  let r1 := auxspi_read_data D offset0 (fun _ => 0) 1 2 ir w
  let buf1 := r1.1 0
  let r2 := auxspi_read_data D offset1 (fun _ => 0) 1 2 ir r1.2
  let buf2 := r2.1 0
  let buf3 := not8 buf1
  match auxspi_write_data D fuel offset0 (fun _ => buf3) 1 2 ir r2.2 with
  | Except.error e => Except.error e
  | Except.ok w =>
    let r4 := auxspi_read_data D offset1 (fun _ => 0) 1 2 ir w
    let buf4 := r4.1 0
    match auxspi_write_data D fuel offset0 (fun _ => buf1) 1 2 ir r4.2 with
    | Except.error e => Except.error e
    | Except.ok w => if buf4 ≠ buf2 then Except.ok (0x0d, w) else Except.ok (0x10, w)

/-- `uint8 auxspi_save_size_log_2(bool ir)` (lines 111-127). -/
def auxspi_save_size_log_2 (D : Device σ) (X : ExtraTable) (fuel : Nat) (ir : Bool)
    (w : World σ) : Except Fault (Nat × World σ) :=
  let t := auxspi_save_type D ir w
  if t.1 = 1 then Except.ok (0x09, t.2)
  else if t.1 = 2 then type2_size D fuel ir t.2
  else if t.1 = 3 then
    let j := auxspi_save_jedec_id D ir t.2
    Except.ok (jedec_table X j.1, j.2)
  else Except.ok (0, t.2)

/-- `1 << n` on `int`, as the 32 bits of the result.  For `0 ≤ n < 32` that
is `2^n`.  For any other count the language leaves the result open and the
compiled code yields what the shift instruction of the target yields: `U n`,
cut to 32 bits, where `U` is the behaviour of the target (see `shift_arm`,
`shift_x86`). -/
def shl_one (U : Int → Nat) (n : Int) : Nat :=
  if 0 ≤ n ∧ n < 32 then (1 <<< n.toNat) % 2 ^ 32 else U n % 2 ^ 32

/-- The register-controlled `LSL` of the ARM9 the code is built for: the
count is the low byte of the register, and a count of 32 or more shifts every
bit out. -/
def shift_arm (n : Int) : Nat :=
  if n % 256 < 32 then 2 ^ (n % 256).toNat else 0

/-- The `SHL` of an x86 host build: the count is taken modulo 32. -/
def shift_x86 (n : Int) : Nat :=
  2 ^ (n % 32).toNat

/-- `uint32 auxspi_save_size(bool ir)` (lines 106-109). -/
def auxspi_save_size (D : Device σ) (X : ExtraTable) (U : Int → Nat) (fuel : Nat)
    (ir : Bool) (w : World σ) : Except Fault (Nat × World σ) :=
  match auxspi_save_size_log_2 D X fuel ir w with
  | Except.error e => Except.error e
  | Except.ok r => Except.ok (shl_one U (r.1 : Int), r.2)

/-! ## Erase -/

/-- The command phase of a sector erase: `0xd8` and three address bytes
(lines 270-277, 308-315). -/
def erase_command (D : Device σ) (ir : Bool) (a b c : Nat) (w : World σ) : World σ :=
  let w := ir_gate D ir w
  let w := auxspi_open D 0 w
  let w := auxspi_write D 0xd8 w
  let w := auxspi_write D a w
  let w := auxspi_write D b w
  let w := auxspi_write D c w
  auxspi_close_lite D w

/-- The loop `for (int i = 0; i < size; i++)` of the family-3 branch of
`auxspi_erase` (lines 262-287), `n = size - i` rounds left. -/
def erase_loop (D : Device σ) (fuel : Nat) (ir : Bool) :
    Nat → Nat → World σ → Except Fault (World σ)
  | 0, _, w => Except.ok w
  | n + 1, i, w =>
    let w := wel_phase D ir w
    let w := erase_command D ir i 0 0 w
    match wait_phase D fuel ir w with
    | Except.error e => Except.error e
    | Except.ok w => erase_loop D fuel ir n (i + 1) w

/-- `memset(data, 0, n)`. -/
def memset_zero (data : Nat → Nat) (n : Nat) : Nat → Nat :=
  fun i => if i < n then 0 else data i

/-- The loop `for (int i = 0; i < size; i++) auxspi_write_data(i << 15, data,
0x8000, type, ir);` (lines 291-293), `n = size - i` rounds left. -/
def zero_loop (D : Device σ) (fuel : Nat) (data : Nat → Nat) (type : Nat) (ir : Bool) :
    Nat → Nat → World σ → Except Fault (World σ)
  | 0, _, w => Except.ok w
  | n + 1, i, w =>
    match auxspi_write_data D fuel ((i <<< 15) % 2 ^ 32) data 0x8000 type ir w with
    | Except.error e => Except.error e
    | Except.ok w => zero_loop D fuel data type ir n (i + 1) w

/-- `void auxspi_erase(bool ir)` (lines 256-295).  `data` is the global
scratch buffer of `globals.h`, `U` the shift behaviour of the target outside
the counts 0..31. -/
def auxspi_erase (D : Device σ) (X : ExtraTable) (U : Int → Nat) (fuel : Nat)
    (data : Nat → Nat) (ir : Bool) (w : World σ) : Except Fault (World σ) :=
  let t := auxspi_save_type D ir w
  let type := t.1
  if type = 3 then
    match auxspi_save_size_log_2 D X fuel ir t.2 with
    | Except.error e => Except.error e
    | Except.ok r =>
      let size := shl_one U ((r.1 : Int) - 16) % 256
      erase_loop D fuel ir size 0 r.2
  else
    match auxspi_save_size_log_2 D X fuel ir t.2 with
    | Except.error e => Except.error e
    | Except.ok r =>
      let size : Int := to_int8 (shl_one U (max 0 ((r.1 : Int) - 15)))
      let data := memset_zero data 0x8000
      zero_loop D fuel data type ir size.toNat 0 r.2

/-- `void auxspi_erase_sector(u32 sector, bool ir)` (lines 297-326). -/
def auxspi_erase_sector (D : Device σ) (fuel : Nat) (sector : Nat) (ir : Bool)
    (w : World σ) : Except Fault (World σ) :=
  let t := auxspi_save_type D ir w
  if t.1 = 3 then
    let w := wel_phase D ir t.2
    let w := erase_command D ir (sector &&& 0xff) ((sector >>> 8) &&& 0xff)
      ((sector >>> 8) &&& 0xff) w
    wait_phase D fuel ir w
  else Except.ok t.2

/-! ## Scripted device -/

/-- A device that answers every clocked byte from a prepared list. -/
structure Script where
  queue : List Nat
  last : Nat

/-- Step of the scripted device: a read, or a store to the data register,
shifts the next prepared byte in. -/
def Script.step : Op → Script → Script
  | Op.read, s => ⟨s.queue.tail, s.queue.headD 0xFF⟩
  | Op.set_data _, s => ⟨s.queue.tail, s.queue.headD 0xFF⟩
  | _, s => s

/-- The scripted device. -/
def scripted : Device Script :=
  ⟨Script.step, Script.last, Script.last⟩

/-- A fresh world over the scripted device. -/
def script_world (bytes : List Nat) : World Script :=
  ⟨⟨bytes, 0⟩, []⟩

/-! ## Simulated chip

The save chip the testable properties are run against: it decodes the
command and address bytes it receives after chip select, stores and returns
data bytes at consecutive addresses, and reduces every address modulo its
capacity (so a chip smaller than its address width aliases). -/

/-- State of the simulated save chip.  `family`, `capacity`, `jedec` and
`latency` (the number of status polls a program or erase stays busy) are its
configuration; `mem` is the cell array; `rx` holds the command and address
bytes received since chip select; `ptr` is the address pointer; `wel` the
write-enable latch; `dirty` tells that the open transaction programmed a
cell; `busy` counts the polls still answered with write-in-progress; `out` is
the byte shifted out last. -/
structure Chip where
  family : Nat
  capacity : Nat
  jedec : Nat
  latency : Nat
  mem : Nat → Nat
  rx : List Nat
  ptr : Nat
  wel : Bool
  dirty : Bool
  busy : Nat
  out : Nat

namespace Chip

/-- Is `cmd` a data-read command: 0x03, family 1 with address bit 8 in bit 3. -/
def is_read (family cmd : Nat) : Bool :=
  cmd = 0x03 || (family = 1 && cmd = 0x0B)

/-- Is `cmd` a program command: 0x02, family 1 with address bit 8 in bit 3. -/
def is_program (family cmd : Nat) : Bool :=
  cmd = 0x02 || (family = 1 && cmd = 0x0A)

/-- Number of command and address bytes of a transaction starting with `cmd`. -/
def header_len (family cmd : Nat) : Nat :=
  if is_read family cmd || is_program family cmd then
    (if family = 1 then 2 else if family = 2 then 3 else 4)
  else if family = 3 && cmd = 0xD8 then 4
  else 1

/-- The address a complete header denotes. -/
def decode (family : Nat) (rx : List Nat) : Nat :=
  match rx with
  | [cmd, a0] => if family = 1 then (cmd / 8 % 2) * 256 + a0 else 0
  | [_, a1, a0] => a1 * 256 + a0
  | [_, a2, a1, a0] => (a2 * 256 + a1) * 256 + a0
  | _ => 0

/-- The status register: idle pattern of the family, write-enable latch in
bit 1, write-in-progress in bit 0. -/
def status (c : Chip) : Nat :=
  (if c.family = 1 then 0xF0 else 0) + (if c.wel then 2 else 0) + (if 0 < c.busy then 1 else 0)

/-- The chip receives byte `b`. -/
def clock_in (b : Nat) (c : Chip) : Chip :=
  match c.rx with
  | [] => { c with rx := [b], ptr := 0, wel := c.wel || (b = 0x06) }
  | cmd :: _ =>
    if c.rx.length < header_len c.family cmd then
      { c with rx := c.rx ++ [b], ptr := decode c.family (c.rx ++ [b]) }
    else if is_program c.family cmd && c.wel then
      { c with mem := Function.update c.mem (c.ptr % c.capacity) b, ptr := c.ptr + 1,
               dirty := true }
    else c

/-- The chip shifts one byte out. -/
def clock_out (c : Chip) : Chip :=
  match c.rx with
  | [] => c
  | cmd :: _ =>
    if c.rx.length < header_len c.family cmd then c
    else if is_read c.family cmd then
      { c with out := c.mem (c.ptr % c.capacity), ptr := c.ptr + 1 }
    else if cmd = 0x05 then { c with out := status c, busy := c.busy - 1 }
    else if cmd = 0x9F then { c with out := c.jedec / 256 ^ (2 - c.ptr) % 256, ptr := c.ptr + 1 }
    else c

/-- Chip select is released: a program or sector erase takes effect. -/
def deselect (c : Chip) : Chip :=
  if c.family = 3 ∧ c.rx.head? = some 0xD8 ∧ c.rx.length = 4 ∧ c.wel = true then
    { c with mem := fun x => if x < c.capacity ∧ x / 65536 = decode 3 c.rx % c.capacity / 65536
                             then 0xFF else c.mem x,
             rx := [], wel := false, dirty := false, busy := c.latency }
  else if c.dirty then { c with rx := [], wel := false, dirty := false, busy := c.latency }
  else { c with rx := [] }

/-- One transport operation seen by the chip. -/
def step : Op → Chip → Chip
  | Op.open_ _, c => { c with rx := [], dirty := false }
  | Op.write b, c => clock_in b c
  | Op.read, c => clock_out c
  | Op.set_data _, c => clock_out c
  | Op.close, c => deselect c
  | Op.close_lite, c => deselect c
  | Op.wait_busy, c => c
  | Op.disable_infrared, c => c

/-- A powered-up, idle chip. -/
def fresh (family capacity jedec latency : Nat) (mem : Nat → Nat) : Chip :=
  ⟨family, capacity, jedec, latency, mem, [], 0, false, false, 0, 0xFF⟩

/-- The chip is configured as its family allows: 512 cells for family 1, a
capacity dividing the 16-bit address space for family 2 and the 24-bit address
space for family 3. -/
def well_formed (c : Chip) : Prop :=
  (c.family = 1 ∧ c.capacity = 512) ∨ (c.family = 2 ∧ c.capacity ∣ 65536) ∨
    (c.family = 3 ∧ c.capacity ∣ 2 ^ 24)

end Chip

/-- The simulated chip as a transport device. -/
def sim : Device Chip :=
  ⟨Chip.step, Chip.out, Chip.out⟩

/-- A fresh world over the simulated chip. -/
def chip_world (c : Chip) : World Chip :=
  ⟨c, []⟩

/-! ## Trace vocabulary

The shapes the claims about issued operations are stated in. -/

/-- The infrared step in front of a transaction. -/
def ir_ops (ir : Bool) : List Op :=
  if ir then [Op.disable_infrared] else []

/-- `k` iterations of the busy poll. -/
def poll_ops : Nat → List Op
  | 0 => []
  | k + 1 => Op.set_data 0 :: Op.wait_busy :: poll_ops k

/-- The two detection probes: JEDEC read, then status read. -/
def probe_ops (ir : Bool) : List Op :=
  ir_ops ir ++ [Op.open_ 0, Op.write 0x9f, Op.read, Op.read, Op.read, Op.close] ++
    ir_ops ir ++ [Op.open_ 0, Op.write 0x05, Op.read, Op.close]

/-- `WriteBurst` of the data model: 16, 32, 256 bytes for families 1, 2, 3. -/
def WriteBurst (f : Nat) : Nat :=
  if f = 1 then 16 else if f = 2 then 32 else 256

/-- Command and address bytes of a write burst at `addr`, per family. -/
def write_header (f addr : Nat) : List Nat :=
  if f = 1 then [0x02 + 8 * (addr / 256 % 2), addr % 256]
  else if f = 2 then [0x02, addr / 256 % 256, addr % 256]
  else [0x02, addr / 65536 % 256, addr / 256 % 256, addr % 256]

/-- Command and address bytes of a read at `addr`, per family. -/
def read_header (f addr : Nat) : List Nat :=
  if f = 1 then [(0x03 + 8 * (addr / 256)) % 256, addr % 256]
  else if f = 2 then [0x03, addr / 256 % 256, addr % 256]
  else [0x03, addr / 65536 % 256, addr / 256 % 256, addr % 256]

/-- The bytes `buf[p .. p + m)`. -/
def slice (buf : Nat → Nat) (p m : Nat) : List Nat :=
  (List.range m).map (fun i => buf (p + i))

/-- The data bytes of the `k`-th burst of a write of `N` bytes in bursts of
`B`: `buf[k*B .. k*B + min(B, N - k*B))`. -/
def chunk (buf : Nat → Nat) (B N k : Nat) : List Nat :=
  slice buf (k * B) (min B (N - k * B))

/-- One write-enable / command / poll cycle: (a) open, 0x06, close-lite;
(b) open, the bytes `hdr` then `data`, close-lite; (c) open, 0x05, `polls`
iterations of the busy poll, a last busy wait, full close. -/
def cycle_ops (ir : Bool) (hdr data : List Nat) (polls : Nat) : List Op :=
  ir_ops ir ++ [Op.open_ 0, Op.write 0x06, Op.close_lite] ++
    ir_ops ir ++ [Op.open_ 0] ++ (hdr ++ data).map Op.write ++ [Op.close_lite] ++
    ir_ops ir ++ [Op.open_ 0, Op.write 0x05] ++ poll_ops polls ++ [Op.wait_busy, Op.close]

/-- The single transaction of a read of `cnt` bytes at `addr`. -/
def read_ops (ir : Bool) (f addr cnt : Nat) : List Op :=
  ir_ops ir ++ [Op.open_ 0] ++ (read_header f addr).map Op.write ++
    List.replicate cnt Op.read ++ [Op.close]

/-- The cycles of a write loop entered at `addr` with buffer offset `p`, one
per entry of `ks` (the poll counts), in bursts of `B`. -/
def cycles (ir : Bool) (f B : Nat) (buf : Nat → Nat) (addr_end : Nat) :
    List Nat → Nat → Nat → List Op
  | [], _, _ => []
  | k :: ks, addr, p =>
    cycle_ops ir (write_header f addr) (slice buf p (min B (addr_end - addr))) k ++
      cycles ir f B buf addr_end ks (addr + B) (p + B)

/-- Number of `Op.write` operations in a trace. -/
def write_count (tr : List Op) : Nat :=
  tr.countP (fun op => match op with | Op.write _ => true | _ => false)

/-! ## Chip content -/

/-- The cell array after the chip stored `buf[p .. p + m)` at the addresses
`a, a + 1, ...`, each reduced modulo the capacity, the bytes as they travel
on the wire. -/
def store (cap : Nat) (buf : Nat → Nat) : Nat → Nat → Nat → (Nat → Nat) → (Nat → Nat)
  | 0, _, _, mem => mem
  | m + 1, a, p, mem =>
    store cap buf m (a + 1) (p + 1) (Function.update mem (a % cap) (buf p % 256))

/-- The chip at rest after a completed program cycle, holding `mem`. -/
def Chip.idle (c : Chip) (mem : Nat → Nat) : Chip :=
  { c with mem := mem, rx := [], ptr := 0, wel := false, dirty := false, busy := 0,
           out := Chip.status { c with wel := false, busy := 0 } }

/-- Size of the address space the header of a family can express. -/
def addr_space (f : Nat) : Nat :=
  if f = 1 then 512 else if f = 2 then 65536 else 2 ^ 24

/-- The chip has received the complete header of a program command with the
write-enable latch set: the bytes that follow are stored. -/
def Chip.programming (c : Chip) : Prop :=
  ∃ cmd rest, c.rx = cmd :: rest ∧ Chip.is_program c.family cmd = true ∧
    (cmd :: rest).length = Chip.header_len c.family cmd ∧ c.wel = true

/-- The chip has received the complete header of a read command: the bytes
clocked out next are cell contents. -/
def Chip.reading (c : Chip) : Prop :=
  ∃ cmd rest, c.rx = cmd :: rest ∧ Chip.is_read c.family cmd = true ∧
    (cmd :: rest).length = Chip.header_len c.family cmd

/-! ## Concrete chips and buffers -/

/-- A 512 KB serial flash (JEDEC 0x204013), erased, busy for 3 polls per cycle. -/
def flash_demo : Chip :=
  Chip.fresh 3 (2 ^ 19) 0x204013 3 (fun _ => 0xFF)

/-- A buffer with the pattern 0, 1, ..., 255, 0, 1, ... -/
def ramp : Nat → Nat :=
  fun i => i % 256

/-- A 64 KB family-2 chip with arbitrary byte content, busy for 2 polls. -/
def fram_demo : Chip :=
  Chip.fresh 2 65536 0xFFFFFF 2 (fun a => (a * 7 + 3) % 256)

/-- An 8 KB family-2 chip with arbitrary byte content, busy for 2 polls. -/
def eeprom8k_demo : Chip :=
  Chip.fresh 2 8192 0xFFFFFF 2 (fun a => (a * 7 + 3) % 256)

/-- A 512-byte family-1 chip with arbitrary byte content, busy for 1 poll. -/
def eeprom512_demo : Chip :=
  Chip.fresh 1 512 0xFFFFFF 1 (fun a => (a * 5 + 1) % 256)

/-- Chip `d` has the configuration of chip `c`. -/
def Chip.same_config (c d : Chip) : Prop :=
  d.family = c.family ∧ d.capacity = c.capacity ∧ d.latency = c.latency ∧ d.jedec = c.jedec

/-- The operations of the JEDEC probe alone. -/
def jedec_ops (ir : Bool) : List Op :=
  ir_ops ir ++ [Op.open_ 0, Op.write 0x9f, Op.read, Op.read, Op.read, Op.close]

/-- A 16 MB serial flash whose id 0x204018 is known through the auxiliary
table `extra_demo` only. -/
def flash16m_demo : Chip :=
  Chip.fresh 3 (2 ^ 24) 0x204018 1 (fun _ => 0xFF)

/-! ## Infrared gate, polls, pages -/

/-- Every `open_` in the trace comes right after a `disable_infrared`; `prev`
is the operation in front of the list. -/
def opens_gated : Option Op → List Op → Bool
  | _, [] => true
  | prev, Op.open_ d :: rest =>
    decide (prev = some Op.disable_infrared) && opens_gated (some (Op.open_ d)) rest
  | _, op :: rest => opens_gated (some op) rest

/-- The infrared gate as the trace shows it: with `ir` set every transport
open is immediately preceded by the disable-infrared step, without `ir` the
step never occurs. -/
def ir_gated (ir : Bool) (tr : List Op) : Bool :=
  if ir then opens_gated none tr else decide (Op.disable_infrared ∉ tr)

/-- One iteration of the busy poll: `REG_AUXSPIDATA = 0; auxspi_wait_busy();`. -/
def poll_step (D : Device σ) (w : World σ) : World σ :=
  auxspi_wait_busy D (emit D (Op.set_data 0) w)

/-- The world after `k` iterations of the busy poll. -/
def poll_iter (D : Device σ) : Nat → World σ → World σ
  | 0, w => w
  | k + 1, w => poll_iter D k (poll_step D w)

/-- The page of `B` bytes an address lies in. -/
def page (B addr : Nat) : Nat := addr / B

/-- The addresses the `k`-th burst of a write of `N` bytes at `A` stores to,
one per data byte, consecutive from the address of its header. -/
def burst_addrs (A B N k : Nat) : List Nat :=
  (List.range (min B (N - k * B))).map (fun j => A + k * B + j)

/-- Answers of a serial flash whose JEDEC id 0x123456 is in no table, to three
identifications: JEDEC bytes and status 0x00. -/
def unknown_flash_script : List Nat :=
  [0x12, 0x34, 0x56, 0x00, 0x12, 0x34, 0x56, 0x00, 0x12, 0x34, 0x56, 0x00]

/-- Answers of a family-2 chip to one identification, then an idle status. -/
def fram_script : List Nat :=
  [0xFF, 0xFF, 0xFF, 0x00, 0x00, 0x00]

/-- An auxiliary table giving the id 0x204019 the exponent 32. -/
def extra_huge : ExtraTable :=
  ⟨1, fun _ => 0x204019, fun _ => 32⟩

/-- Answers of the flash with id 0x204019 to an identification and a JEDEC read. -/
def huge_flash_script : List Nat :=
  [0x20, 0x40, 0x19, 0x00, 0x20, 0x40, 0x19]

/-- Answers of the flash with id 0x204013 to an identification and a JEDEC read. -/
def flash_script : List Nat :=
  [0x20, 0x40, 0x13, 0x00, 0x20, 0x40, 0x13]

/-- An auxiliary table with two vendor ids. -/
def extra_demo : ExtraTable :=
  ⟨2, fun i => if i = 0 then 0x204018 else 0xC22211, fun i => if i = 0 then 0x18 else 0x11⟩

/-! ## Identification and capacity table: proofs -/

set_option maxRecDepth 100000 in
theorem to_int8_land (s : Nat) (hs : s < 256) :
    int_and (to_int8 s) 0xfd = ((s &&& 0xFD : Nat) : Int) := by
  revert s
  decide

theorem auxspi_read_lt (D : Device σ) (w : World σ) : (auxspi_read D w).1 < 256 := by
  unfold auxspi_read
  exact Nat.mod_lt _ (by norm_num)

theorem save_status_register_lt (D : Device σ) (ir : Bool) (w : World σ) :
    (auxspi_save_status_register D ir w).1 < 256 := by
  unfold auxspi_save_status_register
  exact auxspi_read_lt D _

theorem save_type_decision_eq (j s : Nat) (hs : s < 256) :
    save_type_decision j (to_int8 s) =
      if s &&& 0xFD = 0xF0 ∧ j = 0x00FFFFFF then 1
      else if s &&& 0xFD = 0x00 ∧ j = 0x00FFFFFF then 2
      else if s &&& 0xFD = 0x00 ∧ j ≠ 0x00FFFFFF then 3
      else 0 := by
  unfold save_type_decision
  rw [to_int8_land s hs]
  have h1 : (((s &&& 0xFD : Nat) : Int) = 0xF0) ↔ (s &&& 0xFD = 0xF0) := by
    constructor
    · intro h; exact_mod_cast h
    · intro h; exact_mod_cast h
  have h2 : (((s &&& 0xFD : Nat) : Int) = 0x00) ↔ (s &&& 0xFD = 0x00) := by
    constructor
    · intro h; exact_mod_cast h
    · intro h; exact_mod_cast h
  simp only [h1, h2]

theorem save_type_value (D : Device σ) (ir : Bool) (w : World σ) (s j : Nat)
    (hj : (auxspi_save_jedec_id D ir w).1 = j)
    (hs : (auxspi_save_status_register D ir (auxspi_save_jedec_id D ir w).2).1 = s) :
    (auxspi_save_type D ir w).1 =
      (if s &&& 0xFD = 0xF0 ∧ j = 0x00FFFFFF then 1
       else if s &&& 0xFD = 0x00 ∧ j = 0x00FFFFFF then 2
       else if s &&& 0xFD = 0x00 ∧ j ≠ 0x00FFFFFF then 3
       else 0) := by
  have hlt : s < 256 := by
    rw [← hs]
    exact save_status_register_lt D ir _
  unfold auxspi_save_type
  simp only [hj, hs]
  exact save_type_decision_eq j s hlt

/-- C1: whatever device answers the two probes, if the JEDEC probe yields `j`
and the status probe yields the byte `s` (any value 0..255, the top half
included although the code keeps it in an `int8`), `auxspi_save_type` returns
1 when `s & 0xFD = 0xF0` and `j = 0x00FFFFFF`, 2 when `s & 0xFD = 0` and
`j = 0x00FFFFFF`, 3 when `s & 0xFD = 0` and `j ≠ 0x00FFFFFF`, and 0 otherwise. -/
theorem auxspi_save_type_table (D : Device σ) (ir : Bool) (w : World σ) (s j : Nat)
    (hj : (auxspi_save_jedec_id D ir w).1 = j)
    (hs : (auxspi_save_status_register D ir (auxspi_save_jedec_id D ir w).2).1 = s) :
    s < 256 ∧ (auxspi_save_type D ir w).1 =
      (if s &&& 0xFD = 0xF0 ∧ j = 0x00FFFFFF then 1
       else if s &&& 0xFD = 0x00 ∧ j = 0x00FFFFFF then 2
       else if s &&& 0xFD = 0x00 ∧ j ≠ 0x00FFFFFF then 3
       else 0) := by
  have hlt : s < 256 := by
    rw [← hs]
    exact save_status_register_lt D ir _
  exact ⟨hlt, save_type_value D ir w s j hj hs⟩

/-- Witness of C1: a device answering JEDEC 0xFFFFFF and status 0xF2 (top bit
and the masked bit set) is family 1. -/
theorem auxspi_save_type_table_witness :
    0xF2 < 256 ∧ (auxspi_save_type scripted true (script_world [0xFF, 0xFF, 0xFF, 0xF2])).1 = 1 :=
  auxspi_save_type_table scripted true (script_world [0xFF, 0xFF, 0xFF, 0xF2]) 0xF2 0xFFFFFF
    (by decide) (by decide)

theorem jedec_extra_hit (X : ExtraTable) (id : Nat) :
    ∀ (n i0 i : Nat), i0 ≤ i → i < i0 + n → X.extra_id i = id →
      (∀ k, i0 ≤ k → k < i → X.extra_id k ≠ id) →
      jedec_extra X id n i0 = X.extra_size i % 256 := by
  intro n
  induction n with
  | zero => intro i0 i h1 h2; omega
  | succ n ih =>
    intro i0 i h1 h2 heq hfirst
    unfold jedec_extra
    by_cases hi : i = i0
    · subst hi
      simp [heq]
    · have hne : X.extra_id i0 ≠ id := hfirst i0 (le_refl _) (by omega)
      simp only [hne, if_false]
      exact ih (i0 + 1) i (by omega) (by omega) heq
        (fun k hk1 hk2 => hfirst k (by omega) hk2)

theorem jedec_extra_miss (X : ExtraTable) (id : Nat) :
    ∀ (n i0 : Nat), (∀ k, i0 ≤ k → k < i0 + n → X.extra_id k ≠ id) →
      jedec_extra X id n i0 = 0 := by
  intro n
  induction n with
  | zero => intro i0 _; rfl
  | succ n ih =>
    intro i0 h
    unfold jedec_extra
    have hne : X.extra_id i0 ≠ id := h i0 (le_refl _) (by omega)
    simp only [hne, if_false]
    exact ih (i0 + 1) (fun k hk1 hk2 => h k (by omega) (by omega))

theorem jedec_table_default (X : ExtraTable) (id : Nat) (h : id ∉ static_ids) :
    jedec_table X id = jedec_extra X id X.EXTRA_ARRAY_SIZE 0 := by
  simp only [static_ids, List.mem_cons, List.mem_singleton, List.not_mem_nil, or_false,
    not_or] at h
  obtain ⟨h1, h2, h3, h4, h5, h6, h7, h8⟩ := h
  unfold jedec_table
  simp [h1, h2, h3, h4, h5, h6, h7, h8]

/-- C2: with 8-bit exponents in the auxiliary table, `jedec_table` gives 0x12
for 0x204012 and 0x621600, 0x13 for 0x204013 and 0x621100, 0x14 for 0x204014,
0x15 for 0x204015, 0x17 for 0x202017 and 0x204017; for an id outside these
cases it gives `extra_size[i]` at the first `i < EXTRA_ARRAY_SIZE` with
`extra_id[i] = id`, and 0 when there is no such `i`. -/
theorem jedec_table_resolves (X : ExtraTable)
    (hbyte : ∀ i, i < X.EXTRA_ARRAY_SIZE → X.extra_size i < 256) :
    jedec_table X 0x204012 = 0x12 ∧ jedec_table X 0x621600 = 0x12 ∧
    jedec_table X 0x204013 = 0x13 ∧ jedec_table X 0x621100 = 0x13 ∧
    jedec_table X 0x204014 = 0x14 ∧ jedec_table X 0x204015 = 0x15 ∧
    jedec_table X 0x202017 = 0x17 ∧ jedec_table X 0x204017 = 0x17 ∧
    (∀ id i, id ∉ static_ids → i < X.EXTRA_ARRAY_SIZE → X.extra_id i = id →
      (∀ k, k < i → X.extra_id k ≠ id) → jedec_table X id = X.extra_size i) ∧
    (∀ id, id ∉ static_ids → (∀ i, i < X.EXTRA_ARRAY_SIZE → X.extra_id i ≠ id) →
      jedec_table X id = 0) := by
  refine ⟨by simp [jedec_table], by simp [jedec_table], by simp [jedec_table],
    by simp [jedec_table], by simp [jedec_table], by simp [jedec_table],
    by simp [jedec_table], by simp [jedec_table], ?_, ?_⟩
  · intro id i hid hi heq hfirst
    rw [jedec_table_default X id hid,
      jedec_extra_hit X id X.EXTRA_ARRAY_SIZE 0 i (Nat.zero_le _) (by omega) heq
        (fun k _ hk => hfirst k hk)]
    exact Nat.mod_eq_of_lt (hbyte i hi)
  · intro id hid hnone
    rw [jedec_table_default X id hid]
    exact jedec_extra_miss X id X.EXTRA_ARRAY_SIZE 0 (fun k _ hk => hnone k (by omega))

/-- Witness of C2: a table with the two vendor ids 0x204018 and 0xC22211. -/
theorem jedec_table_resolves_witness :
    (∀ i, i < extra_demo.EXTRA_ARRAY_SIZE → extra_demo.extra_size i < 256) ∧
    jedec_table extra_demo 0x204013 = 0x13 ∧ jedec_table extra_demo 0xC22211 = 0x11 ∧
    jedec_table extra_demo 0x123456 = 0 :=
  have hb : ∀ i, i < extra_demo.EXTRA_ARRAY_SIZE → extra_demo.extra_size i < 256 := by
    intro i _
    simp only [extra_demo]
    split <;> decide
  have h := jedec_table_resolves extra_demo hb
  ⟨hb, h.2.2.1,
    by
      have h9 := h.2.2.2.2.2.2.2.2.1 0xC22211 1 (by decide) (by decide) (by decide)
        (by intro k hk; interval_cases k; decide)
      simpa [extra_demo] using h9,
    h.2.2.2.2.2.2.2.2.2 0x123456 (by decide)
      (by intro i hi; simp only [extra_demo] at hi; interval_cases i <;> decide)⟩

/-! ## Bit operations as arithmetic -/

theorem and_ff (a : Nat) : a &&& 0xFF = a % 256 :=
  Nat.and_pow_two_sub_one_eq_mod a 8

theorem shr8_and (a : Nat) : (a >>> 8) &&& 0xFF = a / 256 % 256 := by
  rw [Nat.shiftRight_eq_div_pow]
  exact Nat.and_pow_two_sub_one_eq_mod _ 8

theorem shr16_and (a : Nat) : (a >>> 16) &&& 0xFF = a / 65536 % 256 := by
  rw [Nat.shiftRight_eq_div_pow]
  exact Nat.and_pow_two_sub_one_eq_mod _ 8

theorem or_low (b a : Nat) (hb : b < 8) : b ||| (8 * a) = 8 * a + b := by
  rw [Nat.or_comm]
  exact (Nat.mul_add_lt_is_or (i := 3) hb a).symm

theorem and_bit8 (a : Nat) : (a &&& BIT 8) >>> (8 - 3) = 8 * (a / 256 % 2) := by
  unfold BIT
  rw [Nat.one_shiftLeft, Nat.and_comm, Nat.two_pow_and, Nat.shiftRight_eq_div_pow,
    Nat.testBit_to_div_mod]
  have e : (2 : Nat) ^ 8 = 256 := by norm_num
  rw [e]
  rcases Nat.mod_two_eq_zero_or_one (a / 256) with h | h <;> simp [h]

theorem write_cmd1 (a : Nat) :
    (0x02 ||| ((a &&& BIT 8) >>> (8 - 3))) % 256 = 2 + 8 * (a / 256 % 2) := by
  rw [and_bit8, or_low 2 _ (by norm_num)]
  omega

theorem read_cmd1 (a : Nat) :
    (0x03 ||| ((a >>> 8) <<< 3) % 2 ^ 32) % 256 = (3 + 8 * (a / 256)) % 256 := by
  rw [Nat.shiftRight_eq_div_pow, Nat.shiftLeft_eq]
  have h : (a / 2 ^ 8 * 2 ^ 3) % 2 ^ 32 = 8 * ((a / 256) % 2 ^ 29) := by omega
  rw [h, or_low 3 _ (by norm_num)]
  omega

theorem write_cmd1_norm (a : Nat) :
    (2 ||| (a &&& BIT 8) >>> 5) % 256 = 2 + 8 * (a / 256 % 2) :=
  write_cmd1 a

theorem shr8 (a : Nat) : a >>> 8 = a / 256 := by
  rw [Nat.shiftRight_eq_div_pow]

theorem shr16 (a : Nat) : a >>> 16 = a / 65536 := by
  rw [Nat.shiftRight_eq_div_pow]

/-! ## Traces, for every device -/

@[simp] theorem emit_trace (D : Device σ) (op : Op) (w : World σ) :
    (emit D op w).trace = w.trace ++ [op] := rfl

@[simp] theorem emit_dev (D : Device σ) (op : Op) (w : World σ) :
    (emit D op w).dev = D.step op w.dev := rfl

theorem ir_gate_trace (D : Device σ) (ir : Bool) (w : World σ) :
    (ir_gate D ir w).trace = w.trace ++ ir_ops ir := by
  cases ir <;> simp [ir_gate, ir_ops, auxspi_disable_infrared]

theorem save_jedec_id_trace (D : Device σ) (ir : Bool) (w : World σ) :
    (auxspi_save_jedec_id D ir w).2.trace = w.trace ++
      (ir_ops ir ++ [Op.open_ 0, Op.write 0x9f, Op.read, Op.read, Op.read, Op.close]) := by
  simp [auxspi_save_jedec_id, auxspi_open, auxspi_write, auxspi_read, auxspi_close,
    ir_gate_trace]

theorem save_status_register_trace (D : Device σ) (ir : Bool) (w : World σ) :
    (auxspi_save_status_register D ir w).2.trace = w.trace ++
      (ir_ops ir ++ [Op.open_ 0, Op.write 0x05, Op.read, Op.close]) := by
  simp [auxspi_save_status_register, auxspi_open, auxspi_write, auxspi_read, auxspi_close,
    ir_gate_trace]

theorem save_type_trace (D : Device σ) (ir : Bool) (w : World σ) :
    (auxspi_save_type D ir w).2.trace = w.trace ++ probe_ops ir := by
  simp [auxspi_save_type, save_status_register_trace, save_jedec_id_trace, probe_ops]

theorem wel_phase_trace (D : Device σ) (ir : Bool) (w : World σ) :
    (wel_phase D ir w).trace =
      w.trace ++ (ir_ops ir ++ [Op.open_ 0, Op.write 0x06, Op.close_lite]) := by
  simp [wel_phase, auxspi_open, auxspi_write, auxspi_close_lite, ir_gate_trace]

theorem wait_wip_trace (D : Device σ) :
    ∀ (fuel : Nat) (w w1 : World σ), wait_wip D fuel w = Except.ok w1 →
      ∃ k, 1 ≤ k ∧ k ≤ fuel ∧ w1.trace = w.trace ++ poll_ops k := by
  intro fuel
  induction fuel with
  | zero => intro w w1 h; simp [wait_wip] at h
  | succ n ih =>
    intro w w1 h
    unfold wait_wip at h
    simp only at h
    split at h
    · obtain ⟨k, hk1, hk2, hk3⟩ := ih _ _ h
      refine ⟨k + 1, by omega, by omega, ?_⟩
      rw [hk3]
      simp [auxspi_wait_busy, poll_ops]
    · refine ⟨1, le_refl _, by omega, ?_⟩
      injection h with h
      rw [← h]
      simp [auxspi_wait_busy, poll_ops]

theorem wait_phase_trace (D : Device σ) (fuel : Nat) (ir : Bool) (w w1 : World σ)
    (h : wait_phase D fuel ir w = Except.ok w1) :
    ∃ k, 1 ≤ k ∧ k ≤ fuel ∧ w1.trace = w.trace ++
      (ir_ops ir ++ [Op.open_ 0, Op.write 0x05] ++ poll_ops k ++ [Op.wait_busy, Op.close]) := by
  unfold wait_phase at h
  simp only at h
  split at h
  · exact absurd h (by simp)
  · rename_i w2 hw
    obtain ⟨k, hk1, hk2, hk3⟩ := wait_wip_trace D fuel _ _ hw
    refine ⟨k, hk1, hk2, ?_⟩
    injection h with h
    rw [← h]
    simp [auxspi_close, auxspi_wait_busy, hk3, auxspi_write, auxspi_open, ir_gate_trace]

theorem write_command_trace (D : Device σ) (f addr : Nat) (w : World σ)
    (hf : f = 1 ∨ f = 2 ∨ f = 3) :
    (write_command D f addr w).trace = w.trace ++ (write_header f addr).map Op.write := by
  rcases hf with h | h | h <;> subst h
  · simp [write_command, write_header, auxspi_write, write_cmd1_norm, and_ff]
  · simp [write_command, write_header, auxspi_write, shr8, and_ff]
  · simp [write_command, write_header, auxspi_write, shr8, shr16, and_ff]

theorem slice_zero (buf : Nat → Nat) (p : Nat) : slice buf p 0 = [] := rfl

theorem slice_succ (buf : Nat → Nat) (p m : Nat) :
    slice buf p (m + 1) = buf p :: slice buf (p + 1) m := by
  unfold slice
  rw [List.range_succ_eq_map]
  simp only [List.map_cons, List.map_map, Nat.add_zero]
  congr 1
  apply List.map_congr_left
  intro i _
  simp only [Function.comp, Nat.succ_eq_add_one]
  congr 1
  omega

theorem slice_append (buf : Nat → Nat) :
    ∀ (a p b : Nat), slice buf p (a + b) = slice buf p a ++ slice buf (p + a) b := by
  intro a
  induction a with
  | zero => intro p b; simp [slice_zero]
  | succ a ih =>
    intro p b
    rw [show a + 1 + b = (a + b) + 1 by omega, slice_succ, slice_succ, ih]
    simp only [List.cons_append]
    rw [show p + 1 + a = p + (a + 1) by omega]

theorem slice_length (buf : Nat → Nat) (p m : Nat) : (slice buf p m).length = m := by
  simp [slice]

theorem burst_loop_spec (D : Device σ) (buf : Nat → Nat) (addr_end : Nat)
    (hend : addr_end < 2 ^ 32) :
    ∀ (n addr p : Nat) (w : World σ),
      (burst_loop D buf addr_end n addr p w).1 = addr + min n (addr_end - addr) ∧
      (burst_loop D buf addr_end n addr p w).2.1 = p + min n (addr_end - addr) ∧
      (burst_loop D buf addr_end n addr p w).2.2.trace = w.trace ++
        (slice (fun i => buf i % 256) p (min n (addr_end - addr))).map Op.write := by
  intro n
  induction n with
  | zero => intro addr p w; simp [burst_loop, slice_zero]
  | succ n ih =>
    intro addr p w
    unfold burst_loop
    by_cases h : addr < addr_end
    · simp only [h, if_true]
      have hmod : (addr + 1) % 2 ^ 32 = addr + 1 := Nat.mod_eq_of_lt (by omega)
      rw [hmod]
      obtain ⟨h1, h2, h3⟩ := ih (addr + 1) (p + 1) (auxspi_write D (buf p) w)
      have hmin : min (n + 1) (addr_end - addr) = min n (addr_end - (addr + 1)) + 1 := by
        omega
      rw [h1, h2, h3, hmin, slice_succ]
      refine ⟨by omega, by omega, ?_⟩
      simp [auxspi_write]
    · simp only [h, if_false]
      have hmin : min (n + 1) (addr_end - addr) = 0 := by omega
      rw [hmin]
      simp [slice_zero]

theorem cycles_nil (ir : Bool) (f B : Nat) (buf : Nat → Nat) (addr_end a p : Nat) :
    cycles ir f B buf addr_end [] a p = [] := rfl

theorem write_loop_trace (D : Device σ) (buf : Nat → Nat) (addr_end f B pfuel : Nat) (ir : Bool)
    (hf : f = 1 ∨ f = 2 ∨ f = 3) (hB : B = 16 ∨ B = 32 ∨ B = 256) (hend : addr_end < 2 ^ 32) :
    ∀ (fuel addr p : Nat) (w w1 : World σ), addr ≤ addr_end →
      write_loop D buf addr_end f B pfuel ir fuel addr p w = Except.ok w1 →
      ∃ ks : List Nat, (∀ k ∈ ks, 1 ≤ k) ∧ ks.length = (addr_end - addr + B - 1) / B ∧
        w1.trace = w.trace ++ cycles ir f B (fun i => buf i % 256) addr_end ks addr p := by
  intro fuel
  induction fuel with
  | zero =>
    intro addr p w w1 hle h
    unfold write_loop at h
    split at h
    · exact absurd h (by simp)
    · injection h with h
      refine ⟨[], by simp, ?_, by simp [h, cycles_nil]⟩
      have h0 : addr_end - addr = 0 := by omega
      rw [h0]
      rcases hB with h | h | h <;> subst h <;> rfl
  | succ n ih =>
    intro addr p w w1 hle h
    unfold write_loop at h
    by_cases hlt : addr < addr_end
    · simp only [hlt, if_true] at h
      split at h
      · exact absurd h (by simp)
      · rename_i w2 hw2
        obtain ⟨k, hk1, _, hk3⟩ := wait_phase_trace D pfuel ir _ _ hw2
        obtain ⟨hb1, hb2, hb3⟩ := burst_loop_spec D buf addr_end hend B addr p
          (write_command D f addr (auxspi_open D 0 (ir_gate D ir (wel_phase D ir w))))
        rw [hb1, hb2] at h
        have htr : w2.trace = w.trace ++ cycle_ops ir (write_header f addr)
            (slice (fun i => buf i % 256) p (min B (addr_end - addr))) k := by
          rw [hk3]
          simp only [auxspi_close_lite, emit_trace, hb3, write_command_trace D f addr _ hf]
          simp [auxspi_open, ir_gate_trace, wel_phase_trace, cycle_ops]
        by_cases hfull : B < addr_end - addr
        · have hmin : min B (addr_end - addr) = B := by omega
          rw [hmin] at h
          obtain ⟨ks, hks1, hks2, hks3⟩ := ih (addr + B) (p + B) w2 w1 (by omega) h
          refine ⟨k :: ks, ?_, ?_, ?_⟩
          · intro x hx
            rcases List.mem_cons.mp hx with hx | hx
            · omega
            · exact hks1 x hx
          · rw [List.length_cons, hks2]
            rcases hB with hB | hB | hB <;> subst hB <;> omega
          · rw [hks3, htr]
            simp [cycles]
        · have hmin : min B (addr_end - addr) = addr_end - addr := by omega
          rw [hmin] at h
          obtain ⟨ks, _, hks2, hks3⟩ :=
            ih (addr + (addr_end - addr)) (p + (addr_end - addr)) w2 w1 (by omega) h
          have hnil : ks = [] := by
            apply List.eq_nil_of_length_eq_zero
            rw [hks2]
            rcases hB with hB | hB | hB <;> subst hB <;> omega
          subst hnil
          refine ⟨[k], ?_, ?_, ?_⟩
          · intro x hx
            rw [List.mem_singleton] at hx
            omega
          · rw [List.length_singleton]
            rcases hB with hB | hB | hB <;> subst hB <;> omega
          · rw [hks3, htr]
            simp [cycles]
    · simp only [hlt, if_false] at h
      injection h with h
      refine ⟨[], by simp, ?_, by simp [h, cycles_nil]⟩
      have h0 : addr_end - addr = 0 := by omega
      rw [h0]
      rcases hB with h | h | h <;> subst h <;> rfl

theorem cycles_eq_flatMap (ir : Bool) (f B : Nat) (buf : Nat → Nat) (addr_end : Nat) :
    ∀ (ks : List Nat) (addr p : Nat),
      cycles ir f B buf addr_end ks addr p =
        (List.range ks.length).flatMap (fun i =>
          cycle_ops ir (write_header f (addr + i * B))
            (slice buf (p + i * B) (min B (addr_end - (addr + i * B)))) (ks.getD i 1)) := by
  intro ks
  induction ks with
  | nil => intro addr p; simp [cycles]
  | cons k ks ih =>
    intro addr p
    rw [cycles, ih, List.length_cons, List.range_succ_eq_map, List.flatMap_cons,
      List.flatMap_map]
    simp only [Nat.zero_mul, Nat.add_zero, List.getD_cons_zero]
    congr 1
    apply List.flatMap_congr
    intro i _
    simp only [List.getD_cons_succ]
    rw [show addr + B + i * B = addr + i.succ * B by rw [Nat.succ_mul]; omega,
      show p + B + i * B = p + i.succ * B by rw [Nat.succ_mul]; omega]

theorem maxblocks_of_eq (f : Nat) (hf : f = 1 ∨ f = 2 ∨ f = 3) :
    maxblocks_of f = WriteBurst f := by
  rcases hf with h | h | h <;> subst h <;> rfl

theorem WriteBurst_cases (f : Nat) :
    WriteBurst f = 16 ∨ WriteBurst f = 32 ∨ WriteBurst f = 256 := by
  unfold WriteBurst
  split
  · exact Or.inl rfl
  · split
    · exact Or.inr (Or.inl rfl)
    · exact Or.inr (Or.inr rfl)

theorem chunks_concat (buf : Nat → Nat) (B : Nat) :
    ∀ (n p N : Nat), N ≤ n * B →
      (List.range n).flatMap (fun k => slice buf (p + k * B) (min B (N - k * B))) =
        slice buf p N := by
  intro n
  induction n with
  | zero =>
    intro p N h
    have h0 : N = 0 := by omega
    subst h0
    simp [slice_zero]
  | succ n ih =>
    intro p N h
    rw [List.range_succ_eq_map, List.flatMap_cons, List.flatMap_map]
    have hrest : (List.range n).flatMap
        (fun a => slice buf (p + a.succ * B) (min B (N - a.succ * B))) =
        slice buf (p + B) (N - B) := by
      rw [← ih (p + B) (N - B) (by rw [Nat.succ_mul] at h; omega)]
      apply List.flatMap_congr
      intro k _
      rw [show p + k.succ * B = p + B + k * B by rw [Nat.succ_mul]; omega,
        show N - k.succ * B = N - B - k * B by rw [Nat.succ_mul]; omega]
    rw [hrest]
    simp only [Nat.zero_mul, Nat.add_zero, Nat.sub_zero]
    by_cases hle : N ≤ B
    · have h1 : min B N = N := by omega
      have h2 : N - B = 0 := by omega
      rw [h1, h2, slice_zero, List.append_nil]
    · have h1 : min B N = B := by omega
      rw [h1, ← slice_append]
      congr 1
      omega

/-! ## The code over the simulated chip -/

theorem status_and_one (c : Chip) : Chip.status c &&& 1 = if 0 < c.busy then 1 else 0 := by
  rw [Nat.and_one_is_mod]
  unfold Chip.status
  split_ifs <;> omega

theorem sim_step (op : Op) (c : Chip) : sim.step op c = Chip.step op c := rfl

theorem sim_data (c : Chip) : sim.data c = c.out := rfl

theorem sim_input (c : Chip) : sim.input c = c.out := rfl

theorem ir_gate_dev (ir : Bool) (w : World Chip) : (ir_gate sim ir w).dev = w.dev := by
  cases ir <;> simp [ir_gate, auxspi_disable_infrared, sim_step, Chip.step]

theorem open_dev (d : Nat) (w : World Chip) :
    (auxspi_open sim d w).dev = { w.dev with rx := [], dirty := false } := by
  simp [auxspi_open, sim_step, Chip.step]

theorem write_dev (b : Nat) (w : World Chip) :
    (auxspi_write sim b w).dev = Chip.clock_in (b % 256) w.dev := by
  simp [auxspi_write, sim_step, Chip.step]

theorem close_dev (w : World Chip) : (auxspi_close sim w).dev = Chip.deselect w.dev := by
  simp [auxspi_close, sim_step, Chip.step]

theorem close_lite_dev (w : World Chip) :
    (auxspi_close_lite sim w).dev = Chip.deselect w.dev := by
  simp [auxspi_close_lite, sim_step, Chip.step]

theorem wait_busy_dev (w : World Chip) : (auxspi_wait_busy sim w).dev = w.dev := by
  simp [auxspi_wait_busy, sim_step, Chip.step]

theorem read_dev (w : World Chip) : (auxspi_read sim w).2.dev = Chip.clock_out w.dev := by
  simp [auxspi_read, sim_step, Chip.step]

theorem read_val (w : World Chip) :
    (auxspi_read sim w).1 = (Chip.clock_out w.dev).out % 256 := by
  simp [auxspi_read, sim_step, sim_input, Chip.step]

theorem wait_wip_chip :
    ∀ (fuel : Nat) (w : World Chip), w.dev.rx = [5] → w.dev.busy < fuel →
      ∃ w1, wait_wip sim fuel w = Except.ok w1 ∧
        w1.dev = { w.dev with busy := 0, out := Chip.status { w.dev with busy := 0 } } := by
  intro fuel
  induction fuel with
  | zero => intro w _ h; omega
  | succ n ih =>
    intro w hrx hb
    unfold wait_wip
    have hstep : (auxspi_wait_busy sim (emit sim (Op.set_data 0) w)).dev =
        { w.dev with out := Chip.status w.dev, busy := w.dev.busy - 1 } := by
      simp [wait_busy_dev, sim_step, Chip.step, Chip.clock_out, hrx, Chip.header_len,
        Chip.is_read, Chip.is_program]
    simp only [hstep, sim_data, status_and_one]
    by_cases hpos : 0 < w.dev.busy
    · simp only [hpos, if_true, ne_eq, one_ne_zero, not_false_eq_true]
      obtain ⟨w1, hw1, hdev⟩ := ih (auxspi_wait_busy sim (emit sim (Op.set_data 0) w))
        (by rw [hstep]; exact hrx) (by rw [hstep]; simp only; omega)
      refine ⟨w1, hw1, ?_⟩
      rw [hdev, hstep]
      simp [Chip.status]
    · simp only [hpos, if_false, ne_eq, not_true_eq_false]
      refine ⟨_, rfl, ?_⟩
      have h0 : w.dev.busy = 0 := by omega
      rw [hstep]
      simp [Chip.status, h0]

theorem wait_phase_chip (fuel : Nat) (ir : Bool) (w : World Chip) (hb : w.dev.busy < fuel) :
    ∃ w1, wait_phase sim fuel ir w = Except.ok w1 ∧
      w1.dev = { w.dev with rx := [], ptr := 0, dirty := false, busy := 0,
                            out := Chip.status { w.dev with busy := 0 } } := by
  unfold wait_phase
  have hdev : (auxspi_write sim 5 (auxspi_open sim 0 (ir_gate sim ir w))).dev =
      { w.dev with rx := [5], ptr := 0, dirty := false } := by
    simp [write_dev, open_dev, ir_gate_dev, Chip.clock_in]
  obtain ⟨w1, hw1, hd1⟩ := wait_wip_chip fuel
    (auxspi_write sim 5 (auxspi_open sim 0 (ir_gate sim ir w)))
    (by rw [hdev]) (by rw [hdev]; exact hb)
  simp only [hw1]
  refine ⟨_, rfl, ?_⟩
  rw [close_dev, wait_busy_dev, hd1, hdev]
  simp [Chip.deselect, Chip.status]

theorem wel_phase_chip (ir : Bool) (w : World Chip) :
    (wel_phase sim ir w).dev = { w.dev with rx := [], ptr := 0, wel := true, dirty := false } := by
  simp [wel_phase, close_lite_dev, write_dev, open_dev, ir_gate_dev, Chip.clock_in,
    Chip.deselect]

theorem addr_space_mod (c : Chip) (f addr : Nat) (hwf : c.well_formed) (hf : c.family = f) :
    addr % addr_space f % c.capacity = addr % c.capacity := by
  rcases hwf with ⟨h1, h2⟩ | ⟨h1, h2⟩ | ⟨h1, h2⟩
  · rw [← hf, h1, h2]
    exact Nat.mod_mod_of_dvd addr (dvd_refl 512)
  · rw [← hf, h1]
    exact Nat.mod_mod_of_dvd addr h2
  · rw [← hf, h1]
    exact Nat.mod_mod_of_dvd addr h2

theorem store_congr (cap : Nat) (buf : Nat → Nat) :
    ∀ (m a b p : Nat) (mem : Nat → Nat), a % cap = b % cap →
      store cap buf m a p mem = store cap buf m b p mem := by
  intro m
  induction m with
  | zero => intro a b p mem _; rfl
  | succ m ih =>
    intro a b p mem h
    simp only [store]
    rw [h]
    exact ih (a + 1) (b + 1) (p + 1) _ (by rw [Nat.add_mod, h, ← Nat.add_mod])

theorem store_append (cap : Nat) (buf : Nat → Nat) :
    ∀ (m r a p : Nat) (mem : Nat → Nat),
      store cap buf (m + r) a p mem = store cap buf r (a + m) (p + m) (store cap buf m a p mem) := by
  intro m
  induction m with
  | zero => intro r a p mem; simp [store]
  | succ m ih =>
    intro r a p mem
    rw [show m + 1 + r = (m + r) + 1 by omega]
    simp only [store]
    rw [ih, show a + 1 + m = a + (m + 1) by omega, show p + 1 + m = p + (m + 1) by omega]

theorem write_command_chip (f addr : Nat) (w : World Chip) (hf : f = 1 ∨ f = 2 ∨ f = 3)
    (hfam : w.dev.family = f) (hrx : w.dev.rx = []) :
    (write_command sim f addr w).dev =
      { w.dev with rx := write_header f addr, ptr := addr % addr_space f } := by
  rcases hf with h | h | h <;> subst h
  · rcases Nat.mod_two_eq_zero_or_one (addr / 256) with hb | hb
    · simp [write_command, write_dev, write_cmd1_norm, and_ff, Chip.clock_in, hrx, hfam, hb,
        write_header, Chip.header_len, Chip.is_read, Chip.is_program, Chip.decode, addr_space]
      omega
    · simp [write_command, write_dev, write_cmd1_norm, and_ff, Chip.clock_in, hrx, hfam, hb,
        write_header, Chip.header_len, Chip.is_read, Chip.is_program, Chip.decode, addr_space]
      omega
  · simp [write_command, write_dev, shr8, and_ff, Chip.clock_in, hrx, hfam,
      write_header, Chip.header_len, Chip.is_read, Chip.is_program, Chip.decode, addr_space]
    omega
  · simp [write_command, write_dev, shr8, shr16, and_ff, Chip.clock_in, hrx, hfam,
      write_header, Chip.header_len, Chip.is_read, Chip.is_program, Chip.decode, addr_space]
    omega

theorem write_header_programming (c : Chip) (f addr : Nat) (hf : f = 1 ∨ f = 2 ∨ f = 3)
    (hfam : c.family = f) (hrx : c.rx = write_header f addr) (hwel : c.wel = true) :
    c.programming := by
  rcases hf with h | h | h <;> subst h
  · rcases Nat.mod_two_eq_zero_or_one (addr / 256) with hb | hb
    · exact ⟨2, [addr % 256], by simp [hrx, write_header, hb],
        by simp [Chip.is_program], by simp [Chip.header_len, Chip.is_program, hfam], hwel⟩
    · exact ⟨10, [addr % 256], by simp [hrx, write_header, hb],
        by simp [Chip.is_program, hfam],
        by simp [Chip.header_len, Chip.is_program, Chip.is_read, hfam], hwel⟩
  · exact ⟨2, [addr / 256 % 256, addr % 256], by simp [hrx, write_header],
      by simp [Chip.is_program], by simp [Chip.header_len, Chip.is_program, hfam], hwel⟩
  · exact ⟨2, [addr / 65536 % 256, addr / 256 % 256, addr % 256], by simp [hrx, write_header],
      by simp [Chip.is_program], by simp [Chip.header_len, Chip.is_program, hfam], hwel⟩

theorem clock_in_programming (b : Nat) (c : Chip) (h : c.programming) :
    Chip.clock_in b c =
      { c with mem := Function.update c.mem (c.ptr % c.capacity) b, ptr := c.ptr + 1,
               dirty := true } := by
  obtain ⟨cmd, rest, hrx, hprog, hlen, hwel⟩ := h
  unfold Chip.clock_in
  rw [hrx]
  simp only [hlen, lt_irrefl, if_false, hprog, hwel, Bool.and_self, if_true]

theorem programming_update (c : Chip) (mem : Nat → Nat) (ptr : Nat) (d : Bool)
    (h : c.programming) : Chip.programming { c with mem := mem, ptr := ptr, dirty := d } := by
  obtain ⟨cmd, rest, hrx, hprog, hlen, hwel⟩ := h
  exact ⟨cmd, rest, hrx, hprog, hlen, hwel⟩

theorem burst_loop_chip (buf : Nat → Nat) (addr_end : Nat) (hend : addr_end < 2 ^ 32) :
    ∀ (n addr p : Nat) (w : World Chip), w.dev.programming →
      (burst_loop sim buf addr_end n addr p w).2.2.dev =
        { w.dev with
          mem := store w.dev.capacity buf (min n (addr_end - addr)) w.dev.ptr p w.dev.mem,
          ptr := w.dev.ptr + min n (addr_end - addr),
          dirty := w.dev.dirty || decide (0 < min n (addr_end - addr)) } := by
  intro n
  induction n with
  | zero => intro addr p w _; simp [burst_loop, store]
  | succ n ih =>
    intro addr p w hprog
    unfold burst_loop
    by_cases h : addr < addr_end
    · simp only [h, if_true]
      have hmod : (addr + 1) % 2 ^ 32 = addr + 1 := Nat.mod_eq_of_lt (by omega)
      have hdev : (auxspi_write sim (buf p) w).dev =
          { w.dev with mem := Function.update w.dev.mem (w.dev.ptr % w.dev.capacity) (buf p % 256),
                       ptr := w.dev.ptr + 1, dirty := true } := by
        rw [write_dev, clock_in_programming _ _ hprog]
      have hprog1 : (auxspi_write sim (buf p) w).dev.programming := by
        rw [hdev]
        exact programming_update _ _ _ _ hprog
      rw [hmod, ih (addr + 1) (p + 1) _ hprog1, hdev]
      have hmin : min (n + 1) (addr_end - addr) = min n (addr_end - (addr + 1)) + 1 := by
        omega
      rw [hmin]
      simp [store, Nat.add_assoc, Nat.add_comm 1]
    · simp only [h, if_false]
      have hmin : min (n + 1) (addr_end - addr) = 0 := by omega
      rw [hmin]
      simp [store]

theorem write_header_head (f addr : Nat) (hf : f = 1 ∨ f = 2 ∨ f = 3) :
    (write_header f addr).head? ≠ some 0xD8 := by
  rcases hf with h | h | h <;> subst h
  · rcases Nat.mod_two_eq_zero_or_one (addr / 256) with hb | hb <;>
      simp [write_header, hb]
  · simp [write_header]
  · simp [write_header]

theorem program_phase_chip (buf : Nat → Nat) (addr_end f B addr p : Nat) (ir : Bool)
    (w : World Chip) (hf : f = 1 ∨ f = 2 ∨ f = 3) (hfam : w.dev.family = f)
    (hwf : w.dev.well_formed) (hend : addr_end < 2 ^ 32) (hlt : addr < addr_end) (hB : 0 < B) :
    (auxspi_close_lite sim (burst_loop sim buf addr_end B addr p
        (write_command sim f addr
          (auxspi_open sim 0 (ir_gate sim ir (wel_phase sim ir w))))).2.2).dev =
      { w.dev with
        mem := store w.dev.capacity buf (min B (addr_end - addr)) addr p w.dev.mem,
        rx := [], ptr := addr % addr_space f + min B (addr_end - addr), wel := false,
        dirty := false, busy := w.dev.latency } := by
  have h0 : (auxspi_open sim 0 (ir_gate sim ir (wel_phase sim ir w))).dev =
      { w.dev with rx := [], ptr := 0, wel := true, dirty := false } := by
    rw [open_dev, ir_gate_dev, wel_phase_chip]
  have h1 : (write_command sim f addr
      (auxspi_open sim 0 (ir_gate sim ir (wel_phase sim ir w)))).dev =
      { w.dev with rx := write_header f addr, ptr := addr % addr_space f, wel := true,
                   dirty := false } := by
    rw [write_command_chip f addr _ hf (by rw [h0]; exact hfam) (by rw [h0]), h0]
  have hprog : (write_command sim f addr
      (auxspi_open sim 0 (ir_gate sim ir (wel_phase sim ir w)))).dev.programming := by
    apply write_header_programming _ f addr hf
    · rw [h1]; exact hfam
    · rw [h1]
    · rw [h1]
  have hpos : 0 < min B (addr_end - addr) := by omega
  have hhead := write_header_head f addr hf
  rw [close_lite_dev, burst_loop_chip buf addr_end hend B addr p _ hprog, h1]
  have hst : store w.dev.capacity buf (min B (addr_end - addr)) (addr % addr_space f) p
      w.dev.mem = store w.dev.capacity buf (min B (addr_end - addr)) addr p w.dev.mem :=
    store_congr _ _ _ _ _ _ _ (addr_space_mod w.dev f addr hwf hfam)
  simp [Chip.deselect, hpos, hhead, hst]

theorem idle_idle (c : Chip) (m1 m2 : Nat → Nat) : (c.idle m1).idle m2 = c.idle m2 := by
  simp [Chip.idle, Chip.status]

theorem idle_well_formed (c : Chip) (m : Nat → Nat) (h : c.well_formed) :
    (c.idle m).well_formed := h

theorem write_cycle_chip (buf : Nat → Nat) (addr_end f B pfuel addr p : Nat) (ir : Bool)
    (w : World Chip) (hf : f = 1 ∨ f = 2 ∨ f = 3) (hfam : w.dev.family = f)
    (hwf : w.dev.well_formed) (hend : addr_end < 2 ^ 32) (hlt : addr < addr_end) (hB : 0 < B)
    (hfuel : w.dev.latency < pfuel) :
    ∃ w2, wait_phase sim pfuel ir (auxspi_close_lite sim (burst_loop sim buf addr_end B addr p
        (write_command sim f addr
          (auxspi_open sim 0 (ir_gate sim ir (wel_phase sim ir w))))).2.2) = Except.ok w2 ∧
      w2.dev = w.dev.idle (store w.dev.capacity buf (min B (addr_end - addr)) addr p w.dev.mem) := by
  have hp := program_phase_chip buf addr_end f B addr p ir w hf hfam hwf hend hlt hB
  obtain ⟨w2, hw2, hd2⟩ := wait_phase_chip pfuel ir
    (auxspi_close_lite sim (burst_loop sim buf addr_end B addr p
        (write_command sim f addr
          (auxspi_open sim 0 (ir_gate sim ir (wel_phase sim ir w))))).2.2)
    (by rw [hp]; exact hfuel)
  refine ⟨w2, hw2, ?_⟩
  rw [hd2, hp]
  simp [Chip.idle, Chip.status]

theorem write_loop_chip (buf : Nat → Nat) (addr_end f B pfuel : Nat) (ir : Bool)
    (hf : f = 1 ∨ f = 2 ∨ f = 3) (hB : B = 16 ∨ B = 32 ∨ B = 256) (hend : addr_end < 2 ^ 32) :
    ∀ (fuel addr p : Nat) (w : World Chip), w.dev.family = f → w.dev.well_formed →
      w.dev.latency < pfuel → addr ≤ addr_end → (addr_end - addr + B - 1) / B ≤ fuel →
      ∃ w1, write_loop sim buf addr_end f B pfuel ir fuel addr p w = Except.ok w1 ∧
        w1.dev = if addr < addr_end
          then w.dev.idle (store w.dev.capacity buf (addr_end - addr) addr p w.dev.mem)
          else w.dev := by
  have hB0 : 0 < B := by rcases hB with h | h | h <;> omega
  intro fuel
  induction fuel with
  | zero =>
    intro addr p w _ _ _ hle hfu
    have h0 : ¬ addr < addr_end := by
      rcases hB with h | h | h <;> subst h <;> omega
    unfold write_loop
    simp only [h0, if_false]
    exact ⟨w, rfl, rfl⟩
  | succ n ih =>
    intro addr p w hfam hwf hlat hle hfu
    unfold write_loop
    by_cases hlt : addr < addr_end
    · simp only [hlt, if_true]
      obtain ⟨w2, hw2, hd2⟩ := write_cycle_chip buf addr_end f B pfuel addr p ir w hf hfam hwf
        hend hlt hB0 hlat
      obtain ⟨hb1, hb2, _⟩ := burst_loop_spec sim buf addr_end hend B addr p
        (write_command sim f addr (auxspi_open sim 0 (ir_gate sim ir (wel_phase sim ir w))))
      simp only [hw2, hb1, hb2]
      have hfam2 : w2.dev.family = f := by rw [hd2]; exact hfam
      have hwf2 : w2.dev.well_formed := by rw [hd2]; exact idle_well_formed _ _ hwf
      have hlat2 : w2.dev.latency < pfuel := by rw [hd2]; exact hlat
      obtain ⟨w1, hw1, hd1⟩ := ih (addr + min B (addr_end - addr)) (p + min B (addr_end - addr))
        w2 hfam2 hwf2 hlat2 (by omega)
        (by rcases hB with h | h | h <;> subst h <;> omega)
      refine ⟨w1, hw1, ?_⟩
      rw [hd1]
      have hsplit : addr_end - addr =
          min B (addr_end - addr) + (addr_end - (addr + min B (addr_end - addr))) := by omega
      by_cases hmore : addr + min B (addr_end - addr) < addr_end
      · simp only [hmore, if_true]
        rw [hd2, idle_idle]
        conv_rhs => rw [hsplit, store_append]
        rfl
      · simp only [hmore, if_false]
        rw [hd2]
        have hm : min B (addr_end - addr) = addr_end - addr := by omega
        rw [hm]
    · simp only [hlt, if_false]
      exact ⟨w, rfl, rfl⟩

theorem write_data_chip (fuel A N f : Nat) (buf : Nat → Nat) (ir : Bool) (w : World Chip)
    (hf : f = 1 ∨ f = 2 ∨ f = 3) (hfam : w.dev.family = f) (hwf : w.dev.well_formed)
    (hAN : A + N < 2 ^ 32) (hlat : w.dev.latency < fuel)
    (hfuel : (N + WriteBurst f - 1) / WriteBurst f ≤ fuel) :
    ∃ w1, auxspi_write_data sim fuel A buf N f ir w = Except.ok w1 ∧
      w1.dev = if 0 < N then w.dev.idle (store w.dev.capacity buf N A 0 w.dev.mem)
        else w.dev := by
  have hf0 : f ≠ 0 := by omega
  unfold auxspi_write_data
  simp only [hf0, if_false]
  rw [maxblocks_of_eq f hf, Nat.mod_eq_of_lt hAN]
  obtain ⟨w1, hw1, hd1⟩ := write_loop_chip buf (A + N) f (WriteBurst f) fuel ir hf
    (WriteBurst_cases f) hAN fuel A 0 w hfam hwf hlat (by omega)
    (by rw [show A + N - A = N by omega]; exact hfuel)
  refine ⟨w1, hw1, ?_⟩
  rw [hd1, show A + N - A = N by omega]
  by_cases hN : 0 < N
  · have h1 : A < A + N := by omega
    simp only [hN, h1, if_true]
  · have h1 : ¬ A < A + N := by omega
    simp only [hN, h1, if_false]

/-! ## Write chunking -/

theorem write_data_trace (D : Device σ) (fuel A N f : Nat) (buf : Nat → Nat) (ir : Bool)
    (w w1 : World σ) (hf : f = 1 ∨ f = 2 ∨ f = 3) (hAN : A + N < 2 ^ 32)
    (h : auxspi_write_data D fuel A buf N f ir w = Except.ok w1) :
    ∃ ks : Nat → Nat, (∀ k, 1 ≤ ks k) ∧
      w1.trace = w.trace ++ (List.range ((N + WriteBurst f - 1) / WriteBurst f)).flatMap
        (fun k => cycle_ops ir (write_header f (A + k * WriteBurst f))
          (chunk (fun i => buf i % 256) (WriteBurst f) N k) (ks k)) := by
  have hf0 : f ≠ 0 := by omega
  unfold auxspi_write_data at h
  simp only [hf0, if_false] at h
  rw [maxblocks_of_eq f hf, Nat.mod_eq_of_lt hAN] at h
  obtain ⟨ks, hks1, hks2, hks3⟩ := write_loop_trace D buf (A + N) f (WriteBurst f) fuel ir hf
    (WriteBurst_cases f) hAN fuel A 0 w w1 (by omega) h
  refine ⟨fun i => ks.getD i 1, ?_, ?_⟩
  · intro k
    show 1 ≤ ks.getD k 1
    by_cases hk : k < ks.length
    · rw [List.getD_eq_getElem _ _ hk]
      exact hks1 _ (List.getElem_mem hk)
    · rw [List.getD_eq_default _ _ (Nat.le_of_not_lt hk)]
  · rw [hks3, cycles_eq_flatMap, hks2, show A + N - A = N by omega]
    congr 1
    apply List.flatMap_congr
    intro k _
    unfold chunk
    rw [show A + N - (A + k * WriteBurst f) = N - k * WriteBurst f by omega,
      show 0 + k * WriteBurst f = k * WriteBurst f by omega]

theorem chunks_cover (buf : Nat → Nat) (f N : Nat) :
    (List.range ((N + WriteBurst f - 1) / WriteBurst f)).flatMap (chunk buf (WriteBurst f) N) =
      (List.range N).map buf := by
  have h := chunks_concat buf (WriteBurst f) ((N + WriteBurst f - 1) / WriteBurst f) 0 N
    (by rcases WriteBurst_cases f with h | h | h <;> rw [h] <;> omega)
  simp only [Nat.zero_add] at h
  unfold chunk
  rw [h]
  unfold slice
  simp

/-- C3: for family 1, 2 or 3 with burst size `B` = 16, 32, 256 and
`A + N < 2^32`, a run of `auxspi_write_data(A, buf, N, f)` that returns, on
any device, has issued exactly `ceil(N / B)` write-enable / command / poll
cycles, the `k`-th addressed at `A + k*B` and carrying the
`min(B, N - k*B)` bytes `buf[k*B ..]`; the data of all cycles concatenated is
`buf[0..N)`; and on the simulated chip the run does return once the budget
covers the cycles and the chip latency. -/
theorem write_data_chunking (fuel A N f : Nat) (buf : Nat → Nat) (ir : Bool)
    (hf : f = 1 ∨ f = 2 ∨ f = 3) (hAN : A + N < 2 ^ 32) (hbuf : ∀ i, buf i < 256) :
    (∀ {τ : Type} (D : Device τ) (w w1 : World τ),
      auxspi_write_data D fuel A buf N f ir w = Except.ok w1 →
      ∃ ks : Nat → Nat, (∀ k, 1 ≤ ks k) ∧
        w1.trace = w.trace ++ (List.range ((N + WriteBurst f - 1) / WriteBurst f)).flatMap
          (fun k => cycle_ops ir (write_header f (A + k * WriteBurst f))
            (chunk buf (WriteBurst f) N k) (ks k))) ∧
    (∀ k, (chunk buf (WriteBurst f) N k).length = min (WriteBurst f) (N - k * WriteBurst f)) ∧
    (List.range ((N + WriteBurst f - 1) / WriteBurst f)).flatMap (chunk buf (WriteBurst f) N) =
      (List.range N).map buf ∧
    (∀ (c : Chip) (tr : List Op), c.family = f → c.well_formed → c.latency < fuel →
      (N + WriteBurst f - 1) / WriteBurst f ≤ fuel →
      ∃ w1, auxspi_write_data sim fuel A buf N f ir ⟨c, tr⟩ = Except.ok w1) := by
  have hb : (fun i => buf i % 256) = buf := by
    funext i
    exact Nat.mod_eq_of_lt (hbuf i)
  refine ⟨?_, ?_, chunks_cover buf f N, ?_⟩
  · intro τ D w w1 h
    have ht := write_data_trace D fuel A N f buf ir w w1 hf hAN h
    rw [hb] at ht
    exact ht
  · intro k
    exact slice_length _ _ _
  · intro c tr hfam hwf hlat hfuel
    obtain ⟨w1, hw1, _⟩ := write_data_chip fuel A N f buf ir ⟨c, tr⟩ hf hfam hwf hAN hlat hfuel
    exact ⟨w1, hw1⟩

/-- Witness of C3: 600 bytes at address 0 on family 3 are written in 3 cycles
of 256, 256 and 88 bytes. -/
theorem write_data_chunking_witness :
    (600 + WriteBurst 3 - 1) / WriteBurst 3 = 3 ∧
    (chunk ramp (WriteBurst 3) 600 0).length = 256 ∧
    (chunk ramp (WriteBurst 3) 600 1).length = 256 ∧
    (chunk ramp (WriteBurst 3) 600 2).length = 88 ∧
    ∃ w1, auxspi_write_data sim 5 0 ramp 600 3 false (chip_world flash_demo) = Except.ok w1 ∧
      ∃ ks : Nat → Nat, w1.trace = (List.range 3).flatMap
        (fun k => cycle_ops false (write_header 3 (0 + k * 256)) (chunk ramp 256 600 k) (ks k)) :=
  have h := write_data_chunking 5 0 600 3 ramp false (by decide) (by decide)
    (fun i => Nat.mod_lt i (by decide))
  have hwf : flash_demo.well_formed := Or.inr (Or.inr ⟨rfl, by decide⟩)
  ⟨by decide, (h.2.1 0).trans (by decide), (h.2.1 1).trans (by decide),
    (h.2.1 2).trans (by decide),
    by
      obtain ⟨w1, hw1⟩ := h.2.2.2 flash_demo [] rfl hwf (by decide) (by decide)
      obtain ⟨ks, _, hks⟩ := h.1 sim (chip_world flash_demo) w1 hw1
      exact ⟨w1, hw1, ks, by simpa [chip_world] using hks⟩⟩

/-! ## Reading back -/

theorem store_get (cap : Nat) (buf : Nat → Nat) :
    ∀ (m a p : Nat) (mem : Nat → Nat) (x : Nat), a + m ≤ cap →
      store cap buf m a p mem x =
        if a ≤ x ∧ x < a + m then buf (p + (x - a)) % 256 else mem x := by
  intro m
  induction m with
  | zero =>
    intro a p mem x _
    have h : ¬ (a ≤ x ∧ x < a + 0) := by omega
    simp only [store, h, if_false]
  | succ m ih =>
    intro a p mem x hle
    simp only [store]
    rw [ih (a + 1) (p + 1) _ x (by omega), Nat.mod_eq_of_lt (show a < cap by omega)]
    by_cases h1 : a + 1 ≤ x ∧ x < a + 1 + m
    · have h2 : a ≤ x ∧ x < a + (m + 1) := by omega
      simp only [h1, h2, and_self, if_true]
      rw [show p + 1 + (x - (a + 1)) = p + (x - a) by omega]
    · simp only [h1, if_false]
      by_cases h3 : x = a
      · subst h3
        have h2 : x ≤ x ∧ x < x + (m + 1) := by omega
        simp only [h2, and_self, if_true, Function.update_same, Nat.sub_self, Nat.add_zero]
      · have h2 : ¬ (a ≤ x ∧ x < a + (m + 1)) := by omega
        simp only [h2, if_false, Function.update_noteq h3]

theorem clock_out_reading (c : Chip) (h : c.reading) :
    Chip.clock_out c = { c with out := c.mem (c.ptr % c.capacity), ptr := c.ptr + 1 } := by
  obtain ⟨cmd, rest, hrx, hread, hlen⟩ := h
  unfold Chip.clock_out
  rw [hrx]
  simp only [hlen, lt_irrefl, if_false, hread, if_true]

theorem read_loop_chip :
    ∀ (cnt i : Nat) (buf : Nat → Nat) (w : World Chip), w.dev.reading →
      (read_loop sim cnt i buf w).1 =
        (fun j => if i ≤ j ∧ j < i + cnt
          then w.dev.mem ((w.dev.ptr + (j - i)) % w.dev.capacity) % 256 else buf j) ∧
      ∃ o, (read_loop sim cnt i buf w).2.dev = { w.dev with ptr := w.dev.ptr + cnt, out := o } := by
  intro cnt
  induction cnt with
  | zero =>
    intro i buf w _
    refine ⟨?_, w.dev.out, rfl⟩
    funext j
    have h : ¬ (i ≤ j ∧ j < i + 0) := by omega
    simp only [read_loop, h, if_false]
  | succ n ih =>
    intro i buf w hread
    unfold read_loop
    have hdev : (auxspi_read sim w).2.dev =
        { w.dev with out := w.dev.mem (w.dev.ptr % w.dev.capacity), ptr := w.dev.ptr + 1 } := by
      rw [read_dev, clock_out_reading _ hread]
    have hval : (auxspi_read sim w).1 = w.dev.mem (w.dev.ptr % w.dev.capacity) % 256 := by
      rw [read_val, clock_out_reading _ hread]
    have hread1 : (auxspi_read sim w).2.dev.reading := by
      rw [hdev]
      obtain ⟨cmd, rest, hrx, hr, hlen⟩ := hread
      exact ⟨cmd, rest, hrx, hr, hlen⟩
    obtain ⟨h1, o, h2⟩ := ih (i + 1) (Function.update buf i (auxspi_read sim w).1)
      (auxspi_read sim w).2 hread1
    refine ⟨?_, o, ?_⟩
    · rw [h1]
      simp only [hdev, hval]
      funext j
      by_cases hj : i + 1 ≤ j ∧ j < i + 1 + n
      · have hj2 : i ≤ j ∧ j < i + (n + 1) := by omega
        simp only [hj, hj2, and_self, if_true]
        rw [show w.dev.ptr + 1 + (j - (i + 1)) = w.dev.ptr + (j - i) by omega]
      · simp only [hj, if_false]
        by_cases hji : j = i
        · subst hji
          have hj2 : j ≤ j ∧ j < j + (n + 1) := by omega
          simp only [hj2, and_self, if_true, Function.update_same, Nat.sub_self, Nat.add_zero]
        · have hj2 : ¬ (i ≤ j ∧ j < i + (n + 1)) := by omega
          simp only [hj2, if_false, Function.update_noteq hji]
    · rw [h2, hdev]
      simp [Nat.add_assoc, Nat.add_comm 1]

theorem read_header_chip (f addr : Nat) (ir : Bool) (w : World Chip)
    (hf : f = 1 ∨ f = 2 ∨ f = 3) (hfam : w.dev.family = f) (haddr : addr < addr_space f) :
    (auxspi_write sim (addr &&& 0xFF)
      (if f ≥ 2 then auxspi_write sim ((addr >>> 8) &&& 0xFF)
          (if f = 3 then auxspi_write sim ((addr >>> 16) &&& 0xFF)
            (auxspi_write sim (0x03 ||| (if f = 1 then ((addr >>> 8) <<< 3) % 2 ^ 32 else 0))
              (auxspi_open sim 0 (ir_gate sim ir w)))
          else (auxspi_write sim (0x03 ||| (if f = 1 then ((addr >>> 8) <<< 3) % 2 ^ 32 else 0))
              (auxspi_open sim 0 (ir_gate sim ir w))))
        else (if f = 3 then auxspi_write sim ((addr >>> 16) &&& 0xFF)
            (auxspi_write sim (0x03 ||| (if f = 1 then ((addr >>> 8) <<< 3) % 2 ^ 32 else 0))
              (auxspi_open sim 0 (ir_gate sim ir w)))
          else (auxspi_write sim (0x03 ||| (if f = 1 then ((addr >>> 8) <<< 3) % 2 ^ 32 else 0))
              (auxspi_open sim 0 (ir_gate sim ir w)))))).dev =
      { w.dev with rx := read_header f addr, ptr := addr, dirty := false } := by
  rcases hf with h | h | h <;> subst h
  · have hlt : addr < 512 := haddr
    have hb : addr / 256 = 0 ∨ addr / 256 = 1 := by omega
    rcases hb with hb | hb
    · simp [write_dev, open_dev, ir_gate_dev, shr8, and_ff, Nat.shiftLeft_eq, hb, Chip.clock_in,
        hfam, read_header, Chip.header_len, Chip.is_read, Chip.is_program, Chip.decode]
      omega
    · simp [write_dev, open_dev, ir_gate_dev, shr8, and_ff, Nat.shiftLeft_eq, hb, Chip.clock_in,
        hfam, read_header, Chip.header_len, Chip.is_read, Chip.is_program, Chip.decode]
      omega
  · have hlt : addr < 65536 := haddr
    simp [write_dev, open_dev, ir_gate_dev, shr8, and_ff, Chip.clock_in,
        hfam, read_header, Chip.header_len, Chip.is_read, Chip.is_program, Chip.decode]
    omega
  · have hlt : addr < 2 ^ 24 := haddr
    simp [write_dev, open_dev, ir_gate_dev, shr8, shr16, and_ff, Chip.clock_in,
        hfam, read_header, Chip.header_len, Chip.is_read, Chip.is_program, Chip.decode]
    omega

theorem read_header_reading (c : Chip) (f addr : Nat) (hf : f = 1 ∨ f = 2 ∨ f = 3)
    (hfam : c.family = f) (haddr : addr < addr_space f) (hrx : c.rx = read_header f addr) :
    c.reading ∧ c.rx.head? ≠ some 0xD8 := by
  rcases hf with h | h | h <;> subst h
  · have hlt : addr < 512 := haddr
    have hb : addr / 256 = 0 ∨ addr / 256 = 1 := by omega
    rcases hb with hb | hb
    · exact ⟨⟨3, [addr % 256], by simp [hrx, read_header, hb], by simp [Chip.is_read],
        by simp [Chip.header_len, Chip.is_read, hfam]⟩, by simp [hrx, read_header, hb]⟩
    · exact ⟨⟨11, [addr % 256], by simp [hrx, read_header, hb], by simp [Chip.is_read, hfam],
        by simp [Chip.header_len, Chip.is_read, hfam]⟩, by simp [hrx, read_header, hb]⟩
  · exact ⟨⟨3, [addr / 256 % 256, addr % 256], by simp [hrx, read_header],
      by simp [Chip.is_read], by simp [Chip.header_len, Chip.is_read, hfam]⟩,
      by simp [hrx, read_header]⟩
  · exact ⟨⟨3, [addr / 65536 % 256, addr / 256 % 256, addr % 256], by simp [hrx, read_header],
      by simp [Chip.is_read], by simp [Chip.header_len, Chip.is_read, hfam]⟩,
      by simp [hrx, read_header]⟩

theorem read_data_chip (addr cnt f : Nat) (buf : Nat → Nat) (ir : Bool) (w : World Chip)
    (hf : f = 1 ∨ f = 2 ∨ f = 3) (hfam : w.dev.family = f) (haddr : addr < addr_space f) :
    (auxspi_read_data sim addr buf cnt f ir w).1 =
      (fun j => if j < cnt then w.dev.mem ((addr + j) % w.dev.capacity) % 256 else buf j) ∧
    ∃ p o, (auxspi_read_data sim addr buf cnt f ir w).2.dev =
      { w.dev with rx := [], ptr := p, dirty := false, out := o } := by
  have hf0 : f ≠ 0 := by omega
  have hhdr := read_header_chip f addr ir w hf hfam haddr
  unfold auxspi_read_data
  simp only [hf0, if_false]
  generalize hW : (auxspi_write sim (addr &&& 0xFF)
      (if f ≥ 2 then auxspi_write sim ((addr >>> 8) &&& 0xFF)
          (if f = 3 then auxspi_write sim ((addr >>> 16) &&& 0xFF)
            (auxspi_write sim (0x03 ||| (if f = 1 then ((addr >>> 8) <<< 3) % 2 ^ 32 else 0))
              (auxspi_open sim 0 (ir_gate sim ir w)))
          else (auxspi_write sim (0x03 ||| (if f = 1 then ((addr >>> 8) <<< 3) % 2 ^ 32 else 0))
              (auxspi_open sim 0 (ir_gate sim ir w))))
        else (if f = 3 then auxspi_write sim ((addr >>> 16) &&& 0xFF)
            (auxspi_write sim (0x03 ||| (if f = 1 then ((addr >>> 8) <<< 3) % 2 ^ 32 else 0))
              (auxspi_open sim 0 (ir_gate sim ir w)))
          else (auxspi_write sim (0x03 ||| (if f = 1 then ((addr >>> 8) <<< 3) % 2 ^ 32 else 0))
              (auxspi_open sim 0 (ir_gate sim ir w)))))) = W at hhdr ⊢
  obtain ⟨hreading, hhead⟩ := read_header_reading W.dev f addr hf (by rw [hhdr]; exact hfam) haddr
    (by rw [hhdr])
  obtain ⟨h1, o, h2⟩ := read_loop_chip cnt 0 buf W hreading
  refine ⟨?_, addr + cnt, o, ?_⟩
  · rw [h1, hhdr]
    funext j
    simp
  · rw [close_dev, h2]
    rw [hhdr] at hhead ⊢
    simp only at hhead
    simp [Chip.deselect, hhead]

/-! ## Round trip -/

theorem well_formed_bounds (c : Chip) (f : Nat) (hwf : c.well_formed) (hfam : c.family = f) :
    (f = 1 ∨ f = 2 ∨ f = 3) ∧ c.capacity ≤ addr_space f ∧ addr_space f ≤ 2 ^ 24 := by
  rcases hwf with ⟨h1, h2⟩ | ⟨h1, h2⟩ | ⟨h1, h2⟩
  · rw [← hfam, h1, h2]
    exact ⟨Or.inl rfl, by decide, by decide⟩
  · rw [← hfam, h1]
    exact ⟨Or.inr (Or.inl rfl), Nat.le_of_dvd (by decide) h2, by decide⟩
  · rw [← hfam, h1]
    exact ⟨Or.inr (Or.inr rfl), Nat.le_of_dvd (by decide) h2, by decide⟩

/-- C4: on a simulated chip of family 1, 2 or 3 (512 cells for family 1),
for every address `A` and count `N` with `A + N ≤ capacity`,
`auxspi_write_data(A, buf, N, f)` returns and a following
`auxspi_read_data(A, out, N, f)` leaves `out[0..N)` equal to `buf[0..N)` and
the rest of `out` as it was, whatever the number of bursts `N` spans. -/
theorem write_read_round_trip (fuel A N : Nat) (buf out : Nat → Nat) (ir ir2 : Bool)
    (c : Chip) (tr : List Op) (hwf : c.well_formed) (hcap : A + N ≤ c.capacity)
    (hbuf : ∀ i, buf i < 256) (hlat : c.latency < fuel)
    (hfuel : (N + WriteBurst c.family - 1) / WriteBurst c.family ≤ fuel) :
    ∃ w1, auxspi_write_data sim fuel A buf N c.family ir ⟨c, tr⟩ = Except.ok w1 ∧
      (∀ i, i < N → (auxspi_read_data sim A out N c.family ir2 w1).1 i = buf i) ∧
      (∀ i, N ≤ i → (auxspi_read_data sim A out N c.family ir2 w1).1 i = out i) := by
  obtain ⟨hf, hc1, hc2⟩ := well_formed_bounds c c.family hwf rfl
  have hAN : A + N < 2 ^ 32 := by
    have : (2 : Nat) ^ 24 < 2 ^ 32 := by decide
    omega
  obtain ⟨w1, hw1, hd1⟩ := write_data_chip fuel A N c.family buf ir ⟨c, tr⟩ hf rfl hwf hAN hlat
    hfuel
  refine ⟨w1, hw1, ?_⟩
  by_cases hN : 0 < N
  · simp only [hN, if_true] at hd1
    have hfam1 : w1.dev.family = c.family := by rw [hd1]; rfl
    obtain ⟨hr, _⟩ := read_data_chip A N c.family out ir2 w1 hf hfam1 (by omega)
    rw [hr, hd1]
    constructor
    · intro i hi
      have hcell : (A + i) % c.capacity = A + i := Nat.mod_eq_of_lt (by omega)
      simp only [hi, if_true, Chip.idle, hcell]
      rw [store_get c.capacity buf N A 0 c.mem (A + i) hcap]
      have hin : A ≤ A + i ∧ A + i < A + N := by omega
      simp only [hin, and_self, if_true, Nat.zero_add, Nat.add_sub_cancel_left]
      rw [Nat.mod_mod, Nat.mod_eq_of_lt (hbuf i)]
    · intro i hi
      have hni : ¬ i < N := by omega
      simp only [hni, if_false]
  · have h0 : N = 0 := by omega
    subst h0
    constructor
    · intro i hi
      omega
    · intro i _
      have hf0 : c.family ≠ 0 := by omega
      simp [auxspi_read_data, hf0, read_loop]

/-- Witness of C4: 3 bursts and 5 bytes (101 bytes) at address 1000 of the
64 KB family-2 chip. -/
theorem write_read_round_trip_witness :
    1000 + 101 ≤ fram_demo.capacity ∧
    ∃ w1, auxspi_write_data sim 4 1000 ramp (3 * WriteBurst 2 + 5) 2 false
        (chip_world fram_demo) = Except.ok w1 ∧
      ∀ i, i < 101 → (auxspi_read_data sim 1000 (fun _ => 0) 101 2 true w1).1 i = ramp i :=
  have hwf : fram_demo.well_formed := Or.inr (Or.inl ⟨rfl, by decide⟩)
  have h := write_read_round_trip 4 1000 101 ramp (fun _ => 0) false true fram_demo [] hwf
    (by decide) (fun i => Nat.mod_lt i (by decide)) (by decide) (by decide)
  ⟨by decide, by
    obtain ⟨w1, hw1, hr, _⟩ := h
    exact ⟨w1, hw1, hr⟩⟩

/-! ## Addressing width -/

theorem read_loop_trace (D : Device σ) :
    ∀ (cnt i : Nat) (buf : Nat → Nat) (w : World σ),
      (read_loop D cnt i buf w).2.trace = w.trace ++ List.replicate cnt Op.read := by
  intro cnt
  induction cnt with
  | zero => intro i buf w; simp [read_loop]
  | succ n ih =>
    intro i buf w
    unfold read_loop
    simp only [ih]
    simp [auxspi_read, List.replicate_succ]

theorem read_cmd1_norm (a : Nat) : (3 ||| a / 256 * 8 % 4294967296) % 256 = (3 + 8 * (a / 256)) % 256 := by
  have h := read_cmd1 a
  rw [Nat.shiftRight_eq_div_pow, Nat.shiftLeft_eq] at h
  exact h

theorem read_data_trace (D : Device σ) (addr cnt f : Nat) (buf : Nat → Nat) (ir : Bool)
    (w : World σ) (hf : f = 1 ∨ f = 2 ∨ f = 3) :
    (auxspi_read_data D addr buf cnt f ir w).2.trace = w.trace ++ read_ops ir f addr cnt := by
  rcases hf with h | h | h <;> subst h
  · simp [auxspi_read_data, read_loop_trace, auxspi_close, auxspi_write, auxspi_open,
      ir_gate_trace, read_ops, read_header, shr8, and_ff, Nat.shiftLeft_eq, read_cmd1_norm]
  · simp [auxspi_read_data, read_loop_trace, auxspi_close, auxspi_write, auxspi_open,
      ir_gate_trace, read_ops, read_header, shr8, and_ff]
  · simp [auxspi_read_data, read_loop_trace, auxspi_close, auxspi_write, auxspi_open,
      ir_gate_trace, read_ops, read_header, shr8, shr16, and_ff]

/-- C5, as the code has it: every read is the single transaction `open`,
header, `cnt` reads, `close`, and every write cycle's command phase is `open`,
header, data, `close-lite`, where the header is the command byte followed by
ONE address byte for family 1 (address bit 8 folded into bit 3 of the command
byte, for addresses below 512), TWO address bytes for family 2 and THREE
address bytes for family 3. -/
theorem addressing_width (addr cnt f : Nat) (buf : Nat → Nat) (ir : Bool)
    (hf : f = 1 ∨ f = 2 ∨ f = 3) (hAN : addr + cnt < 2 ^ 32) :
    (∀ {τ : Type} (D : Device τ) (w : World τ),
      (auxspi_read_data D addr buf cnt f ir w).2.trace =
        w.trace ++ (ir_ops ir ++ [Op.open_ 0] ++ (read_header f addr).map Op.write ++
          List.replicate cnt Op.read ++ [Op.close])) ∧
    (∀ {τ : Type} (D : Device τ) (fuel : Nat) (w w1 : World τ),
      auxspi_write_data D fuel addr buf cnt f ir w = Except.ok w1 →
      ∃ ks : Nat → Nat,
        w1.trace = w.trace ++ (List.range ((cnt + WriteBurst f - 1) / WriteBurst f)).flatMap
          (fun k => ir_ops ir ++ [Op.open_ 0, Op.write 0x06, Op.close_lite] ++
            ir_ops ir ++ [Op.open_ 0] ++
            (write_header f (addr + k * WriteBurst f) ++
              chunk (fun i => buf i % 256) (WriteBurst f) cnt k).map Op.write ++
            [Op.close_lite] ++
            ir_ops ir ++ [Op.open_ 0, Op.write 0x05] ++ poll_ops (ks k) ++
            [Op.wait_busy, Op.close])) ∧
    (∀ a, a < 512 → read_header 1 a = [0x03 + 8 * (a / 256 % 2), a % 256] ∧
      write_header 1 a = [0x02 + 8 * (a / 256 % 2), a % 256]) ∧
    (∀ a, read_header 2 a = [0x03, a / 256 % 256, a % 256] ∧
      write_header 2 a = [0x02, a / 256 % 256, a % 256]) ∧
    (∀ a, read_header 3 a = [0x03, a / 65536 % 256, a / 256 % 256, a % 256] ∧
      write_header 3 a = [0x02, a / 65536 % 256, a / 256 % 256, a % 256]) := by
  refine ⟨?_, ?_, ?_, ?_, ?_⟩
  · intro τ D w
    exact read_data_trace D addr cnt f buf ir w hf
  · intro τ D fuel w w1 h
    obtain ⟨ks, _, hks⟩ := write_data_trace D fuel addr cnt f buf ir w w1 hf hAN h
    exact ⟨ks, hks⟩
  · intro a ha
    have hb : a / 256 = 0 ∨ a / 256 = 1 := by omega
    rcases hb with hb | hb <;> simp [read_header, write_header, hb]
  · intro a
    simp [read_header, write_header]
  · intro a
    simp [read_header, write_header]

/-- Witness of C5 (amended): a 2-byte read at 0x1234 on family 2. -/
theorem addressing_width_witness :
    (auxspi_read_data scripted 0x1234 (fun _ => 0) 2 2 false (script_world [7, 9])).2.trace =
      [Op.open_ 0, Op.write 0x03, Op.write 0x12, Op.write 0x34, Op.read, Op.read, Op.close] :=
  ((addressing_width 0x1234 2 2 (fun _ => 0) false (by decide) (by decide)).1
    scripted (script_world [7, 9])).trans (by decide)

/-- Counterexample to C5 as stated: a family-2 read sends two address bytes
after the command byte (three bytes written, where the claim has two), a
family-3 read three (four bytes written, where the claim has three), and so do
the write bursts. -/
theorem addressing_width_counterexample :
    (auxspi_read_data scripted 0x1234 (fun _ => 0) 0 2 false (script_world [])).2.trace =
      [Op.open_ 0, Op.write 0x03, Op.write 0x12, Op.write 0x34, Op.close] ∧
    write_count
      (auxspi_read_data scripted 0x1234 (fun _ => 0) 0 2 false (script_world [])).2.trace ≠
      1 + 1 ∧
    (auxspi_read_data scripted 0x123456 (fun _ => 0) 0 3 false (script_world [])).2.trace =
      [Op.open_ 0, Op.write 0x03, Op.write 0x12, Op.write 0x34, Op.write 0x56, Op.close] ∧
    write_count
      (auxspi_read_data scripted 0x123456 (fun _ => 0) 0 3 false (script_world [])).2.trace ≠
      1 + 2 ∧
    (match auxspi_write_data scripted 1 0x1234 (fun _ => 0xAB) 1 2 false (script_world [0]) with
      | Except.ok w => w.trace
      | Except.error _ => []) =
      [Op.open_ 0, Op.write 0x06, Op.close_lite,
       Op.open_ 0, Op.write 0x02, Op.write 0x12, Op.write 0x34, Op.write 0xAB, Op.close_lite,
       Op.open_ 0, Op.write 0x05, Op.set_data 0, Op.wait_busy, Op.wait_busy, Op.close] := by
  refine ⟨by decide, by decide, by decide, by decide, by decide⟩

/-! ## Unknown chip -/

/-- C10: with family hint 0 and a detection that yields family 0,
`auxspi_read_data` issues the two detection probes and nothing else and
leaves the caller's buffer unchanged, and `auxspi_write_data` returns having
issued the two detection probes and nothing else. -/
theorem unknown_chip_noop (D : Device σ) (fuel addr cnt : Nat) (buf : Nat → Nat) (ir : Bool)
    (w : World σ) :
    ((auxspi_save_type D ir w).1 = 0 →
      (auxspi_read_data D addr buf cnt 0 ir w).1 = buf ∧
      (auxspi_read_data D addr buf cnt 0 ir w).2.trace = w.trace ++ probe_ops ir) ∧
    ((auxspi_save_type D save_type_default_ir w).1 = 0 →
      ∃ w1, auxspi_write_data D fuel addr buf cnt 0 ir w = Except.ok w1 ∧
        w1.trace = w.trace ++ probe_ops save_type_default_ir) := by
  constructor
  · intro h
    unfold auxspi_read_data
    simp only [if_true, h]
    exact ⟨trivial, save_type_trace D ir w⟩
  · intro h
    unfold auxspi_write_data
    simp only [if_true, h]
    exact ⟨_, rfl, save_type_trace D save_type_default_ir w⟩

/-- Witness of C10: a device answering JEDEC 0xFFFFFF and status 0x55. -/
theorem unknown_chip_noop_witness :
    (auxspi_save_type scripted true (script_world [0xFF, 0xFF, 0xFF, 0x55])).1 = 0 ∧
    (auxspi_read_data scripted 0 (fun _ => 0xEE) 4 0 true
      (script_world [0xFF, 0xFF, 0xFF, 0x55])).2.trace =
      [Op.disable_infrared, Op.open_ 0, Op.write 0x9f, Op.read, Op.read, Op.read, Op.close,
       Op.disable_infrared, Op.open_ 0, Op.write 0x05, Op.read, Op.close] :=
  ⟨by decide,
    ((unknown_chip_noop scripted 1 0 4 (fun _ => 0xEE) true
      (script_world [0xFF, 0xFF, 0xFF, 0x55])).1 (by decide)).2.trans (by decide)⟩

/-! ## The family-2 probe -/

theorem same_config_well_formed (c d : Chip) (h : c.same_config d) (hwf : c.well_formed) :
    d.well_formed := by
  obtain ⟨h1, h2, _, _⟩ := h
  unfold Chip.well_formed
  rw [h1, h2]
  exact hwf

theorem read_byte_chip (addr : Nat) (ir : Bool) (w : World Chip) (hfam : w.dev.family = 2)
    (haddr : addr < 65536) :
    (auxspi_read_data sim addr (fun _ => 0) 1 2 ir w).1 0 =
      w.dev.mem (addr % w.dev.capacity) % 256 ∧
    w.dev.same_config (auxspi_read_data sim addr (fun _ => 0) 1 2 ir w).2.dev ∧
    (auxspi_read_data sim addr (fun _ => 0) 1 2 ir w).2.dev.mem = w.dev.mem := by
  obtain ⟨h1, p, o, h2⟩ := read_data_chip addr 1 2 (fun _ => 0) ir w (Or.inr (Or.inl rfl)) hfam
    haddr
  rw [h1, h2]
  exact ⟨by simp, ⟨rfl, rfl, rfl, rfl⟩, rfl⟩

theorem write_byte_chip (fuel addr v : Nat) (ir : Bool) (w : World Chip)
    (hfam : w.dev.family = 2) (hwf : w.dev.well_formed) (hlat : w.dev.latency < fuel)
    (haddr : addr < 65536) :
    ∃ w1, auxspi_write_data sim fuel addr (fun _ => v) 1 2 ir w = Except.ok w1 ∧
      w.dev.same_config w1.dev ∧
      w1.dev.mem = Function.update w.dev.mem (addr % w.dev.capacity) (v % 256) := by
  obtain ⟨w1, hw1, hd1⟩ := write_data_chip fuel addr 1 2 (fun _ => v) ir w (Or.inr (Or.inl rfl))
    hfam hwf (by omega) hlat (by
      have h : (1 + WriteBurst 2 - 1) / WriteBurst 2 = 1 := by decide
      omega)
  refine ⟨w1, hw1, ?_⟩
  simp only [Nat.lt_one_iff, zero_lt_one, if_true] at hd1
  rw [hd1]
  exact ⟨⟨rfl, rfl, rfl, rfl⟩, rfl⟩

theorem not8_lt (v : Nat) : not8 v < 256 := by
  unfold not8
  omega

theorem not8_ne (v : Nat) : not8 v ≠ v := by
  unfold not8
  omega

theorem type2_size_chip (fuel : Nat) (ir : Bool) (w : World Chip) (hfam : w.dev.family = 2)
    (hwf : w.dev.well_formed) (hlat : w.dev.latency < fuel) :
    ∃ w1, type2_size sim fuel ir w = Except.ok
        (if 16383 % w.dev.capacity = 8191 % w.dev.capacity then 0x0d else 0x10, w1) ∧
      w.dev.same_config w1.dev ∧
      w1.dev.mem = Function.update w.dev.mem (8191 % w.dev.capacity)
        (w.dev.mem (8191 % w.dev.capacity) % 256) := by
  unfold type2_size
  simp only []
  obtain ⟨hb1, hc1, hm1⟩ := read_byte_chip 8191 ir w hfam (by decide)
  generalize hW1 : auxspi_read_data sim (8 * 1024 - 1) (fun _ => 0) 1 2 ir w = R1 at hb1 hc1 hm1
  have hfam1 : R1.2.dev.family = 2 := by rw [hc1.1]; exact hfam
  have hwf1 := same_config_well_formed _ _ hc1 hwf
  obtain ⟨hb2, hc2, hm2⟩ := read_byte_chip 16383 ir R1.2 hfam1 (by decide)
  generalize hW2 : auxspi_read_data sim (2 * 8 * 1024 - 1) (fun _ => 0) 1 2 ir R1.2 = R2
    at hb2 hc2 hm2
  have hfam2 : R2.2.dev.family = 2 := by rw [hc2.1]; exact hfam1
  have hwf2 := same_config_well_formed _ _ hc2 hwf1
  have hlat2 : R2.2.dev.latency < fuel := by rw [hc2.2.2.1, hc1.2.2.1]; exact hlat
  obtain ⟨W3, hw3, hc3, hm3⟩ := write_byte_chip fuel 8191 (not8 (R1.1 0)) ir R2.2 hfam2 hwf2
    hlat2 (by decide)
  simp only [hw3]
  have hfam3 : W3.dev.family = 2 := by rw [hc3.1]; exact hfam2
  have hwf3 := same_config_well_formed _ _ hc3 hwf2
  obtain ⟨hb4, hc4, hm4⟩ := read_byte_chip 16383 ir W3 hfam3 (by decide)
  generalize hW4 : auxspi_read_data sim (2 * 8 * 1024 - 1) (fun _ => 0) 1 2 ir W3 = R4
    at hb4 hc4 hm4
  have hfam4 : R4.2.dev.family = 2 := by rw [hc4.1]; exact hfam3
  have hwf4 := same_config_well_formed _ _ hc4 hwf3
  have hlat4 : R4.2.dev.latency < fuel := by rw [hc4.2.2.1, hc3.2.2.1]; exact hlat2
  obtain ⟨W5, hw5, hc5, hm5⟩ := write_byte_chip fuel 8191 (R1.1 0) ir R4.2 hfam4 hwf4
    hlat4 (by decide)
  simp only [hw5]
  have hcap1 : R1.2.dev.capacity = w.dev.capacity := hc1.2.1
  have hcap2 : R2.2.dev.capacity = w.dev.capacity := by rw [hc2.2.1, hcap1]
  have hcap3 : W3.dev.capacity = w.dev.capacity := by rw [hc3.2.1, hcap2]
  have hcap4 : R4.2.dev.capacity = w.dev.capacity := by rw [hc4.2.1, hcap3]
  have hb1lt : R1.1 0 < 256 := by rw [hb1]; exact Nat.mod_lt _ (by decide)
  have hmem3 : W3.dev.mem = Function.update w.dev.mem (8191 % w.dev.capacity) (not8 (R1.1 0)) := by
    rw [hm3, hm2, hm1, hcap2, Nat.mod_eq_of_lt (not8_lt _)]
  have hmem5 : W5.dev.mem = Function.update w.dev.mem (8191 % w.dev.capacity)
      (w.dev.mem (8191 % w.dev.capacity) % 256) := by
    rw [hm5, hm4, hmem3, hcap4, Nat.mod_eq_of_lt hb1lt, hb1]
    simp
  have hconf : w.dev.same_config W5.dev := by
    obtain ⟨a1, a2, a3, a4⟩ := hc1
    obtain ⟨b1, b2, b3, b4⟩ := hc2
    obtain ⟨c1, c2, c3, c4⟩ := hc3
    obtain ⟨d1, d2, d3, d4⟩ := hc4
    obtain ⟨e1, e2, e3, e4⟩ := hc5
    exact ⟨by rw [e1, d1, c1, b1, a1], by rw [e2, d2, c2, b2, a2],
      by rw [e3, d3, c3, b3, a3], by rw [e4, d4, c4, b4, a4]⟩
  have hb2v : R2.1 0 = w.dev.mem (16383 % w.dev.capacity) % 256 := by
    rw [hb2, hm1, hcap1]
  have hb4v : R4.1 0 = if 16383 % w.dev.capacity = 8191 % w.dev.capacity
      then not8 (R1.1 0) else w.dev.mem (16383 % w.dev.capacity) % 256 := by
    rw [hb4, hmem3, hcap3]
    by_cases hal : 16383 % w.dev.capacity = 8191 % w.dev.capacity
    · rw [hal, Function.update_same]
      simp only [if_true]
      exact Nat.mod_eq_of_lt (not8_lt _)
    · simp only [hal, if_false, Function.update_noteq hal]
  by_cases hal : 16383 % w.dev.capacity = 8191 % w.dev.capacity
  · have hne : R4.1 0 ≠ R2.1 0 := by
      rw [hb4v, hb2v]
      simp only [hal, if_true]
      rw [← hb1]
      exact not8_ne _
    simp only [hne, ne_eq, not_false_eq_true, if_true, hal]
    exact ⟨W5, rfl, hconf, hmem5⟩
  · have heq : R4.1 0 = R2.1 0 := by
      rw [hb4v, hb2v]
      simp only [hal, if_false]
    simp only [heq, ne_eq, not_true_eq_false, if_false, hal]
    exact ⟨W5, rfl, hconf, hmem5⟩

/-- C6: on a simulated family-2 chip, `type2_size` returns and reports 13
(0x0d) when offset 16383 falls on the cell of offset 8191 (the 8 KB chip) and
16 (0x10) when the two offsets are different cells (the 64 KB chip), whatever
the cells hold. -/
theorem type2_size_probe (fuel : Nat) (ir : Bool) (c : Chip) (tr : List Op)
    (hfam : c.family = 2) (hcap : c.capacity ∣ 65536) (hlat : c.latency < fuel) :
    (16383 % c.capacity = 8191 % c.capacity →
      ∃ w1, type2_size sim fuel ir ⟨c, tr⟩ = Except.ok (0x0d, w1)) ∧
    (16383 % c.capacity ≠ 8191 % c.capacity →
      ∃ w1, type2_size sim fuel ir ⟨c, tr⟩ = Except.ok (0x10, w1)) ∧
    (c.capacity = 8192 → ∃ w1, type2_size sim fuel ir ⟨c, tr⟩ = Except.ok (0x0d, w1)) ∧
    (c.capacity = 65536 → ∃ w1, type2_size sim fuel ir ⟨c, tr⟩ = Except.ok (0x10, w1)) := by
  obtain ⟨w1, hw1, _, _⟩ := type2_size_chip fuel ir ⟨c, tr⟩ hfam (Or.inr (Or.inl ⟨hfam, hcap⟩))
    hlat
  simp only at hw1
  refine ⟨?_, ?_, ?_, ?_⟩
  · intro hal
    simp only [hal, if_true] at hw1
    exact ⟨w1, hw1⟩
  · intro hal
    simp only [hal, if_false] at hw1
    exact ⟨w1, hw1⟩
  · intro h8
    rw [h8] at hw1
    exact ⟨w1, hw1⟩
  · intro h64
    rw [h64] at hw1
    exact ⟨w1, hw1⟩

/-- Witness of C6: the 8 KB chip reports 13, the 64 KB chip 16. -/
theorem type2_size_probe_witness :
    (∃ w1, type2_size sim 3 false (chip_world eeprom8k_demo) = Except.ok (0x0d, w1)) ∧
    (∃ w1, type2_size sim 3 true (chip_world fram_demo) = Except.ok (0x10, w1)) :=
  ⟨(type2_size_probe 3 false eeprom8k_demo [] rfl (by decide) (by decide)).2.2.1 rfl,
    (type2_size_probe 3 true fram_demo [] rfl (by decide) (by decide)).2.2.2 rfl⟩

/-- C7: on a simulated family-2 chip holding bytes, aliased or not,
`type2_size` returns with the cell array exactly as it was before the probe;
in particular the byte at offset 8191 is restored. -/
theorem type2_size_restores (fuel : Nat) (ir : Bool) (c : Chip) (tr : List Op)
    (hfam : c.family = 2) (hcap : c.capacity ∣ 65536) (hlat : c.latency < fuel)
    (hbytes : ∀ a, c.mem a < 256) :
    ∃ r w1, type2_size sim fuel ir ⟨c, tr⟩ = Except.ok (r, w1) ∧ w1.dev.mem = c.mem ∧
      w1.dev.mem (8191 % c.capacity) = c.mem (8191 % c.capacity) := by
  obtain ⟨w1, hw1, _, hm⟩ := type2_size_chip fuel ir ⟨c, tr⟩ hfam
    (Or.inr (Or.inl ⟨hfam, hcap⟩)) hlat
  have hmem : w1.dev.mem = c.mem := by
    rw [hm]
    simp only
    rw [Nat.mod_eq_of_lt (hbytes _), Function.update_eq_self]
  exact ⟨_, w1, hw1, hmem, by rw [hmem]⟩

/-- Witness of C7: the 8 KB and the 64 KB chip keep their content. -/
theorem type2_size_restores_witness :
    (∃ r w1, type2_size sim 3 false (chip_world eeprom8k_demo) = Except.ok (r, w1) ∧
      w1.dev.mem = eeprom8k_demo.mem) ∧
    (∃ r w1, type2_size sim 3 false (chip_world fram_demo) = Except.ok (r, w1) ∧
      w1.dev.mem = fram_demo.mem) :=
  ⟨by
      obtain ⟨r, w1, h1, h2, _⟩ := type2_size_restores 3 false eeprom8k_demo [] rfl (by decide)
        (by decide) (fun a => Nat.mod_lt _ (by decide))
      exact ⟨r, w1, h1, h2⟩,
    by
      obtain ⟨r, w1, h1, h2, _⟩ := type2_size_restores 3 false fram_demo [] rfl (by decide)
        (by decide) (fun a => Nat.mod_lt _ (by decide))
      exact ⟨r, w1, h1, h2⟩⟩

/-! ## Identification of the simulated chip -/

theorem jedec_assemble (b2 b1 b0 : Nat) (h1 : b1 < 256) (h0 : b0 < 256) (h2 : b2 < 256) :
    (((0 ||| b2 <<< 16) % 2 ^ 32 ||| b1 <<< 8) % 2 ^ 32 ||| b0) % 2 ^ 32 =
      b2 * 65536 + b1 * 256 + b0 := by
  rw [Nat.zero_or, Nat.shiftLeft_eq, Nat.shiftLeft_eq]
  have e1 : b2 * 2 ^ 16 % 2 ^ 32 = 2 ^ 16 * b2 := by omega
  rw [e1, ← Nat.mul_add_lt_is_or (by omega) b2]
  have e2 : (2 ^ 16 * b2 + b1 * 2 ^ 8) % 2 ^ 32 = 2 ^ 8 * (256 * b2 + b1) := by omega
  rw [e2, ← Nat.mul_add_lt_is_or (by omega) (256 * b2 + b1)]
  omega

theorem save_jedec_id_chip (ir : Bool) (w : World Chip) :
    (auxspi_save_jedec_id sim ir w).1 = w.dev.jedec % 2 ^ 24 ∧
    ∃ p o, (auxspi_save_jedec_id sim ir w).2.dev =
      { w.dev with rx := [], ptr := p, dirty := false, out := o } := by
  have h0 : (auxspi_write sim 0x9f (auxspi_open sim 0 (ir_gate sim ir w))).dev =
      { w.dev with rx := [0x9f], ptr := 0, dirty := false } := by
    simp [write_dev, open_dev, ir_gate_dev, Chip.clock_in]
  generalize hW0 : auxspi_write sim 0x9f (auxspi_open sim 0 (ir_gate sim ir w)) = W0 at h0
  have hout : ∀ c : Chip, c.rx = [0x9f] → Chip.clock_out c =
      { c with out := c.jedec / 256 ^ (2 - c.ptr) % 256, ptr := c.ptr + 1 } := by
    intro c hc
    simp [Chip.clock_out, hc, Chip.header_len, Chip.is_read, Chip.is_program]
  have h1 : (auxspi_read sim W0).2.dev =
      { w.dev with rx := [0x9f], ptr := 1, dirty := false, out := w.dev.jedec / 65536 % 256 } := by
    rw [read_dev, hout _ (by rw [h0]), h0]
    simp
  have v1 : (auxspi_read sim W0).1 = w.dev.jedec / 65536 % 256 := by
    rw [read_val, hout _ (by rw [h0]), h0]
    simp
  generalize hW1 : auxspi_read sim W0 = W1 at h1 v1
  have h2 : (auxspi_read sim W1.2).2.dev =
      { w.dev with rx := [0x9f], ptr := 2, dirty := false, out := w.dev.jedec / 256 % 256 } := by
    rw [read_dev, hout _ (by rw [h1]), h1]
    simp
  have v2 : (auxspi_read sim W1.2).1 = w.dev.jedec / 256 % 256 := by
    rw [read_val, hout _ (by rw [h1]), h1]
    simp
  generalize hW2 : auxspi_read sim W1.2 = W2 at h2 v2
  have h3 : (auxspi_read sim W2.2).2.dev =
      { w.dev with rx := [0x9f], ptr := 3, dirty := false, out := w.dev.jedec % 256 } := by
    rw [read_dev, hout _ (by rw [h2]), h2]
    simp
  have v3 : (auxspi_read sim W2.2).1 = w.dev.jedec % 256 := by
    rw [read_val, hout _ (by rw [h2]), h2]
    simp
  generalize hW3 : auxspi_read sim W2.2 = W3 at h3 v3
  unfold auxspi_save_jedec_id
  simp only [hW0, hW1, hW2, hW3]
  constructor
  · rw [v1, v2, v3, jedec_assemble _ _ _ (Nat.mod_lt _ (by decide)) (Nat.mod_lt _ (by decide))
      (Nat.mod_lt _ (by decide))]
    omega
  · refine ⟨3, w.dev.jedec % 256, ?_⟩
    rw [close_dev, h3]
    simp [Chip.deselect]

theorem save_status_register_chip (ir : Bool) (w : World Chip) (hbusy : w.dev.busy = 0) :
    (auxspi_save_status_register sim ir w).1 = Chip.status w.dev ∧
    ∃ o, (auxspi_save_status_register sim ir w).2.dev =
      { w.dev with rx := [], ptr := 0, dirty := false, out := o } := by
  have h0 : (auxspi_write sim 0x05 (auxspi_open sim 0 (ir_gate sim ir w))).dev =
      { w.dev with rx := [5], ptr := 0, dirty := false } := by
    simp [write_dev, open_dev, ir_gate_dev, Chip.clock_in]
  generalize hW0 : auxspi_write sim 0x05 (auxspi_open sim 0 (ir_gate sim ir w)) = W0 at h0
  have hout : Chip.clock_out W0.dev =
      { w.dev with rx := [5], ptr := 0, dirty := false, out := Chip.status w.dev } := by
    rw [h0]
    simp [Chip.clock_out, Chip.header_len, Chip.is_read, Chip.is_program, Chip.status, hbusy]
  have hlt : Chip.status w.dev < 256 := by
    unfold Chip.status
    split_ifs <;> omega
  unfold auxspi_save_status_register
  simp only [hW0]
  constructor
  · rw [read_val, hout]
    exact Nat.mod_eq_of_lt hlt
  · refine ⟨Chip.status w.dev, ?_⟩
    rw [close_dev, read_dev, hout]
    simp [Chip.deselect]

/-- The family an idle simulated chip is identified as. -/
theorem save_type_chip (ir : Bool) (w : World Chip) (hbusy : w.dev.busy = 0)
    (hj : w.dev.jedec < 2 ^ 24) :
    (auxspi_save_type sim ir w).1 =
      (if w.dev.family = 1 then (if w.dev.jedec = 0xFFFFFF then 1 else 0)
       else if w.dev.jedec = 0xFFFFFF then 2 else 3) ∧
    w.dev.same_config (auxspi_save_type sim ir w).2.dev ∧
    (auxspi_save_type sim ir w).2.dev.mem = w.dev.mem ∧
    (auxspi_save_type sim ir w).2.dev.busy = 0 := by
  obtain ⟨hjv, p, o, hjd⟩ := save_jedec_id_chip ir w
  have hb1 : (auxspi_save_jedec_id sim ir w).2.dev.busy = 0 := by rw [hjd]; exact hbusy
  obtain ⟨hsv, o2, hsd⟩ := save_status_register_chip ir (auxspi_save_jedec_id sim ir w).2 hb1
  have htab := save_type_value sim ir w _ _ hjv hsv
  refine ⟨?_, ?_, ?_, ?_⟩
  · rw [htab, hjd, Nat.mod_eq_of_lt hj]
    have hst : ∀ (fam : Nat) (wel : Bool),
        ((if fam = 1 then 0xF0 else 0) + (if wel = true then 2 else 0) + 0) &&& 0xFD =
          if fam = 1 then 0xF0 else 0 := by
      intro fam wel
      cases wel <;> split_ifs <;> decide
    simp only [Chip.status, hbusy, lt_irrefl, if_false, hst]
    by_cases h1 : w.dev.family = 1
    · by_cases h2 : w.dev.jedec = 0xFFFFFF <;> simp [h1, h2]
    · by_cases h2 : w.dev.jedec = 0xFFFFFF <;> simp [h1, h2]
  · unfold auxspi_save_type
    simp only [hsd, hjd]
    exact ⟨rfl, rfl, rfl, rfl⟩
  · unfold auxspi_save_type
    simp only [hsd, hjd]
  · unfold auxspi_save_type
    simp only [hsd, hjd]
    exact hbusy

/-! ## Erase, family 3 -/

theorem erase_command_trace (D : Device σ) (ir : Bool) (a b c : Nat) (w : World σ) :
    (erase_command D ir a b c w).trace = w.trace ++ (ir_ops ir ++
      [Op.open_ 0, Op.write 0xd8, Op.write (a % 256), Op.write (b % 256), Op.write (c % 256),
       Op.close_lite]) := by
  simp [erase_command, auxspi_close_lite, auxspi_write, auxspi_open, ir_gate_trace]

theorem erase_loop_trace (D : Device σ) (fuel : Nat) (ir : Bool) :
    ∀ (n i : Nat) (w w1 : World σ), erase_loop D fuel ir n i w = Except.ok w1 →
      ∃ ks : Nat → Nat, (∀ k, 1 ≤ ks k) ∧
        w1.trace = w.trace ++ (List.range n).flatMap
          (fun k => cycle_ops ir [0xd8, (i + k) % 256, 0, 0] [] (ks k)) := by
  intro n
  induction n with
  | zero =>
    intro i w w1 h
    simp only [erase_loop] at h
    injection h with h
    exact ⟨fun _ => 1, fun _ => le_refl _, by simp [h]⟩
  | succ n ih =>
    intro i w w1 h
    unfold erase_loop at h
    simp only at h
    split at h
    · exact absurd h (by simp)
    · rename_i w2 hw2
      obtain ⟨k0, hk1, _, hk3⟩ := wait_phase_trace D fuel ir _ _ hw2
      obtain ⟨ks, hks1, hks2⟩ := ih (i + 1) w2 w1 h
      refine ⟨fun k => if k = 0 then k0 else ks (k - 1), ?_, ?_⟩
      · intro k
        by_cases hk : k = 0
        · simp only [hk, if_true]
          exact hk1
        · simp only [hk, if_false]
          exact hks1 _
      · have e : (List.range n).flatMap
            (fun a => cycle_ops ir [0xd8, (i + a.succ) % 256, 0, 0] []
              (if a.succ = 0 then k0 else ks (a.succ - 1))) =
            (List.range n).flatMap
              (fun k => cycle_ops ir [0xd8, (i + 1 + k) % 256, 0, 0] [] (ks k)) := by
          apply List.flatMap_congr
          intro a _
          simp only [Nat.succ_eq_add_one, Nat.add_sub_cancel, Nat.add_one_ne_zero, if_false]
          rw [show i + (a + 1) = i + 1 + a by omega]
        rw [hks2, hk3, erase_command_trace, wel_phase_trace, List.range_succ_eq_map,
          List.flatMap_cons, List.flatMap_map, e]
        simp [cycle_ops]

theorem shl_one_sector (U : Int → Nat) (e : Nat) (h16 : 16 ≤ e) (h23 : e ≤ 23) :
    shl_one U ((e : Int) - 16) = 2 ^ (e - 16) := by
  interval_cases e <;> rfl

theorem sector_count_lt (e : Nat) (h16 : 16 ≤ e) (h23 : e ≤ 23) :
    2 ^ (e - 16) % 256 = 2 ^ (e - 16) ∧ 2 ^ (e - 16) ≤ 128 := by
  interval_cases e <;> decide

theorem erase_family3_trace (D : Device σ) (X : ExtraTable) (U : Int → Nat) (fuel : Nat) (data : Nat → Nat)
    (ir : Bool) (w w1 w2 : World σ) (e : Nat) (h3 : (auxspi_save_type D ir w).1 = 3)
    (he : auxspi_save_size_log_2 D X fuel ir (auxspi_save_type D ir w).2 = Except.ok (e, w2))
    (h16 : 16 ≤ e) (h23 : e ≤ 23) (h : auxspi_erase D X U fuel data ir w = Except.ok w1) :
    ∃ ks : Nat → Nat, (∀ k, 1 ≤ ks k) ∧
      w1.trace = w2.trace ++ (List.range (2 ^ (e - 16))).flatMap
        (fun i => cycle_ops ir [0xd8, i, 0, 0] [] (ks i)) := by
  unfold auxspi_erase at h
  simp only [h3, if_true, he, shl_one_sector U e h16 h23] at h
  obtain ⟨hs1, hs2⟩ := sector_count_lt e h16 h23
  rw [hs1] at h
  obtain ⟨ks, hks1, hks2⟩ := erase_loop_trace D fuel ir _ 0 w2 w1 h
  refine ⟨ks, hks1, ?_⟩
  rw [hks2]
  congr 1
  apply List.flatMap_congr
  intro k hk
  rw [List.mem_range] at hk
  rw [Nat.zero_add, Nat.mod_eq_of_lt (by omega)]

theorem erase_command_chip (ir : Bool) (a : Nat) (w : World Chip) (hfam : w.dev.family = 3)
    (hwel : w.dev.wel = true) :
    w.dev.same_config (erase_command sim ir a 0 0 w).dev ∧
    (erase_command sim ir a 0 0 w).dev.busy = w.dev.latency := by
  simp [erase_command, close_lite_dev, write_dev, open_dev, ir_gate_dev, Chip.clock_in,
    Chip.header_len, Chip.is_read, Chip.is_program, hfam, hwel, Chip.deselect,
    Chip.same_config]

theorem erase_cycle_chip (fuel : Nat) (ir : Bool) (a : Nat) (w : World Chip)
    (hfam : w.dev.family = 3) (hlat : w.dev.latency < fuel) :
    ∃ w2, wait_phase sim fuel ir (erase_command sim ir a 0 0 (wel_phase sim ir w)) =
        Except.ok w2 ∧ w.dev.same_config w2.dev := by
  obtain ⟨hc, hb⟩ := erase_command_chip ir a (wel_phase sim ir w)
    (by rw [wel_phase_chip]; exact hfam) (by rw [wel_phase_chip])
  rw [wel_phase_chip] at hc hb
  obtain ⟨w2, hw2, hd2⟩ := wait_phase_chip fuel ir
    (erase_command sim ir a 0 0 (wel_phase sim ir w)) (by rw [hb]; exact hlat)
  refine ⟨w2, hw2, ?_⟩
  rw [hd2]
  exact hc

theorem erase_loop_chip (fuel : Nat) (ir : Bool) :
    ∀ (n i : Nat) (w : World Chip), w.dev.family = 3 → w.dev.latency < fuel →
      ∃ w1, erase_loop sim fuel ir n i w = Except.ok w1 := by
  intro n
  induction n with
  | zero => intro i w _ _; exact ⟨w, rfl⟩
  | succ n ih =>
    intro i w hfam hlat
    obtain ⟨w2, hw2, hc⟩ := erase_cycle_chip fuel ir i w hfam hlat
    unfold erase_loop
    simp only [hw2]
    exact ih (i + 1) w2 (by rw [hc.1]; exact hfam) (by rw [hc.2.2.1]; exact hlat)

theorem save_size_log_2_flash (X : ExtraTable) (fuel : Nat) (ir : Bool) (w : World Chip)
    (hfam : w.dev.family = 3) (hbusy : w.dev.busy = 0) (hj : w.dev.jedec < 2 ^ 24)
    (hne : w.dev.jedec ≠ 0xFFFFFF) :
    ∃ w2, auxspi_save_size_log_2 sim X fuel ir w = Except.ok (jedec_table X w.dev.jedec, w2) ∧
      w.dev.same_config w2.dev ∧ w2.trace = w.trace ++ probe_ops ir ++ jedec_ops ir := by
  obtain ⟨ht, hc, _, _⟩ := save_type_chip ir w hbusy hj
  have h3 : (auxspi_save_type sim ir w).1 = 3 := by
    rw [ht]
    simp [hfam, hne]
  obtain ⟨hjv, p, o, hjd⟩ := save_jedec_id_chip ir (auxspi_save_type sim ir w).2
  unfold auxspi_save_size_log_2
  simp only [h3, show ¬ (3 = 1) by decide, show ¬ (3 = 2) by decide, if_false, if_true]
  refine ⟨(auxspi_save_jedec_id sim ir (auxspi_save_type sim ir w).2).2, ?_, ?_, ?_⟩
  · rw [hjv, hc.2.2.2, Nat.mod_eq_of_lt hj]
  · rw [hjd]
    exact hc
  · rw [save_jedec_id_trace, save_type_trace]
    rfl

/-- Sector cycles of `auxspi_erase` for the exponents the one-byte sector
count can hold: when the identification yields family 3 and the JEDEC id
resolves to an exponent `e` with `16 ≤ e ≤ 23`, a run of `auxspi_erase` that
returns has issued, after the identification probes, exactly `2^(e-16)`
write-enable / 0xD8 / poll cycles, the `i`-th carrying the address bytes
`(i, 0, 0)`; on the simulated flash chip the run does return. -/
theorem erase_family3_sectors (X : ExtraTable) (U : Int → Nat) (fuel : Nat) (data : Nat → Nat) (ir : Bool)
    (e : Nat) (h16 : 16 ≤ e) (h23 : e ≤ 23) :
    (∀ {τ : Type} (D : Device τ) (w w1 w2 : World τ), (auxspi_save_type D ir w).1 = 3 →
      auxspi_save_size_log_2 D X fuel ir (auxspi_save_type D ir w).2 = Except.ok (e, w2) →
      auxspi_erase D X U fuel data ir w = Except.ok w1 →
      ∃ ks : Nat → Nat, (∀ k, 1 ≤ ks k) ∧
        w1.trace = w2.trace ++ (List.range (2 ^ (e - 16))).flatMap
          (fun i => cycle_ops ir [0xd8, i, 0, 0] [] (ks i))) ∧
    (∀ (c : Chip) (tr : List Op), c.family = 3 → c.busy = 0 → c.jedec < 2 ^ 24 →
      c.jedec ≠ 0xFFFFFF → jedec_table X c.jedec = e → c.latency < fuel →
      ∃ (w1 : World Chip) (ks : Nat → Nat),
        auxspi_erase sim X U fuel data ir ⟨c, tr⟩ = Except.ok w1 ∧
        w1.trace = tr ++ probe_ops ir ++ probe_ops ir ++ jedec_ops ir ++
          (List.range (2 ^ (e - 16))).flatMap
            (fun i => cycle_ops ir [0xd8, i, 0, 0] [] (ks i))) := by
  constructor
  · intro τ D w w1 w2 h3 he h
    exact erase_family3_trace D X U fuel data ir w w1 w2 e h3 he h16 h23 h
  · intro c tr hfam hbusy hj hne htab hlat
    obtain ⟨ht, hc, _, hb1⟩ := save_type_chip ir ⟨c, tr⟩ hbusy hj
    have h3 : (auxspi_save_type sim ir ⟨c, tr⟩).1 = 3 := by
      rw [ht]
      simp [hfam, hne]
    obtain ⟨w2, hw2, hc2, htr2⟩ := save_size_log_2_flash X fuel ir
      (auxspi_save_type sim ir ⟨c, tr⟩).2 (by rw [hc.1]; exact hfam) hb1
      (by rw [hc.2.2.2]; exact hj) (by rw [hc.2.2.2]; exact hne)
    rw [hc.2.2.2] at hw2
    simp only [htab] at hw2
    obtain ⟨hs1, _⟩ := sector_count_lt e h16 h23
    obtain ⟨w1, hw1⟩ := erase_loop_chip fuel ir (2 ^ (e - 16)) 0 w2
      (by rw [hc2.1, hc.1]; exact hfam) (by rw [hc2.2.2.1, hc.2.2.1]; exact hlat)
    have hrun : auxspi_erase sim X U fuel data ir ⟨c, tr⟩ = Except.ok w1 := by
      unfold auxspi_erase
      simp only [h3, if_true, hw2, shl_one_sector U e h16 h23, hs1]
      exact hw1
    obtain ⟨ks, _, hks⟩ := erase_family3_trace sim X U fuel data ir ⟨c, tr⟩ w1 w2 e h3 hw2 h16 h23
      hrun
    refine ⟨w1, ks, hrun, ?_⟩
    rw [hks, htr2, save_type_trace]

/-- JEDEC 0x204013 (exponent 0x13) gives 8 cycles, sectors 0..7. -/
theorem erase_family3_sectors_witness :
    jedec_table extra_demo flash_demo.jedec = 0x13 ∧
    ∃ (w1 : World Chip) (ks : Nat → Nat),
      auxspi_erase sim extra_demo shift_arm 4 (fun _ => 0) false (chip_world flash_demo) =
        Except.ok w1 ∧
      w1.trace = probe_ops false ++ probe_ops false ++ jedec_ops false ++
        (List.range 8).flatMap (fun i => cycle_ops false [0xd8, i, 0, 0] [] (ks i)) :=
  ⟨by decide, by
    obtain ⟨w1, ks, h1, h2⟩ := (erase_family3_sectors extra_demo shift_arm 4 (fun _ => 0) false 0x13
      (by decide) (by decide)).2 flash_demo [] rfl rfl (by decide) (by decide) (by decide)
      (by decide)
    exact ⟨w1, ks, h1, by simpa using h2⟩⟩

/-- C8 at the failing input: for the 16 MB flash, whose id resolves to
exponent 24, the sector count `1 << (24 - 16) = 256` is stored in the `uint8`
`size` as 0; `auxspi_erase` returns after the identification probes without a
single 0xD8 command, where the claim has 256 sector-erase cycles, sectors
0 .. 255, and the content of the chip is what it was. -/
theorem erase_flash16m_skipped :
    jedec_table extra_demo flash16m_demo.jedec = 24 ∧
    shl_one shift_arm (24 - 16) = 256 ∧ shl_one shift_arm (24 - 16) % 256 = 0 ∧
    (match auxspi_erase sim extra_demo shift_arm 2 (fun _ => 0) false
        (chip_world flash16m_demo) with
      | Except.ok w => w.trace
      | Except.error _ => [Op.write 0xd8]) =
      probe_ops false ++ probe_ops false ++ jedec_ops false ∧
    Op.write 0xd8 ∉ probe_ops false ++ probe_ops false ++ jedec_ops false ∧
    (match auxspi_erase sim extra_demo shift_arm 2 (fun _ => 0) false
        (chip_world flash16m_demo) with
      | Except.ok w => w.dev.mem 0
      | Except.error _ => 0) = 0xFF := by
  refine ⟨by decide, by decide, by decide, by decide, by decide, by decide⟩

/-! ## Erase, families 1 and 2 -/

theorem store_miss (cap : Nat) (buf : Nat → Nat) :
    ∀ (m a p : Nat) (mem : Nat → Nat) (x : Nat), (∀ j, j < m → (a + j) % cap ≠ x) →
      store cap buf m a p mem x = mem x := by
  intro m
  induction m with
  | zero => intro a p mem x _; rfl
  | succ m ih =>
    intro a p mem x h
    simp only [store]
    rw [ih (a + 1) (p + 1) _ x (fun j hj => by
      have := h (j + 1) (by omega)
      rwa [show a + (j + 1) = a + 1 + j by omega] at this)]
    exact Function.update_noteq (fun e => h 0 (by omega) (by rw [Nat.add_zero]; exact e.symm)) _ _

theorem store_hit (cap : Nat) (buf : Nat → Nat) :
    ∀ (m a p : Nat) (mem : Nat → Nat) (x : Nat),
      (∀ q, p ≤ q → q < p + m → buf q % 256 = 0) → (∃ j, j < m ∧ (a + j) % cap = x) →
      store cap buf m a p mem x = 0 := by
  intro m
  induction m with
  | zero =>
    intro a p mem x _ h
    obtain ⟨j, hj, _⟩ := h
    omega
  | succ m ih =>
    intro a p mem x hz h
    simp only [store]
    by_cases hlater : ∃ j, j < m ∧ (a + 1 + j) % cap = x
    · exact ih (a + 1) (p + 1) _ x (fun q h1 h2 => hz q (by omega) (by omega)) hlater
    · rw [store_miss cap buf m (a + 1) (p + 1) _ x (fun j hj e => hlater ⟨j, hj, e⟩)]
      obtain ⟨j, hj, hjx⟩ := h
      have hj0 : j = 0 := by
        by_contra hne
        apply hlater
        refine ⟨j - 1, by omega, ?_⟩
        rw [show a + 1 + (j - 1) = a + j by omega]
        exact hjx
      subst hj0
      rw [Nat.add_zero] at hjx
      rw [hjx, Function.update_same]
      exact hz p (le_refl _) (by omega)

theorem store_ge (cap : Nat) (buf : Nat → Nat) (m a p : Nat) (mem : Nat → Nat) (x : Nat)
    (hcap : 0 < cap) (hx : cap ≤ x) : store cap buf m a p mem x = mem x := by
  apply store_miss
  intro j _ e
  have := Nat.mod_lt (a + j) hcap
  omega

theorem memset_zero_byte (data : Nat → Nat) (n q : Nat) (hq : q < n) :
    memset_zero data n q % 256 = 0 := by
  simp [memset_zero, hq]

theorem chunk_congr (b1 b2 : Nat → Nat) (B N k : Nat) (h : ∀ q, q < N → b1 q = b2 q) :
    chunk b1 B N k = chunk b2 B N k := by
  unfold chunk slice
  apply List.map_congr_left
  intro i hi
  rw [List.mem_range] at hi
  exact h _ (by omega)

theorem chunk_zero (B N k : Nat) (hk : (k + 1) * B ≤ N) :
    chunk (fun _ => 0) B N k = List.replicate B 0 := by
  unfold chunk slice
  have hmin : min B (N - k * B) = B := by
    rw [Nat.succ_mul] at hk
    omega
  rw [hmin]
  apply List.ext_getElem
  · simp
  · intro i h1 h2
    simp

theorem zero_call_trace (D : Device σ) (fuel a f : Nat) (data : Nat → Nat) (ir : Bool)
    (w w1 : World σ) (hf : f = 1 ∨ f = 2 ∨ f = 3) (ha : a + 0x8000 < 2 ^ 32)
    (h : auxspi_write_data D fuel a (memset_zero data 0x8000) 0x8000 f ir w = Except.ok w1) :
    ∃ ks : Nat → Nat, w1.trace = w.trace ++ (List.range (0x8000 / WriteBurst f)).flatMap
      (fun k => cycle_ops ir (write_header f (a + k * WriteBurst f))
        (List.replicate (WriteBurst f) 0) (ks k)) := by
  obtain ⟨ks, _, hks⟩ := write_data_trace D fuel a 0x8000 f _ ir w w1 hf ha h
  refine ⟨ks, ?_⟩
  rw [hks]
  have hn : (0x8000 + WriteBurst f - 1) / WriteBurst f = 0x8000 / WriteBurst f := by
    rcases WriteBurst_cases f with hB | hB | hB <;> rw [hB]
  rw [hn]
  congr 1
  apply List.flatMap_congr
  intro k hk
  rw [List.mem_range] at hk
  rw [chunk_congr _ (fun _ => 0) _ _ _ (fun q hq => memset_zero_byte data 0x8000 q hq),
    chunk_zero]
  rcases WriteBurst_cases f with hB | hB | hB <;> rw [hB] at hk ⊢ <;> omega

theorem write_data_chip_mem (fuel A N f : Nat) (buf : Nat → Nat) (ir : Bool) (w : World Chip)
    (hf : f = 1 ∨ f = 2 ∨ f = 3) (hfam : w.dev.family = f) (hwf : w.dev.well_formed)
    (hAN : A + N < 2 ^ 32) (hlat : w.dev.latency < fuel)
    (hfuel : (N + WriteBurst f - 1) / WriteBurst f ≤ fuel) (hN : 0 < N) :
    ∃ w1, auxspi_write_data sim fuel A buf N f ir w = Except.ok w1 ∧
      w.dev.same_config w1.dev ∧
      w1.dev.mem = store w.dev.capacity buf N A 0 w.dev.mem := by
  obtain ⟨w1, hw1, hd1⟩ := write_data_chip fuel A N f buf ir w hf hfam hwf hAN hlat hfuel
  refine ⟨w1, hw1, ?_⟩
  simp only [hN, if_true] at hd1
  rw [hd1]
  exact ⟨⟨rfl, rfl, rfl, rfl⟩, rfl⟩

theorem zero_call_chip (fuel a f : Nat) (data : Nat → Nat) (ir : Bool) (w : World Chip)
    (hf : f = 1 ∨ f = 2 ∨ f = 3) (hfam : w.dev.family = f) (hwf : w.dev.well_formed)
    (hlat : w.dev.latency < fuel) (hfuel : 2048 ≤ fuel) (ha : a + 0x8000 < 2 ^ 32) :
    ∃ w1, auxspi_write_data sim fuel a (memset_zero data 0x8000) 0x8000 f ir w = Except.ok w1 ∧
      w.dev.same_config w1.dev ∧
      w1.dev.mem = store w.dev.capacity (memset_zero data 0x8000) 0x8000 a 0 w.dev.mem :=
  write_data_chip_mem fuel a 0x8000 f (memset_zero data 0x8000) ir w hf hfam hwf ha hlat
    (by rcases WriteBurst_cases f with hB | hB | hB <;> rw [hB] <;> omega) (by omega)

theorem zero_loop_one (fuel f : Nat) (data : Nat → Nat) (ir : Bool) (w : World Chip)
    (hf : f = 1 ∨ f = 2 ∨ f = 3) (hfam : w.dev.family = f) (hwf : w.dev.well_formed)
    (hlat : w.dev.latency < fuel) (hfuel : 2048 ≤ fuel) (hcap : w.dev.capacity ≤ 32768) :
    ∃ (w1 : World Chip) (ks : Nat → Nat → Nat),
      zero_loop sim fuel (memset_zero data 0x8000) f ir 1 0 w = Except.ok w1 ∧
      w1.trace = w.trace ++ (List.range 1).flatMap (fun i =>
        (List.range (0x8000 / WriteBurst f)).flatMap (fun k =>
          cycle_ops ir (write_header f (i * 0x8000 + k * WriteBurst f))
            (List.replicate (WriteBurst f) 0) (ks i k))) ∧
      w.dev.same_config w1.dev ∧
      ∀ x, w1.dev.mem x = if x < w.dev.capacity then 0 else w.dev.mem x := by
  obtain ⟨w1, hw1, hc1, hm1⟩ := zero_call_chip fuel 0 f data ir w hf hfam hwf hlat hfuel
    (by decide)
  obtain ⟨ks, hks⟩ := zero_call_trace sim fuel 0 f data ir w w1 hf (by decide) hw1
  have hcpos : 0 < w.dev.capacity := by
    rcases hwf with ⟨_, h⟩ | ⟨_, h⟩ | ⟨_, h⟩
    · omega
    · exact Nat.pos_of_dvd_of_pos h (by decide)
    · exact Nat.pos_of_dvd_of_pos h (by decide)
  refine ⟨w1, fun _ => ks, ?_, ?_, hc1, ?_⟩
  · simp only [zero_loop, Nat.zero_shiftLeft, Nat.zero_mod, hw1]
  · rw [hks]
    simp [List.range_succ]
  · intro x
    rw [hm1]
    by_cases hx : x < w.dev.capacity
    · simp only [hx, if_true]
      exact store_hit _ _ _ _ _ _ _
        (fun q _ hq => memset_zero_byte data 0x8000 q (by omega))
        ⟨x, by omega, by rw [Nat.zero_add]; exact Nat.mod_eq_of_lt hx⟩
    · simp only [hx, if_false]
      exact store_ge _ _ _ _ _ _ _ hcpos (by omega)

theorem zero_loop_two (fuel f : Nat) (data : Nat → Nat) (ir : Bool) (w : World Chip)
    (hf : f = 1 ∨ f = 2 ∨ f = 3) (hfam : w.dev.family = f) (hwf : w.dev.well_formed)
    (hlat : w.dev.latency < fuel) (hfuel : 2048 ≤ fuel) (hcap : w.dev.capacity ≤ 65536) :
    ∃ (w1 : World Chip) (ks : Nat → Nat → Nat),
      zero_loop sim fuel (memset_zero data 0x8000) f ir 2 0 w = Except.ok w1 ∧
      w1.trace = w.trace ++ (List.range 2).flatMap (fun i =>
        (List.range (0x8000 / WriteBurst f)).flatMap (fun k =>
          cycle_ops ir (write_header f (i * 0x8000 + k * WriteBurst f))
            (List.replicate (WriteBurst f) 0) (ks i k))) ∧
      w.dev.same_config w1.dev ∧
      ∀ x, w1.dev.mem x = if x < w.dev.capacity then 0 else w.dev.mem x := by
  obtain ⟨wa, hwa, hca, hma⟩ := zero_call_chip fuel 0 f data ir w hf hfam hwf hlat hfuel
    (by decide)
  obtain ⟨ka, hka⟩ := zero_call_trace sim fuel 0 f data ir w wa hf (by decide) hwa
  obtain ⟨wb, hwb, hcb, hmb⟩ := zero_call_chip fuel 0x8000 f data ir wa hf
    (by rw [hca.1]; exact hfam) (same_config_well_formed _ _ hca hwf)
    (by rw [hca.2.2.1]; exact hlat) hfuel (by decide)
  obtain ⟨kb, hkb⟩ := zero_call_trace sim fuel 0x8000 f data ir wa wb hf (by decide) hwb
  have hcpos : 0 < w.dev.capacity := by
    rcases hwf with ⟨_, h⟩ | ⟨_, h⟩ | ⟨_, h⟩
    · omega
    · exact Nat.pos_of_dvd_of_pos h (by decide)
    · exact Nat.pos_of_dvd_of_pos h (by decide)
  have hz : ∀ q, 0 ≤ q → q < 0 + 0x8000 → memset_zero data 0x8000 q % 256 = 0 :=
    fun q _ hq => memset_zero_byte data 0x8000 q (by omega)
  refine ⟨wb, fun i => if i = 0 then ka else kb, ?_, ?_, ?_, ?_⟩
  · have e1 : (1 <<< 15) % 2 ^ 32 = 0x8000 := by decide
    simp only [zero_loop, Nat.zero_shiftLeft, Nat.zero_mod, hwa, Nat.zero_add, e1, hwb]
  · rw [hkb, hka]
    simp [List.range_succ]
  · obtain ⟨a1, a2, a3, a4⟩ := hca
    obtain ⟨b1, b2, b3, b4⟩ := hcb
    exact ⟨by rw [b1, a1], by rw [b2, a2], by rw [b3, a3], by rw [b4, a4]⟩
  · intro x
    rw [hmb, hca.2.1]
    by_cases hx : x < w.dev.capacity
    · simp only [hx, if_true]
      by_cases hhit : ∃ j, j < 0x8000 ∧ (0x8000 + j) % w.dev.capacity = x
      · exact store_hit _ _ _ _ _ _ _ hz hhit
      · rw [store_miss _ _ _ _ _ _ _ (fun j hj e => hhit ⟨j, hj, e⟩), hma]
        have hlow : x < 0x8000 := by
          by_contra hge
          apply hhit
          refine ⟨x - 0x8000, by omega, ?_⟩
          rw [show 0x8000 + (x - 0x8000) = x by omega]
          exact Nat.mod_eq_of_lt hx
        exact store_hit _ _ _ _ _ _ _ hz
          ⟨x, hlow, by rw [Nat.zero_add]; exact Nat.mod_eq_of_lt hx⟩
    · simp only [hx, if_false]
      rw [store_ge _ _ _ _ _ _ _ hcpos (by omega), hma,
        store_ge _ _ _ _ _ _ _ hcpos (by omega)]

theorem same_config_trans (a b c : Chip) (h1 : a.same_config b) (h2 : b.same_config c) :
    a.same_config c := by
  obtain ⟨a1, a2, a3, a4⟩ := h1
  obtain ⟨b1, b2, b3, b4⟩ := h2
  exact ⟨by rw [b1, a1], by rw [b2, a2], by rw [b3, a3], by rw [b4, a4]⟩

theorem save_size_log_2_family1 (X : ExtraTable) (fuel : Nat) (ir : Bool) (w : World Chip)
    (hfam : w.dev.family = 1) (hj : w.dev.jedec = 0xFFFFFF) (hbusy : w.dev.busy = 0) :
    ∃ w0, auxspi_save_size_log_2 sim X fuel ir w = Except.ok (9, w0) ∧
      w.dev.same_config w0.dev ∧ w0.dev.mem = w.dev.mem := by
  obtain ⟨ht, hc, hm, _⟩ := save_type_chip ir w hbusy (by rw [hj]; decide)
  have h1 : (auxspi_save_type sim ir w).1 = 1 := by
    rw [ht]
    simp [hfam, hj]
  unfold auxspi_save_size_log_2
  simp only [h1, if_true]
  exact ⟨_, rfl, hc, hm⟩

theorem save_size_log_2_family2 (X : ExtraTable) (fuel : Nat) (ir : Bool) (w : World Chip)
    (hfam : w.dev.family = 2) (hcap : w.dev.capacity ∣ 65536) (hj : w.dev.jedec = 0xFFFFFF)
    (hbusy : w.dev.busy = 0) (hlat : w.dev.latency < fuel) :
    ∃ w0, auxspi_save_size_log_2 sim X fuel ir w = Except.ok
        (if 16383 % w.dev.capacity = 8191 % w.dev.capacity then 0x0d else 0x10, w0) ∧
      w.dev.same_config w0.dev ∧ ∀ x, w.dev.capacity ≤ x → w0.dev.mem x = w.dev.mem x := by
  obtain ⟨ht, hc, hm, _⟩ := save_type_chip ir w hbusy (by rw [hj]; decide)
  have h2 : (auxspi_save_type sim ir w).1 = 2 := by
    rw [ht]
    simp [hfam, hj]
  have hfam1 : (auxspi_save_type sim ir w).2.dev.family = 2 := by rw [hc.1]; exact hfam
  have hcap1 : (auxspi_save_type sim ir w).2.dev.capacity = w.dev.capacity := hc.2.1
  obtain ⟨w0, hw0, hc0, hm0⟩ := type2_size_chip fuel ir (auxspi_save_type sim ir w).2 hfam1
    (Or.inr (Or.inl ⟨hfam1, by rw [hcap1]; exact hcap⟩)) (by rw [hc.2.2.1]; exact hlat)
  rw [hcap1] at hw0 hm0
  unfold auxspi_save_size_log_2
  simp only [h2, show ¬ (2 = 1) by decide, if_false, if_true]
  refine ⟨w0, hw0, same_config_trans _ _ _ hc hc0, ?_⟩
  intro x hx
  have hpos : 0 < w.dev.capacity := Nat.pos_of_dvd_of_pos hcap (by decide)
  have hne : x ≠ 8191 % w.dev.capacity := by
    have := Nat.mod_lt 8191 hpos
    omega
  rw [hm0, Function.update_noteq hne, hm]

theorem shl_one_small (U : Int → Nat) : shl_one U (max 0 (((9 : Nat) : Int) - 15)) = 1 ∧
    shl_one U (max 0 (((0x0d : Nat) : Int) - 15)) = 1 ∧
    shl_one U (max 0 (((0x10 : Nat) : Int) - 15)) = 2 :=
  ⟨rfl, rfl, rfl⟩

theorem to_int8_small : (to_int8 1).toNat = 1 ∧ (to_int8 2).toNat = 2 :=
  ⟨rfl, rfl⟩

theorem erase_zero_chip (X : ExtraTable) (U : Int → Nat) (fuel : Nat) (data : Nat → Nat) (ir : Bool)
    (c : Chip) (tr : List Op)
    (hcfg : (c.family = 1 ∧ c.capacity = 512) ∨ (c.family = 2 ∧ c.capacity = 8192) ∨
      (c.family = 2 ∧ c.capacity = 65536))
    (hj : c.jedec = 0xFFFFFF) (hbusy : c.busy = 0) (hlat : c.latency < fuel)
    (hfuel : 2048 ≤ fuel) :
    ∃ (w1 w0 : World Chip) (ks : Nat → Nat → Nat) (e : Nat),
      auxspi_save_size_log_2 sim X fuel ir (auxspi_save_type sim ir ⟨c, tr⟩).2 =
        Except.ok (e, w0) ∧
      2 ^ e = c.capacity ∧
      auxspi_erase sim X U fuel data ir ⟨c, tr⟩ = Except.ok w1 ∧
      w1.trace = w0.trace ++ (List.range (if c.capacity = 65536 then 2 else 1)).flatMap (fun i =>
        (List.range (0x8000 / WriteBurst c.family)).flatMap (fun k =>
          cycle_ops ir (write_header c.family (i * 0x8000 + k * WriteBurst c.family))
            (List.replicate (WriteBurst c.family) 0) (ks i k))) ∧
      ∀ x, w1.dev.mem x = if x < c.capacity then 0 else c.mem x := by
  obtain ⟨ht, hc1, hm1, hb1⟩ := save_type_chip ir ⟨c, tr⟩ hbusy (by rw [hj]; decide)
  simp only at ht hc1 hm1
  have hj1 : (auxspi_save_type sim ir ⟨c, tr⟩).2.dev.jedec = 0xFFFFFF := by
    rw [hc1.2.2.2]; exact hj
  have hlat1 : (auxspi_save_type sim ir ⟨c, tr⟩).2.dev.latency < fuel := by
    rw [hc1.2.2.1]; exact hlat
  rcases hcfg with ⟨hfam, hcap⟩ | ⟨hfam, hcap⟩ | ⟨hfam, hcap⟩
  · have hfam1 : (auxspi_save_type sim ir ⟨c, tr⟩).2.dev.family = 1 := by rw [hc1.1]; exact hfam
    have ht1 : (auxspi_save_type sim ir ⟨c, tr⟩).1 = 1 := by rw [ht]; simp [hfam, hj]
    obtain ⟨w0, hw0, hc0, hm0⟩ := save_size_log_2_family1 X fuel ir
      (auxspi_save_type sim ir ⟨c, tr⟩).2 hfam1 hj1 hb1
    have hconf := same_config_trans _ _ _ hc1 hc0
    have hwf0 : w0.dev.well_formed := Or.inl ⟨by rw [hconf.1]; exact hfam,
      by rw [hconf.2.1]; exact hcap⟩
    obtain ⟨w1, ks, hz1, hz2, _, hz4⟩ := zero_loop_one fuel 1 data ir w0 (Or.inl rfl)
      (by rw [hconf.1]; exact hfam) hwf0 (by rw [hconf.2.2.1]; exact hlat) hfuel
      (by rw [hconf.2.1, hcap]; decide)
    refine ⟨w1, w0, ks, 9, hw0, by rw [hcap]; decide, ?_, ?_, ?_⟩
    · unfold auxspi_erase
      simp only [ht1, show ¬ (1 = 3) by decide, if_false, hw0, (shl_one_small U).1, to_int8_small.1]
      exact hz1
    · rw [hz2, hfam, hcap]
      rfl
    · intro x
      rw [hz4, hconf.2.1, hm0, hm1]
  · have hfam1 : (auxspi_save_type sim ir ⟨c, tr⟩).2.dev.family = 2 := by rw [hc1.1]; exact hfam
    have ht1 : (auxspi_save_type sim ir ⟨c, tr⟩).1 = 2 := by rw [ht]; simp [hfam, hj]
    have hcap1 : (auxspi_save_type sim ir ⟨c, tr⟩).2.dev.capacity = 8192 := by
      rw [hc1.2.1]; exact hcap
    obtain ⟨w0, hw0, hc0, hm0⟩ := save_size_log_2_family2 X fuel ir
      (auxspi_save_type sim ir ⟨c, tr⟩).2 hfam1 (by rw [hcap1]; decide) hj1 hb1 hlat1
    rw [hcap1] at hw0 hm0
    simp only [show 16383 % 8192 = 8191 % 8192 by decide, if_true] at hw0
    have hconf := same_config_trans _ _ _ hc1 hc0
    have hwf0 : w0.dev.well_formed := Or.inr (Or.inl ⟨by rw [hconf.1]; exact hfam,
      by rw [hconf.2.1, hcap]; decide⟩)
    obtain ⟨w1, ks, hz1, hz2, _, hz4⟩ := zero_loop_one fuel 2 data ir w0 (Or.inr (Or.inl rfl))
      (by rw [hconf.1]; exact hfam) hwf0 (by rw [hconf.2.2.1]; exact hlat) hfuel
      (by rw [hconf.2.1, hcap]; decide)
    refine ⟨w1, w0, ks, 13, hw0, by rw [hcap]; decide, ?_, ?_, ?_⟩
    · unfold auxspi_erase
      simp only [ht1, show ¬ (2 = 3) by decide, if_false, hw0, (shl_one_small U).2.1,
        to_int8_small.1]
      exact hz1
    · rw [hz2, hfam, hcap]
      rfl
    · intro x
      rw [hz4, hconf.2.1, hcap]
      by_cases hx : x < 8192
      · simp only [hx, if_true]
      · simp only [hx, if_false]
        rw [hm0 x (by omega), hm1]
  · have hfam1 : (auxspi_save_type sim ir ⟨c, tr⟩).2.dev.family = 2 := by rw [hc1.1]; exact hfam
    have ht1 : (auxspi_save_type sim ir ⟨c, tr⟩).1 = 2 := by rw [ht]; simp [hfam, hj]
    have hcap1 : (auxspi_save_type sim ir ⟨c, tr⟩).2.dev.capacity = 65536 := by
      rw [hc1.2.1]; exact hcap
    obtain ⟨w0, hw0, hc0, hm0⟩ := save_size_log_2_family2 X fuel ir
      (auxspi_save_type sim ir ⟨c, tr⟩).2 hfam1 (by rw [hcap1]) hj1 hb1 hlat1
    rw [hcap1] at hw0 hm0
    simp only [show ¬ (16383 % 65536 = 8191 % 65536) by decide, if_false] at hw0
    have hconf := same_config_trans _ _ _ hc1 hc0
    have hwf0 : w0.dev.well_formed := Or.inr (Or.inl ⟨by rw [hconf.1]; exact hfam,
      by rw [hconf.2.1, hcap]⟩)
    obtain ⟨w1, ks, hz1, hz2, _, hz4⟩ := zero_loop_two fuel 2 data ir w0 (Or.inr (Or.inl rfl))
      (by rw [hconf.1]; exact hfam) hwf0 (by rw [hconf.2.2.1]; exact hlat) hfuel
      (by rw [hconf.2.1, hcap])
    refine ⟨w1, w0, ks, 16, hw0, by rw [hcap]; decide, ?_, ?_, ?_⟩
    · unfold auxspi_erase
      simp only [ht1, show ¬ (2 = 3) by decide, if_false, hw0, (shl_one_small U).2.2,
        to_int8_small.2]
      exact hz1
    · rw [hz2, hfam, hcap]
      rfl
    · intro x
      rw [hz4, hconf.2.1, hcap]
      by_cases hx : x < 65536
      · simp only [hx, if_true]
      · simp only [hx, if_false]
        rw [hm0 x (by omega), hm1]

theorem flatMap_split {α β : Type} (f : α → List β) (l : List α) (a : α) (h : a ∈ l) :
    ∃ pre post, l.flatMap f = pre ++ f a ++ post := by
  obtain ⟨s, t, hl⟩ := List.append_of_mem h
  subst hl
  exact ⟨s.flatMap f, t.flatMap f, by simp [List.flatMap_append]⟩

theorem zero_store_all (cap : Nat) (mem : Nat → Nat) (hcap : 0 < cap) (x : Nat) :
    store cap (fun _ => 0) cap 0 0 mem x = if x < cap then 0 else mem x := by
  by_cases hx : x < cap
  · simp only [hx, if_true]
    exact store_hit _ _ _ _ _ _ _ (fun _ _ _ => rfl)
      ⟨x, hx, by rw [Nat.zero_add]; exact Nat.mod_eq_of_lt hx⟩
  · simp only [hx, if_false]
    exact store_ge _ _ _ _ _ _ _ hcap (by omega)

/-- C9, as the code has it: on a simulated family-1 chip (512 bytes) or
family-2 chip (8 KB or 64 KB), `auxspi_erase` returns; after the
identification it has issued `max(capacity, 32768) / 32768` calls of
`auxspi_write_data`, each of exactly 32 KB at the addresses `i * 32768 ..`,
every data byte being 0 (so the addresses sent reach `max(capacity, 32768) - 1`
and are folded by the chip onto its cells); and the resulting chip content is
0 in every cell below the capacity, byte for byte the content left by one
logical write of `capacity` zero bytes at address 0. -/
theorem erase_zero_fill (X : ExtraTable) (U : Int → Nat) (fuel : Nat) (data : Nat → Nat) (ir : Bool)
    (c : Chip) (tr : List Op)
    (hcfg : (c.family = 1 ∧ c.capacity = 512) ∨ (c.family = 2 ∧ c.capacity = 8192) ∨
      (c.family = 2 ∧ c.capacity = 65536))
    (hj : c.jedec = 0xFFFFFF) (hbusy : c.busy = 0) (hlat : c.latency < fuel)
    (hfuel : 2048 ≤ fuel) :
    ∃ (w1 w0 : World Chip) (ks : Nat → Nat → Nat) (e : Nat),
      auxspi_save_size_log_2 sim X fuel ir (auxspi_save_type sim ir ⟨c, tr⟩).2 =
        Except.ok (e, w0) ∧
      2 ^ e = c.capacity ∧
      auxspi_erase sim X U fuel data ir ⟨c, tr⟩ = Except.ok w1 ∧
      w1.trace = w0.trace ++ (List.range (max c.capacity 0x8000 / 0x8000)).flatMap (fun i =>
        (List.range (0x8000 / WriteBurst c.family)).flatMap (fun k =>
          cycle_ops ir (write_header c.family (i * 0x8000 + k * WriteBurst c.family))
            (List.replicate (WriteBurst c.family) 0) (ks i k))) ∧
      (∀ x, w1.dev.mem x = if x < c.capacity then 0 else c.mem x) ∧
      ∃ w2, auxspi_write_data sim fuel 0 (fun _ => 0) c.capacity c.family ir ⟨c, tr⟩ =
          Except.ok w2 ∧ w2.dev.mem = w1.dev.mem := by
  obtain ⟨w1, w0, ks, e, h1, h2, h3, h4, h5⟩ := erase_zero_chip X U fuel data ir c tr hcfg hj hbusy
    hlat hfuel
  have hn : max c.capacity 0x8000 / 0x8000 = if c.capacity = 65536 then 2 else 1 := by
    rcases hcfg with ⟨_, hc⟩ | ⟨_, hc⟩ | ⟨_, hc⟩ <;> rw [hc] <;> decide
  have hwf : c.well_formed := by
    rcases hcfg with ⟨hf, hc⟩ | ⟨hf, hc⟩ | ⟨hf, hc⟩
    · exact Or.inl ⟨hf, hc⟩
    · exact Or.inr (Or.inl ⟨hf, by rw [hc]; decide⟩)
    · exact Or.inr (Or.inl ⟨hf, by rw [hc]⟩)
  have hfc : (c.family = 1 ∨ c.family = 2 ∨ c.family = 3) ∧ 0 < c.capacity ∧
      c.capacity < 2 ^ 32 ∧ (c.capacity + WriteBurst c.family - 1) / WriteBurst c.family ≤ 2048 := by
    rcases hcfg with ⟨hf, hc⟩ | ⟨hf, hc⟩ | ⟨hf, hc⟩ <;> rw [hf, hc] <;> decide
  obtain ⟨w2, hw2, _, hm2⟩ := write_data_chip_mem fuel 0 c.capacity c.family (fun _ => 0) ir
    ⟨c, tr⟩ hfc.1 rfl hwf (by omega) hlat (by omega) hfc.2.1
  refine ⟨w1, w0, ks, e, h1, h2, h3, by rw [hn]; exact h4, h5, w2, hw2, ?_⟩
  funext x
  rw [hm2, h5]
  exact zero_store_all c.capacity c.mem hfc.2.1 x

/-- Witness of C9 (amended): the 512-byte family-1 chip ends all zero. -/
theorem erase_zero_fill_witness :
    ∃ w1, auxspi_erase sim extra_demo shift_arm 2048 (fun _ => 0xAA) false (chip_world eeprom512_demo) =
        Except.ok w1 ∧
      ∀ x, w1.dev.mem x = if x < 512 then 0 else eeprom512_demo.mem x :=
  have h := erase_zero_fill extra_demo shift_arm 2048 (fun _ => 0xAA) false eeprom512_demo []
    (Or.inl ⟨rfl, rfl⟩) rfl rfl (by decide) (by decide)
  by
    obtain ⟨w1, _, _, _, _, _, h3, _, h5, _⟩ := h
    exact ⟨w1, h3, h5⟩

/-- Counterexample to C9 as stated (addresses written exactly
0 .. capacity-1): erasing the 8 KB family-2 chip issues a write burst whose
address bytes are 0x20 0x00, address 8192, the first address past the
capacity. -/
theorem erase_zero_fill_counterexample :
    eeprom8k_demo.capacity = 8192 ∧
    ∃ (w1 : World Chip) (pre post : List Op),
      auxspi_erase sim extra_demo shift_arm 2048 (fun _ => 0) false (chip_world eeprom8k_demo) =
        Except.ok w1 ∧
      w1.trace = pre ++ [Op.open_ 0, Op.write 0x02, Op.write 0x20, Op.write 0x00] ++ post := by
  refine ⟨rfl, ?_⟩
  obtain ⟨w1, w0, ks, e, _, _, h3, h4, _⟩ := erase_zero_chip extra_demo shift_arm 2048 (fun _ => 0) false
    eeprom8k_demo [] (Or.inr (Or.inl ⟨rfl, rfl⟩)) rfl rfl (by decide) (by decide)
  have hfam : eeprom8k_demo.family = 2 := rfl
  have hcapne : ¬ (eeprom8k_demo.capacity = 65536) := by decide
  simp only [hcapne, if_false, hfam, show WriteBurst 2 = 32 by rfl,
    show 32768 / 32 = 1024 by decide] at h4
  obtain ⟨p1, q1, hs1⟩ := flatMap_split (fun i =>
      (List.range 1024).flatMap (fun k =>
        cycle_ops false (write_header 2 (i * 32768 + k * 32)) (List.replicate 32 0) (ks i k)))
    (List.range 1) 0 (by simp)
  obtain ⟨p2, q2, hs2⟩ := flatMap_split (fun k =>
      cycle_ops false (write_header 2 (0 * 32768 + k * 32)) (List.replicate 32 0) (ks 0 k))
    (List.range 1024) 256 (by simp)
  refine ⟨w1, w0.trace ++ p1 ++ p2 ++ [Op.open_ 0, Op.write 0x06, Op.close_lite],
    (List.replicate 32 (Op.write 0)) ++ [Op.close_lite] ++ [Op.open_ 0, Op.write 0x05] ++
      poll_ops (ks 0 256) ++ [Op.wait_busy, Op.close] ++ q2 ++ q1, h3, ?_⟩
  rw [h4, hs1, hs2]
  simp [cycle_ops, ir_ops, write_header]

/-! ## Unknown chip and unresolved id -/

theorem save_size_log_2_unknown (D : Device σ) (X : ExtraTable) (fuel : Nat) (ir : Bool)
    (w : World σ) (h : (auxspi_save_type D ir w).1 = 0) :
    auxspi_save_size_log_2 D X fuel ir w = Except.ok (0, (auxspi_save_type D ir w).2) := by
  unfold auxspi_save_size_log_2
  simp [h]

theorem save_size_log_2_three (D : Device σ) (X : ExtraTable) (fuel : Nat) (ir : Bool)
    (w : World σ) (h : (auxspi_save_type D ir w).1 = 3) :
    auxspi_save_size_log_2 D X fuel ir w =
      Except.ok (jedec_table X (auxspi_save_jedec_id D ir (auxspi_save_type D ir w).2).1,
        (auxspi_save_jedec_id D ir (auxspi_save_type D ir w).2).2) := by
  unfold auxspi_save_size_log_2
  simp [h]

theorem read_data_hint0 (D : Device σ) (addr cnt t : Nat) (buf : Nat → Nat) (ir : Bool)
    (w : World σ) (ht : (auxspi_save_type D ir w).1 = t) (h0 : t ≠ 0) :
    auxspi_read_data D addr buf cnt 0 ir w =
      auxspi_read_data D addr buf cnt t ir (auxspi_save_type D ir w).2 := by
  unfold auxspi_read_data
  simp only [if_true, ht, h0, if_false]

theorem write_data_hint0 (D : Device σ) (fuel addr cnt t : Nat) (buf : Nat → Nat) (ir : Bool)
    (w : World σ) (ht : (auxspi_save_type D save_type_default_ir w).1 = t) (h0 : t ≠ 0) :
    auxspi_write_data D fuel addr buf cnt 0 ir w =
      auxspi_write_data D fuel addr buf cnt t ir (auxspi_save_type D save_type_default_ir w).2 := by
  unfold auxspi_write_data
  simp only [if_true, ht, h0, if_false]

/-- C12, as the code has it: a chip identified as family 3 is read and
written with family hint 0 exactly as with hint 3 once the identification
probes are done, whatever its JEDEC id resolves to; the transfer functions
never consult the capacity tables.  The read issues command 0x03 with three
address bytes and clocks `cnt` bytes in, the write issues its
write-enable / 0x02 / poll cycles. -/
theorem transfers_ignore_capacity (D : Device σ) (fuel addr cnt : Nat) (buf : Nat → Nat)
    (ir : Bool) (w : World σ) (hAN : addr + cnt < 2 ^ 32) :
    ((auxspi_save_type D ir w).1 = 3 →
      auxspi_read_data D addr buf cnt 0 ir w =
        auxspi_read_data D addr buf cnt 3 ir (auxspi_save_type D ir w).2 ∧
      (auxspi_read_data D addr buf cnt 0 ir w).2.trace = w.trace ++ probe_ops ir ++
        (ir_ops ir ++ [Op.open_ 0, Op.write 0x03, Op.write (addr / 65536 % 256),
          Op.write (addr / 256 % 256), Op.write (addr % 256)] ++
          List.replicate cnt Op.read ++ [Op.close])) ∧
    ((auxspi_save_type D save_type_default_ir w).1 = 3 →
      auxspi_write_data D fuel addr buf cnt 0 ir w =
        auxspi_write_data D fuel addr buf cnt 3 ir
          (auxspi_save_type D save_type_default_ir w).2 ∧
      ∀ w1, auxspi_write_data D fuel addr buf cnt 0 ir w = Except.ok w1 →
        ∃ ks : Nat → Nat, w1.trace = w.trace ++ probe_ops save_type_default_ir ++
          (List.range ((cnt + 256 - 1) / 256)).flatMap (fun k =>
            cycle_ops ir [0x02, (addr + k * 256) / 65536 % 256, (addr + k * 256) / 256 % 256,
                (addr + k * 256) % 256]
              (chunk (fun i => buf i % 256) 256 cnt k) (ks k))) := by
  constructor
  · intro h
    have he := read_data_hint0 D addr cnt 3 buf ir w h (by decide)
    refine ⟨he, ?_⟩
    rw [he, read_data_trace D addr cnt 3 buf ir _ (Or.inr (Or.inr rfl)), save_type_trace]
    simp [read_ops, read_header]
  · intro h
    have he := write_data_hint0 D fuel addr cnt 3 buf ir w h (by decide)
    refine ⟨he, ?_⟩
    intro w1 hw1
    rw [he] at hw1
    obtain ⟨ks, _, hks⟩ := write_data_trace D fuel addr cnt 3 buf ir _ w1 (Or.inr (Or.inr rfl))
      hAN hw1
    refine ⟨ks, ?_⟩
    rw [hks, save_type_trace]
    simp [WriteBurst, write_header]

/-- Witness of C12 (amended): a 2-byte read at 0x1000 on the flash with the
unresolved id. -/
theorem transfers_ignore_capacity_witness :
    (auxspi_save_type scripted false (script_world unknown_flash_script)).1 = 3 ∧
    (auxspi_read_data scripted 0x1000 (fun _ => 0) 2 0 false
      (script_world unknown_flash_script)).2.trace =
      probe_ops false ++ [Op.open_ 0, Op.write 0x03, Op.write 0x00, Op.write 0x10,
        Op.write 0x00, Op.read, Op.read, Op.close] :=
  ⟨by decide,
    (((transfers_ignore_capacity scripted 1 0x1000 2 (fun _ => 0) false
      (script_world unknown_flash_script) (by decide)).1 (by decide)).2).trans (by decide)⟩

/-- Counterexample to C12 as stated: on the flash whose id 0x123456 resolves
to exponent 0, a read with hint 0 sends the read command and fills the buffer
(`buf[0]` becomes 0x12), and a write with hint 0 sends write-enable, the write
command and the data byte. -/
theorem transfers_ignore_capacity_counterexample :
    jedec_table extra_demo 0x123456 = 0 ∧
    (auxspi_save_type scripted false (script_world unknown_flash_script)).1 = 3 ∧
    (auxspi_read_data scripted 0x1000 (fun _ => 0) 2 0 false
      (script_world unknown_flash_script)).2.trace =
      probe_ops false ++ [Op.open_ 0, Op.write 0x03, Op.write 0x00, Op.write 0x10,
        Op.write 0x00, Op.read, Op.read, Op.close] ∧
    (auxspi_read_data scripted 0x1000 (fun _ => 0) 2 0 false
      (script_world unknown_flash_script)).1 0 = 0x12 ∧
    (match auxspi_write_data scripted 1 0x1000 (fun _ => 0xAB) 1 0 false
        (script_world unknown_flash_script) with
      | Except.ok w => w.trace
      | Except.error _ => []) =
      probe_ops false ++ [Op.open_ 0, Op.write 0x06, Op.close_lite,
        Op.open_ 0, Op.write 0x02, Op.write 0x00, Op.write 0x10, Op.write 0x00, Op.write 0xAB,
        Op.close_lite,
        Op.open_ 0, Op.write 0x05, Op.set_data 0, Op.wait_busy, Op.wait_busy, Op.close] := by
  refine ⟨by decide, by decide, by decide, by decide, by decide⟩

/-! ## Infrared gate -/

/-- C13 at the failing input: `auxspi_write_data` with family hint 0 and
`ir = true` runs its internal identification without the infrared step, so
the two probe transactions are opened ungated; `auxspi_read_data` on the same
input gates every open, and so does the write once the hint is given. -/
theorem write_data_hint0_ungated :
    (match auxspi_write_data scripted 1 0 (fun _ => 0xAB) 1 0 true (script_world fram_script) with
      | Except.ok w => w.trace
      | Except.error _ => []) =
      [Op.open_ 0, Op.write 0x9f, Op.read, Op.read, Op.read, Op.close,
       Op.open_ 0, Op.write 0x05, Op.read, Op.close,
       Op.disable_infrared, Op.open_ 0, Op.write 0x06, Op.close_lite,
       Op.disable_infrared, Op.open_ 0, Op.write 0x02, Op.write 0x00, Op.write 0x00,
       Op.write 0xAB, Op.close_lite,
       Op.disable_infrared, Op.open_ 0, Op.write 0x05, Op.set_data 0, Op.wait_busy,
       Op.wait_busy, Op.close] ∧
    ir_gated true (match auxspi_write_data scripted 1 0 (fun _ => 0xAB) 1 0 true
        (script_world fram_script) with
      | Except.ok w => w.trace
      | Except.error _ => []) = false ∧
    ir_gated true (auxspi_read_data scripted 0 (fun _ => 0) 1 0 true
      (script_world fram_script)).2.trace = true ∧
    ir_gated true (match auxspi_write_data scripted 1 0 (fun _ => 0xAB) 1 2 true
        (script_world [0x00]) with
      | Except.ok w => w.trace
      | Except.error _ => [Op.open_ 0]) = true := by
  refine ⟨by decide, by decide, by decide, by decide⟩

/-! ## Capacity resolution -/

theorem type2_size_values (D : Device σ) (fuel : Nat) (ir : Bool) (w : World σ)
    (r : Nat × World σ) (h : type2_size D fuel ir w = Except.ok r) :
    r.1 = 0x0d ∨ r.1 = 0x10 := by
  unfold type2_size at h
  simp only at h
  split at h
  · exact absurd h (by simp)
  · split at h
    · exact absurd h (by simp)
    · split at h
      · injection h with h
        rw [← h]
        exact Or.inl rfl
      · injection h with h
        rw [← h]
        exact Or.inr rfl

theorem shl_one_pow (U : Int → Nat) (e : Nat) (he : e < 32) : shl_one U (e : Int) = 2 ^ e := by
  interval_cases e <;> rfl

theorem save_size_of_log_2 (D : Device σ) (X : ExtraTable) (U : Int → Nat) (fuel : Nat) (ir : Bool)
    (w w1 : World σ) (e : Nat) (h : auxspi_save_size_log_2 D X fuel ir w = Except.ok (e, w1))
    (he : e < 32) : auxspi_save_size D X U fuel ir w = Except.ok (2 ^ e, w1) := by
  unfold auxspi_save_size
  simp only [h, shl_one_pow U e he]

theorem save_size_log_2_one (D : Device σ) (X : ExtraTable) (fuel : Nat) (ir : Bool)
    (w : World σ) (h : (auxspi_save_type D ir w).1 = 1) :
    auxspi_save_size_log_2 D X fuel ir w = Except.ok (9, (auxspi_save_type D ir w).2) := by
  unfold auxspi_save_size_log_2
  simp [h]

theorem save_size_log_2_two (D : Device σ) (X : ExtraTable) (fuel : Nat) (ir : Bool)
    (w : World σ) (h : (auxspi_save_type D ir w).1 = 2) :
    auxspi_save_size_log_2 D X fuel ir w = type2_size D fuel ir (auxspi_save_type D ir w).2 := by
  unfold auxspi_save_size_log_2
  simp [h]

/-- C14, as the code has it: `auxspi_save_size_log_2` returns 9 when the
detected family is 1, `jedec_table` of the JEDEC id read next when it is 3,
the result of the family-2 probe (13 or 16 whenever the probe returns, and it
does on the simulated chip) when it is 2, and 0 when it is 0;
`auxspi_save_size` equals `2^size_log2` whenever the exponent is below 32, so
it is 512 for family 1 and 1 for an unknown family or an unresolved id. -/
theorem capacity_dispatch (D : Device σ) (X : ExtraTable) (U : Int → Nat) (fuel : Nat) (ir : Bool)
    (w : World σ) :
    ((auxspi_save_type D ir w).1 = 1 →
      auxspi_save_size_log_2 D X fuel ir w = Except.ok (9, (auxspi_save_type D ir w).2) ∧
      auxspi_save_size D X U fuel ir w = Except.ok (512, (auxspi_save_type D ir w).2)) ∧
    ((auxspi_save_type D ir w).1 = 3 →
      auxspi_save_size_log_2 D X fuel ir w =
        Except.ok (jedec_table X (auxspi_save_jedec_id D ir (auxspi_save_type D ir w).2).1,
          (auxspi_save_jedec_id D ir (auxspi_save_type D ir w).2).2) ∧
      (jedec_table X (auxspi_save_jedec_id D ir (auxspi_save_type D ir w).2).1 = 0 →
        auxspi_save_size D X U fuel ir w =
          Except.ok (1, (auxspi_save_jedec_id D ir (auxspi_save_type D ir w).2).2))) ∧
    ((auxspi_save_type D ir w).1 = 2 →
      auxspi_save_size_log_2 D X fuel ir w = type2_size D fuel ir (auxspi_save_type D ir w).2 ∧
      ∀ r, auxspi_save_size_log_2 D X fuel ir w = Except.ok r → r.1 = 13 ∨ r.1 = 16) ∧
    ((auxspi_save_type D ir w).1 = 0 →
      auxspi_save_size_log_2 D X fuel ir w = Except.ok (0, (auxspi_save_type D ir w).2) ∧
      auxspi_save_size D X U fuel ir w = Except.ok (1, (auxspi_save_type D ir w).2)) ∧
    (∀ e w1, auxspi_save_size_log_2 D X fuel ir w = Except.ok (e, w1) → e < 32 →
      auxspi_save_size D X U fuel ir w = Except.ok (2 ^ e, w1)) ∧
    (∀ (c : Chip) (tr : List Op), c.family = 2 → c.capacity ∣ 65536 → c.jedec = 0xFFFFFF →
      c.busy = 0 → c.latency < fuel →
      ∃ w0, auxspi_save_size_log_2 sim X fuel ir ⟨c, tr⟩ =
        Except.ok (if 16383 % c.capacity = 8191 % c.capacity then 13 else 16, w0)) := by
  refine ⟨?_, ?_, ?_, ?_, ?_, ?_⟩
  · intro h
    have h9 := save_size_log_2_one D X fuel ir w h
    exact ⟨h9, save_size_of_log_2 D X U fuel ir w _ 9 h9 (by decide)⟩
  · intro h
    have h3 := save_size_log_2_three D X fuel ir w h
    refine ⟨h3, ?_⟩
    intro h0
    rw [h0] at h3
    exact save_size_of_log_2 D X U fuel ir w _ 0 h3 (by decide)
  · intro h
    have h2 := save_size_log_2_two D X fuel ir w h
    refine ⟨h2, ?_⟩
    intro r hr
    rw [h2] at hr
    exact type2_size_values D fuel ir _ r hr
  · intro h
    have h0 := save_size_log_2_unknown D X fuel ir w h
    exact ⟨h0, save_size_of_log_2 D X U fuel ir w _ 0 h0 (by decide)⟩
  · intro e w1 h he
    exact save_size_of_log_2 D X U fuel ir w w1 e h he
  · intro c tr hfam hcap hj hbusy hlat
    obtain ⟨w0, hw0, _, _⟩ := save_size_log_2_family2 X fuel ir ⟨c, tr⟩ hfam hcap hj hbusy hlat
    exact ⟨w0, hw0⟩

/-- Witness of C14: status 0x00 with JEDEC 0x204013 is family 3, exponent
0x13, size 524288. -/
theorem capacity_dispatch_witness :
    (auxspi_save_type scripted false (script_world flash_script)).1 = 3 ∧
    (match auxspi_save_size_log_2 scripted extra_demo 1 false (script_world flash_script) with
      | Except.ok r => r.1
      | Except.error _ => 0) = 0x13 ∧
    (match auxspi_save_size scripted extra_demo shift_arm 1 false (script_world flash_script) with
      | Except.ok r => r.1
      | Except.error _ => 0) = 524288 :=
  have h := capacity_dispatch scripted extra_demo shift_arm 1 false (script_world flash_script)
  have h3 := (h.2.1 (by decide)).1
  have hj : jedec_table extra_demo (auxspi_save_jedec_id scripted false
      (auxspi_save_type scripted false (script_world flash_script)).2).1 = 0x13 := by decide
  ⟨by decide, by rw [h3, hj],
    by
      rw [hj] at h3
      rw [h.2.2.2.2.1 0x13 _ h3 (by decide)]
      decide⟩

/-- Counterexample to C14 as stated (`auxspi_save_size` always `2^size_log2`):
with an auxiliary-table entry of exponent 32, `auxspi_save_size_log_2`
returns 32 and `auxspi_save_size` evaluates `1 << 32` on a 32-bit `int`; on
every target the `uint32` it returns is below `2^32`, so it is not `2^32`
(0 with the ARM9 shift, 1 with the x86 shift). -/
theorem capacity_dispatch_counterexample :
    (match auxspi_save_size_log_2 scripted extra_huge 1 false (script_world huge_flash_script) with
      | Except.ok r => some r.1
      | Except.error _ => none) = some 32 ∧
    (∀ U : Int → Nat, ∃ r,
      auxspi_save_size scripted extra_huge U 1 false (script_world huge_flash_script) =
        Except.ok r ∧ r.1 < 2 ^ 32 ∧ r.1 ≠ 2 ^ 32) ∧
    (match auxspi_save_size scripted extra_huge shift_arm 1 false
        (script_world huge_flash_script) with
      | Except.ok r => some r.1
      | Except.error _ => none) = some 0 ∧
    (match auxspi_save_size scripted extra_huge shift_x86 1 false
        (script_world huge_flash_script) with
      | Except.ok r => some r.1
      | Except.error _ => none) = some 1 := by
  refine ⟨by decide, ?_, by decide, by decide⟩
  intro U
  have h3 := save_size_log_2_three scripted extra_huge 1 false (script_world huge_flash_script)
    (by decide)
  have hj : jedec_table extra_huge (auxspi_save_jedec_id scripted false
      (auxspi_save_type scripted false (script_world huge_flash_script)).2).1 = 32 := by decide
  rw [hj] at h3
  have hs : shl_one U ((32 : Nat) : Int) = U 32 % 2 ^ 32 := by
    unfold shl_one
    rw [if_neg (by omega)]
    rfl
  have hlt : U 32 % 2 ^ 32 < 2 ^ 32 := Nat.mod_lt _ (by decide)
  refine ⟨(shl_one U ((32 : Nat) : Int), (auxspi_save_jedec_id scripted false
    (auxspi_save_type scripted false (script_world huge_flash_script)).2).2), ?_, ?_, ?_⟩
  · unfold auxspi_save_size
    simp only [h3]
  · rw [hs]
    exact hlt
  · rw [hs]
    omega

/-! ## Sector erase -/

theorem erase_sector_trace (D : Device σ) (fuel s : Nat) (ir : Bool) (w w1 : World σ)
    (h3 : (auxspi_save_type D ir w).1 = 3)
    (h : auxspi_erase_sector D fuel s ir w = Except.ok w1) :
    ∃ k, 1 ≤ k ∧ w1.trace = w.trace ++ probe_ops ir ++
      cycle_ops ir [0xd8, s &&& 0xFF, (s >>> 8) &&& 0xFF, (s >>> 8) &&& 0xFF] [] k := by
  unfold auxspi_erase_sector at h
  simp only [h3, if_true] at h
  obtain ⟨k, hk1, _, hk⟩ := wait_phase_trace D fuel ir _ w1 h
  refine ⟨k, hk1, ?_⟩
  rw [hk, erase_command_trace, wel_phase_trace, save_type_trace]
  have e1 : (s &&& 0xff) % 256 = s &&& 0xFF := by
    rw [and_ff]
    exact Nat.mod_mod _ _
  have e2 : ((s >>> 8) &&& 0xff) % 256 = (s >>> 8) &&& 0xFF := by
    rw [and_ff]
    exact Nat.mod_mod _ _
  rw [e1, e2]
  simp only [cycle_ops, List.append_assoc, List.map_cons, List.map_nil, List.append_nil,
    List.cons_append, List.nil_append]

theorem erase_sector_other (D : Device σ) (fuel s : Nat) (ir : Bool) (w : World σ)
    (h3 : (auxspi_save_type D ir w).1 ≠ 3) :
    auxspi_erase_sector D fuel s ir w = Except.ok (auxspi_save_type D ir w).2 := by
  unfold auxspi_erase_sector
  simp only [h3, if_false]

theorem erase_command_chip_any (ir : Bool) (a b c : Nat) (w : World Chip)
    (hfam : w.dev.family = 3) (hwel : w.dev.wel = true) :
    w.dev.same_config (erase_command sim ir a b c w).dev ∧
    (erase_command sim ir a b c w).dev.busy = w.dev.latency := by
  simp [erase_command, close_lite_dev, write_dev, open_dev, ir_gate_dev, Chip.clock_in,
    Chip.header_len, Chip.is_read, Chip.is_program, hfam, hwel, Chip.deselect,
    Chip.same_config]

theorem erase_cycle_chip_any (fuel : Nat) (ir : Bool) (a b c : Nat) (w : World Chip)
    (hfam : w.dev.family = 3) (hlat : w.dev.latency < fuel) :
    ∃ w2, wait_phase sim fuel ir (erase_command sim ir a b c (wel_phase sim ir w)) =
        Except.ok w2 ∧ w.dev.same_config w2.dev := by
  obtain ⟨hc, hb⟩ := erase_command_chip_any ir a b c (wel_phase sim ir w)
    (by rw [wel_phase_chip]; exact hfam) (by rw [wel_phase_chip])
  rw [wel_phase_chip] at hc hb
  obtain ⟨w2, hw2, hd2⟩ := wait_phase_chip fuel ir
    (erase_command sim ir a b c (wel_phase sim ir w)) (by rw [hb]; exact hlat)
  refine ⟨w2, hw2, ?_⟩
  rw [hd2]
  exact hc

theorem erase_sector_chip (fuel s : Nat) (ir : Bool) (c : Chip) (tr : List Op)
    (hfam : c.family = 3) (hbusy : c.busy = 0) (hj : c.jedec < 2 ^ 24)
    (hj2 : c.jedec ≠ 0xFFFFFF) (hlat : c.latency < fuel) :
    (auxspi_save_type sim ir ⟨c, tr⟩).1 = 3 ∧
    ∃ w1, auxspi_erase_sector sim fuel s ir ⟨c, tr⟩ = Except.ok w1 := by
  obtain ⟨ht, hc, _, _⟩ := save_type_chip ir ⟨c, tr⟩ hbusy hj
  have h3 : (auxspi_save_type sim ir ⟨c, tr⟩).1 = 3 := by
    rw [ht]
    simp [hfam, hj2]
  refine ⟨h3, ?_⟩
  obtain ⟨w2, hw2, _⟩ := erase_cycle_chip_any fuel ir (s &&& 0xff) ((s >>> 8) &&& 0xff)
    ((s >>> 8) &&& 0xff) (auxspi_save_type sim ir ⟨c, tr⟩).2
    (by rw [hc.1]; exact hfam) (by rw [hc.2.2.1]; exact hlat)
  refine ⟨w2, ?_⟩
  unfold auxspi_erase_sector
  simp only [h3, if_true]
  exact hw2

/-- C15: when the detected family is 3, `auxspi_erase_sector(s)` issues,
after the two detection probes, exactly one write-enable / command / poll
cycle whose command transaction carries 0xD8 followed by `s & 0xFF`,
`(s >> 8) & 0xFF`, `(s >> 8) & 0xFF`; when the detected family is not 3 it
returns with the probes as its only operations.  On the simulated flash the
call returns. -/
theorem erase_sector_cycle (D : Device σ) (fuel s : Nat) (ir : Bool) (w : World σ) :
    ((auxspi_save_type D ir w).1 = 3 → ∀ w1, auxspi_erase_sector D fuel s ir w = Except.ok w1 →
      ∃ k, 1 ≤ k ∧ w1.trace = w.trace ++ probe_ops ir ++
        cycle_ops ir [0xd8, s &&& 0xFF, (s >>> 8) &&& 0xFF, (s >>> 8) &&& 0xFF] [] k) ∧
    ((auxspi_save_type D ir w).1 ≠ 3 →
      ∃ w1, auxspi_erase_sector D fuel s ir w = Except.ok w1 ∧
        w1.trace = w.trace ++ probe_ops ir) ∧
    (∀ (c : Chip) (tr : List Op), c.family = 3 → c.busy = 0 → c.jedec < 2 ^ 24 →
      c.jedec ≠ 0xFFFFFF → c.latency < fuel →
      (auxspi_save_type sim ir ⟨c, tr⟩).1 = 3 ∧
      ∃ w1, auxspi_erase_sector sim fuel s ir ⟨c, tr⟩ = Except.ok w1) := by
  refine ⟨?_, ?_, ?_⟩
  · intro h3 w1 h
    exact erase_sector_trace D fuel s ir w w1 h3 h
  · intro h3
    exact ⟨_, erase_sector_other D fuel s ir w h3, save_type_trace D ir w⟩
  · intro c tr hfam hbusy hj hj2 hlat
    exact erase_sector_chip fuel s ir c tr hfam hbusy hj hj2 hlat

/-- Witness of C15: sector 0x1234 on the simulated 512 KB flash, and a sector
erase on the simulated 8 KB EEPROM (family 2). -/
theorem erase_sector_cycle_witness :
    (∃ (w1 : World Chip) (k : Nat),
      auxspi_erase_sector sim 4 0x1234 false (chip_world flash_demo) = Except.ok w1 ∧
      w1.trace = probe_ops false ++ cycle_ops false [0xd8, 0x34, 0x12, 0x12] [] k) ∧
    (∃ w1 : World Chip,
      auxspi_erase_sector sim 4 0x1234 false (chip_world eeprom8k_demo) = Except.ok w1 ∧
      w1.trace = probe_ops false) := by
  have h := erase_sector_cycle sim 4 0x1234 false (chip_world flash_demo)
  have g := erase_sector_cycle sim 4 0x1234 false (chip_world eeprom8k_demo)
  constructor
  · obtain ⟨h3, w1, hw1⟩ := h.2.2 flash_demo [] rfl rfl (by decide) (by decide) (by decide)
    obtain ⟨k, _, hk⟩ := h.1 h3 w1 hw1
    exact ⟨w1, k, hw1, by simpa [chip_world] using hk⟩
  · obtain ⟨w1, hw1, ht⟩ := g.2.1 (by
      rw [(save_type_chip false (chip_world eeprom8k_demo) rfl (by decide)).1]
      decide)
    exact ⟨w1, hw1, by simpa [chip_world] using ht⟩

/-! ## Erase-all and sector erase -/

theorem sector_bytes (i : Nat) (hi : i < 256) :
    i &&& 0xff = i ∧ (i >>> 8) &&& 0xff = 0 := by
  constructor
  · rw [and_ff]
    exact Nat.mod_eq_of_lt hi
  · rw [and_ff, Nat.shiftRight_eq_div_pow]
    omega

theorem erase_loop_one (D : Device σ) (fuel : Nat) (ir : Bool) (i : Nat) (w : World σ) :
    erase_loop D fuel ir 1 i w =
      wait_phase D fuel ir (erase_command D ir i 0 0 (wel_phase D ir w)) := by
  simp only [erase_loop]
  cases wait_phase D fuel ir (erase_command D ir i 0 0 (wel_phase D ir w)) <;> rfl

theorem erase_loop_succ (D : Device σ) (fuel : Nat) (ir : Bool) (n i : Nat) (w : World σ) :
    erase_loop D fuel ir (n + 1) i w =
      match erase_loop D fuel ir 1 i w with
      | Except.error e => Except.error e
      | Except.ok v => erase_loop D fuel ir n (i + 1) v := by
  rw [erase_loop_one]
  simp only [erase_loop]

theorem erase_loop_passes (D : Device σ) (fuel : Nat) (ir : Bool) :
    ∀ (n i : Nat) (v v1 : World σ), erase_loop D fuel ir n i v = Except.ok v1 →
      ∃ ws : Nat → World σ, ws 0 = v ∧ ws n = v1 ∧
        ∀ j, j < n → erase_loop D fuel ir 1 (i + j) (ws j) = Except.ok (ws (j + 1)) := by
  intro n
  induction n with
  | zero =>
    intro i v v1 h
    simp only [erase_loop] at h
    injection h with h
    exact ⟨fun _ => v, rfl, h, fun j hj => absurd hj (Nat.not_lt_zero j)⟩
  | succ n ih =>
    intro i v v1 h
    rw [erase_loop_succ] at h
    cases hp : erase_loop D fuel ir 1 i v with
    | error e =>
      rw [hp] at h
      exact absurd h (by simp)
    | ok v2 =>
      rw [hp] at h
      obtain ⟨ws, h0, hn, hs⟩ := ih (i + 1) v2 v1 h
      refine ⟨fun j => match j with | 0 => v | k + 1 => ws k, rfl, hn, ?_⟩
      intro j hj
      cases j with
      | zero =>
        simp only [Nat.add_zero, h0]
        exact hp
      | succ k =>
        have hk := hs k (by omega)
        rw [show i + 1 + k = i + (k + 1) by omega] at hk
        exact hk

theorem erase_loop_one_trace (D : Device σ) (fuel : Nat) (ir : Bool) (i : Nat) (hi : i < 256)
    (v v1 : World σ) (h : erase_loop D fuel ir 1 i v = Except.ok v1) :
    ∃ k, 1 ≤ k ∧ v1.trace = v.trace ++
      cycle_ops ir [0xd8, i &&& 0xFF, (i >>> 8) &&& 0xFF, (i >>> 8) &&& 0xFF] [] k := by
  obtain ⟨b1, b2⟩ := sector_bytes i hi
  obtain ⟨ks, hks, ht⟩ := erase_loop_trace D fuel ir 1 i v v1 h
  refine ⟨ks 0, hks 0, ?_⟩
  have b1f : i &&& 0xFF = i := b1
  have b2f : (i >>> 8) &&& 0xFF = 0 := b2
  rw [ht, b1f, b2f]
  simp [List.range_succ, Nat.mod_eq_of_lt hi]

theorem erase_sector_is_pass (D : Device σ) (fuel : Nat) (ir : Bool) (i : Nat) (hi : i < 256)
    (w0 : World σ) (h3 : (auxspi_save_type D ir w0).1 = 3) :
    auxspi_erase_sector D fuel i ir w0 =
      erase_loop D fuel ir 1 i (auxspi_save_type D ir w0).2 := by
  obtain ⟨b1, b2⟩ := sector_bytes i hi
  rw [erase_loop_one]
  unfold auxspi_erase_sector
  simp only [h3, if_true, b1, b2]

theorem erase_unfold_family3 (D : Device σ) (X : ExtraTable) (U : Int → Nat) (fuel : Nat)
    (data : Nat → Nat) (ir : Bool) (w w1 : World σ) (h3 : (auxspi_save_type D ir w).1 = 3)
    (h : auxspi_erase D X U fuel data ir w = Except.ok w1) :
    ∃ (e : Nat) (w2 : World σ),
      auxspi_save_size_log_2 D X fuel ir (auxspi_save_type D ir w).2 = Except.ok (e, w2) ∧
      erase_loop D fuel ir (shl_one U ((e : Int) - 16) % 256) 0 w2 = Except.ok w1 := by
  unfold auxspi_erase at h
  simp only [h3, if_true] at h
  split at h
  · exact absurd h (by simp)
  · rename_i r hr
    exact ⟨r.1, r.2, hr, h⟩

/-- C18: a run of `auxspi_erase` on a chip identified as family 3, with the
capacity resolved to exponent `e`, is the chain of passes `i = 0, 1, ..,
size - 1` (`size` the low byte of `1 << (e - 16)`) through the worlds `ws i`,
from the world after the capacity lookup to the final one.  Pass `i` is the
computation `auxspi_erase_sector(i)` performs after its detection probes, and
emits one write-enable / command / poll cycle with the command bytes 0xD8,
`i & 0xFF`, `(i >> 8) & 0xFF`, `(i >> 8) & 0xFF`, the cycle
`auxspi_erase_sector(i)` emits; the second and third address bytes are the
high byte of `i`. -/
theorem erase_all_is_erase_sector (D : Device σ) (X : ExtraTable) (U : Int → Nat)
    (fuel : Nat) (data : Nat → Nat) (ir : Bool) (w w1 : World σ)
    (h3 : (auxspi_save_type D ir w).1 = 3)
    (h : auxspi_erase D X U fuel data ir w = Except.ok w1) :
    ∃ (e : Nat) (w2 : World σ) (ws : Nat → World σ),
      auxspi_save_size_log_2 D X fuel ir (auxspi_save_type D ir w).2 = Except.ok (e, w2) ∧
      ws 0 = w2 ∧ ws (shl_one U ((e : Int) - 16) % 256) = w1 ∧
      ∀ i, i < shl_one U ((e : Int) - 16) % 256 →
        erase_loop D fuel ir 1 i (ws i) = Except.ok (ws (i + 1)) ∧
        (∀ w0 : World σ, (auxspi_save_type D ir w0).1 = 3 →
          auxspi_erase_sector D fuel i ir w0 =
            erase_loop D fuel ir 1 i (auxspi_save_type D ir w0).2) ∧
        (∃ k, 1 ≤ k ∧ (ws (i + 1)).trace = (ws i).trace ++
          cycle_ops ir [0xd8, i &&& 0xFF, (i >>> 8) &&& 0xFF, (i >>> 8) &&& 0xFF] [] k) ∧
        (∀ w0 w0' : World σ, (auxspi_save_type D ir w0).1 = 3 →
          auxspi_erase_sector D fuel i ir w0 = Except.ok w0' →
          ∃ k, 1 ≤ k ∧ w0'.trace = w0.trace ++ probe_ops ir ++
            cycle_ops ir [0xd8, i &&& 0xFF, (i >>> 8) &&& 0xFF, (i >>> 8) &&& 0xFF] [] k) ∧
        (i >>> 8) &&& 0xFF = i / 256 % 256 := by
  obtain ⟨e, w2, he, hl⟩ := erase_unfold_family3 D X U fuel data ir w w1 h3 h
  obtain ⟨ws, h0, hn, hs⟩ := erase_loop_passes D fuel ir _ 0 w2 w1 hl
  refine ⟨e, w2, ws, he, h0, hn, ?_⟩
  intro i hi
  have hi256 : i < 256 := lt_trans hi (Nat.mod_lt _ (by decide))
  have hp := hs i hi
  rw [Nat.zero_add] at hp
  refine ⟨hp, ?_, ?_, ?_, shr8_and i⟩
  · intro w0 h0
    exact erase_sector_is_pass D fuel ir i hi256 w0 h0
  · exact erase_loop_one_trace D fuel ir i hi256 _ _ hp
  · intro w0 w0' h0 hr
    exact erase_sector_trace D fuel i ir w0 w0' h0 hr

/-- Witness of C18: erase-all of the simulated 512 KB flash (exponent 0x13,
8 sectors). -/
theorem erase_all_is_erase_sector_witness :
    (auxspi_save_type sim false (chip_world flash_demo)).1 = 3 ∧
    shl_one shift_arm (((0x13 : Nat) : Int) - 16) % 256 = 8 ∧
    ∃ (w1 w2 : World Chip) (ws : Nat → World Chip),
      auxspi_erase sim extra_demo shift_arm 4 (fun _ => 0) false (chip_world flash_demo) =
        Except.ok w1 ∧
      auxspi_save_size_log_2 sim extra_demo 4 false
        (auxspi_save_type sim false (chip_world flash_demo)).2 = Except.ok (0x13, w2) ∧
      ws 0 = w2 ∧ ws 8 = w1 ∧
      ∀ i, i < 8 → erase_loop sim 4 false 1 i (ws i) = Except.ok (ws (i + 1)) := by
  have h3 : (auxspi_save_type sim false (chip_world flash_demo)).1 = 3 := by
    rw [(save_type_chip false (chip_world flash_demo) rfl (by decide)).1]
    decide
  have hsz : shl_one shift_arm (((0x13 : Nat) : Int) - 16) % 256 = 8 := by decide
  refine ⟨h3, hsz, ?_⟩
  obtain ⟨w1, _, hrun, _⟩ := (erase_family3_sectors extra_demo shift_arm 4 (fun _ => 0) false
    0x13 (by decide) (by decide)).2 flash_demo [] rfl rfl (by decide) (by decide) (by decide)
    (by decide)
  obtain ⟨e, w2, ws, he, h0, hn, hs⟩ := erase_all_is_erase_sector sim extra_demo shift_arm 4
    (fun _ => 0) false (chip_world flash_demo) w1 h3 hrun
  obtain ⟨hc⟩ := save_type_chip false (chip_world flash_demo) rfl (by decide)
  obtain ⟨v2, hv2, _, _⟩ := save_size_log_2_flash extra_demo 4 false
    (auxspi_save_type sim false (chip_world flash_demo)).2
    (by rw [(save_type_chip false (chip_world flash_demo) rfl (by decide)).2.1.1]; rfl)
    (save_type_chip false (chip_world flash_demo) rfl (by decide)).2.2.2
    (by rw [(save_type_chip false (chip_world flash_demo) rfl (by decide)).2.1.2.2.2]; decide)
    (by rw [(save_type_chip false (chip_world flash_demo) rfl (by decide)).2.1.2.2.2]; decide)
  rw [(save_type_chip false (chip_world flash_demo) rfl (by decide)).2.1.2.2.2] at hv2
  have hjt : jedec_table extra_demo (chip_world flash_demo).dev.jedec = 0x13 := by decide
  rw [hjt] at hv2
  rw [hv2] at he
  injection he with he
  injection he with he1 he2
  subst he1
  subst he2
  rw [hsz] at hn hs
  exact ⟨w1, v2, ws, hrun, hv2, h0, hn, fun i hi => (hs i hi).1⟩

/-! ## Command bytes -/

theorem read_cmd_or (A : Nat) (hA : A < 512) :
    (0x03 + 8 * (A / 256)) % 256 = 0x03 ||| (((A >>> 8) &&& 1) <<< 3) ∧
    (0x03 ||| (((A >>> 8) &&& 1) <<< 3) = if A < 256 then 0x03 else 0x0B) := by
  rw [shr8]
  have hb : A / 256 = 0 ∨ A / 256 = 1 := by omega
  rcases hb with hb | hb
  · have hlt : A < 256 := by omega
    rw [hb, if_pos hlt]
    exact ⟨rfl, rfl⟩
  · have hlt : ¬ A < 256 := by omega
    rw [hb, if_neg hlt]
    exact ⟨rfl, rfl⟩

theorem write_cmd_or (a : Nat) :
    0x02 + 8 * (a / 256 % 2) = 0x02 ||| (((a >>> 8) &&& 1) <<< 3) ∧
    (0x02 ||| (((a >>> 8) &&& 1) <<< 3) = if a / 256 % 2 = 0 then 0x02 else 0x0A) := by
  rw [shr8, Nat.and_one_is_mod]
  have hb : a / 256 % 2 = 0 ∨ a / 256 % 2 = 1 := by omega
  rcases hb with hb | hb
  · rw [hb]
    exact ⟨rfl, rfl⟩
  · rw [hb]
    exact ⟨rfl, rfl⟩

theorem write_header_one (a : Nat) :
    write_header 1 a = [0x02 ||| (((a >>> 8) &&& 1) <<< 3), a &&& 0xFF] := by
  rw [← (write_cmd_or a).1, and_ff]
  simp [write_header]

theorem write_header_two (a : Nat) :
    write_header 2 a = [0x02, (a >>> 8) &&& 0xFF, a &&& 0xFF] := by
  rw [shr8_and, and_ff]
  simp [write_header]

theorem write_header_three (a : Nat) :
    write_header 3 a = [0x02, (a >>> 16) &&& 0xFF, (a >>> 8) &&& 0xFF, a &&& 0xFF] := by
  rw [shr8_and, shr16_and, and_ff]
  simp [write_header]

theorem read_header_one (a : Nat) (ha : a < 512) :
    read_header 1 a = [0x03 ||| (((a >>> 8) &&& 1) <<< 3), a &&& 0xFF] := by
  rw [← (read_cmd_or a ha).1, and_ff]
  simp [read_header]

theorem read_header_two (a : Nat) :
    read_header 2 a = [0x03, (a >>> 8) &&& 0xFF, a &&& 0xFF] := by
  rw [shr8_and, and_ff]
  simp [read_header]

theorem read_header_three (a : Nat) :
    read_header 3 a = [0x03, (a >>> 16) &&& 0xFF, (a >>> 8) &&& 0xFF, a &&& 0xFF] := by
  rw [shr8_and, shr16_and, and_ff]
  simp [read_header]

/-- C16: with family 1 and `A < 512`, a read issues the command byte
`0x03 | bit8(A) << 3` (0x03 for `A < 256`, 0x0B otherwise) followed by
`A & 0xFF`; a family-1 write issues in each burst, at burst address `a`, the
command byte `0x02 | bit8(a) << 3` (0x02 or 0x0A) followed by `a & 0xFF`; for
families 2 and 3 the command bytes are exactly 0x03 and 0x02, followed by two
and three address bytes. -/
theorem command_bytes (D : Device σ) (fuel A N : Nat) (buf : Nat → Nat) (ir : Bool)
    (w : World σ) (hAN : A + N < 2 ^ 32) :
    (A < 512 →
      (auxspi_read_data D A buf N 1 ir w).2.trace = w.trace ++ (ir_ops ir ++
        [Op.open_ 0, Op.write (0x03 ||| (((A >>> 8) &&& 1) <<< 3)), Op.write (A &&& 0xFF)] ++
        List.replicate N Op.read ++ [Op.close]) ∧
      (0x03 ||| (((A >>> 8) &&& 1) <<< 3) = if A < 256 then 0x03 else 0x0B)) ∧
    ((∀ w1, auxspi_write_data D fuel A buf N 1 ir w = Except.ok w1 →
      ∃ ks : Nat → Nat, w1.trace = w.trace ++ (List.range ((N + 16 - 1) / 16)).flatMap
        (fun k => cycle_ops ir
          [0x02 ||| ((((A + k * 16) >>> 8) &&& 1) <<< 3), (A + k * 16) &&& 0xFF]
          (chunk (fun i => buf i % 256) 16 N k) (ks k))) ∧
      ∀ a : Nat, 0x02 ||| (((a >>> 8) &&& 1) <<< 3) =
        if a / 256 % 2 = 0 then 0x02 else 0x0A) ∧
    ((auxspi_read_data D A buf N 2 ir w).2.trace = w.trace ++ (ir_ops ir ++
        [Op.open_ 0, Op.write 0x03, Op.write ((A >>> 8) &&& 0xFF), Op.write (A &&& 0xFF)] ++
        List.replicate N Op.read ++ [Op.close])) ∧
    ((auxspi_read_data D A buf N 3 ir w).2.trace = w.trace ++ (ir_ops ir ++
        [Op.open_ 0, Op.write 0x03, Op.write ((A >>> 16) &&& 0xFF),
          Op.write ((A >>> 8) &&& 0xFF), Op.write (A &&& 0xFF)] ++
        List.replicate N Op.read ++ [Op.close])) ∧
    (∀ w1, auxspi_write_data D fuel A buf N 2 ir w = Except.ok w1 →
      ∃ ks : Nat → Nat, w1.trace = w.trace ++ (List.range ((N + 32 - 1) / 32)).flatMap
        (fun k => cycle_ops ir
          [0x02, ((A + k * 32) >>> 8) &&& 0xFF, (A + k * 32) &&& 0xFF]
          (chunk (fun i => buf i % 256) 32 N k) (ks k))) ∧
    (∀ w1, auxspi_write_data D fuel A buf N 3 ir w = Except.ok w1 →
      ∃ ks : Nat → Nat, w1.trace = w.trace ++ (List.range ((N + 256 - 1) / 256)).flatMap
        (fun k => cycle_ops ir
          [0x02, ((A + k * 256) >>> 16) &&& 0xFF, ((A + k * 256) >>> 8) &&& 0xFF,
            (A + k * 256) &&& 0xFF]
          (chunk (fun i => buf i % 256) 256 N k) (ks k))) := by
  refine ⟨?_, ⟨?_, fun a => (write_cmd_or a).2⟩, ?_, ?_, ?_, ?_⟩
  · intro hA
    refine ⟨?_, (read_cmd_or A hA).2⟩
    rw [read_data_trace D A N 1 buf ir w (Or.inl rfl), read_ops, read_header_one A hA]
    simp
  · intro w1 h
    obtain ⟨ks, _, hk⟩ := write_data_trace D fuel A N 1 buf ir w w1 (Or.inl rfl) hAN h
    have hB : WriteBurst 1 = 16 := rfl
    rw [hB] at hk
    simp only [write_header_one] at hk
    exact ⟨ks, hk⟩
  · rw [read_data_trace D A N 2 buf ir w (Or.inr (Or.inl rfl)), read_ops, read_header_two]
    simp
  · rw [read_data_trace D A N 3 buf ir w (Or.inr (Or.inr rfl)), read_ops, read_header_three]
    simp
  · intro w1 h
    obtain ⟨ks, _, hk⟩ := write_data_trace D fuel A N 2 buf ir w w1 (Or.inr (Or.inl rfl)) hAN h
    have hB : WriteBurst 2 = 32 := rfl
    rw [hB] at hk
    simp only [write_header_two] at hk
    exact ⟨ks, hk⟩
  · intro w1 h
    obtain ⟨ks, _, hk⟩ := write_data_trace D fuel A N 3 buf ir w w1 (Or.inr (Or.inr rfl)) hAN h
    have hB : WriteBurst 3 = 256 := rfl
    rw [hB] at hk
    simp only [write_header_three] at hk
    exact ⟨ks, hk⟩

/-- Witness of C16: family-1 accesses of one byte at 0x1A5 and 0x0A5 on the
scripted device. -/
theorem command_bytes_witness :
    0x1A5 + 1 < 2 ^ 32 ∧
    (auxspi_read_data scripted 0x1A5 ramp 1 1 false (script_world [])).2.trace =
      [Op.open_ 0, Op.write 0x0B, Op.write 0xA5, Op.read, Op.close] ∧
    (∃ w1 : World Script,
      auxspi_write_data scripted 1 0x1A5 ramp 1 1 false (script_world [0]) = Except.ok w1 ∧
      w1.trace = [Op.open_ 0, Op.write 0x06, Op.close_lite,
        Op.open_ 0, Op.write 0x0A, Op.write 0xA5, Op.write 0x00, Op.close_lite,
        Op.open_ 0, Op.write 0x05, Op.set_data 0, Op.wait_busy, Op.wait_busy, Op.close]) :=
  have h := command_bytes scripted 1 0x1A5 1 ramp false (script_world []) (by decide)
  ⟨by decide, (h.1 (by decide)).1.trans (by decide), ⟨_, rfl, by decide⟩⟩

/-! ## Write cycle framing -/

theorem poll_iter_succ (D : Device σ) (k : Nat) (v : World σ) :
    poll_iter D (k + 1) v = poll_iter D k (poll_step D v) := rfl

theorem poll_iter_trace (D : Device σ) :
    ∀ (k : Nat) (v : World σ), (poll_iter D k v).trace = v.trace ++ poll_ops k := by
  intro k
  induction k with
  | zero => intro v; simp [poll_iter, poll_ops]
  | succ n ih =>
    intro v
    rw [poll_iter_succ, ih]
    simp [poll_step, auxspi_wait_busy, poll_ops]

theorem wait_wip_iter (D : Device σ) :
    ∀ (fuel : Nat) (v v1 : World σ), wait_wip D fuel v = Except.ok v1 →
      ∃ k, 1 ≤ k ∧ k ≤ fuel ∧ v1 = poll_iter D k v ∧ D.data v1.dev &&& 0x01 = 0 ∧
        ∀ j, 1 ≤ j → j < k → D.data (poll_iter D j v).dev &&& 0x01 ≠ 0 := by
  intro fuel
  induction fuel with
  | zero => intro v v1 h; simp [wait_wip] at h
  | succ n ih =>
    intro v v1 h
    unfold wait_wip at h
    simp only at h
    split at h
    · rename_i hbit
      obtain ⟨k, hk1, hk2, hk3, hk4, hk5⟩ := ih _ _ h
      refine ⟨k + 1, by omega, by omega, ?_, hk4, ?_⟩
      · rw [poll_iter_succ]
        exact hk3
      · intro j hj1 hj2
        obtain ⟨i, rfl⟩ : ∃ i, j = i + 1 := ⟨j - 1, by omega⟩
        rw [poll_iter_succ]
        rcases Nat.eq_zero_or_pos i with hi | hi
        · subst hi
          exact hbit
        · exact hk5 i hi (by omega)
    · rename_i hbit
      injection h with h
      refine ⟨1, le_refl _, by omega, ?_, ?_, ?_⟩
      · rw [← h]
        rfl
      · rw [← h]
        exact not_not.mp hbit
      · intro j hj1 hj2
        omega

theorem wait_phase_iter (D : Device σ) (fuel : Nat) (ir : Bool) (v v1 : World σ)
    (h : wait_phase D fuel ir v = Except.ok v1) :
    ∃ k, 1 ≤ k ∧ k ≤ fuel ∧
      v1 = auxspi_close D (auxspi_wait_busy D
        (poll_iter D k (auxspi_write D 5 (auxspi_open D 0 (ir_gate D ir v))))) ∧
      D.data (poll_iter D k (auxspi_write D 5 (auxspi_open D 0 (ir_gate D ir v)))).dev
        &&& 0x01 = 0 ∧
      ∀ j, 1 ≤ j → j < k →
        D.data (poll_iter D j (auxspi_write D 5 (auxspi_open D 0 (ir_gate D ir v)))).dev
          &&& 0x01 ≠ 0 := by
  unfold wait_phase at h
  simp only at h
  split at h
  · exact absurd h (by simp)
  · rename_i w2 hw2
    obtain ⟨k, hk1, hk2, hk3, hk4, hk5⟩ := wait_wip_iter D fuel _ w2 hw2
    injection h with h
    refine ⟨k, hk1, hk2, ?_, ?_, hk5⟩
    · rw [← h, hk3]
    · rw [← hk3]
      exact hk4

theorem cycle_ops_framing (ir : Bool) (hdr data : List Nat) (k : Nat) :
    cycle_ops ir hdr data k =
      (ir_ops ir ++ [Op.open_ 0, Op.write 0x06, Op.close_lite]) ++
      (ir_ops ir ++ [Op.open_ 0] ++ hdr.map Op.write ++ data.map Op.write ++
        [Op.close_lite]) ++
      (ir_ops ir ++ [Op.open_ 0, Op.write 0x05] ++ poll_ops k ++
        [Op.wait_busy, Op.close]) := by
  simp [cycle_ops]

/-- C17: every iteration of the write loop issues three transactions,
(a) open, 0x06, close-lite; (b) open, the command and address bytes, the data
bytes of the burst, close-lite; (c) open, 0x05, at least one poll of the data
register, a final busy wait, full close.  The poll loop of (c) runs until
bit 0 of the data register reads clear: it is set after every earlier poll and
clear after the last one.  The write-enable transaction (a) precedes every
burst.  On the simulated chip the call returns. -/
theorem write_cycle_framing (D : Device σ) (fuel A N f : Nat) (buf : Nat → Nat) (ir : Bool)
    (w : World σ) (hf : f = 1 ∨ f = 2 ∨ f = 3) (hAN : A + N < 2 ^ 32) :
    (∀ w1, auxspi_write_data D fuel A buf N f ir w = Except.ok w1 →
      ∃ ks : Nat → Nat, (∀ k, 1 ≤ ks k) ∧
        w1.trace = w.trace ++ (List.range ((N + WriteBurst f - 1) / WriteBurst f)).flatMap
          (fun k =>
            (ir_ops ir ++ [Op.open_ 0, Op.write 0x06, Op.close_lite]) ++
            (ir_ops ir ++ [Op.open_ 0] ++
              (write_header f (A + k * WriteBurst f)).map Op.write ++
              (chunk (fun i => buf i % 256) (WriteBurst f) N k).map Op.write ++
              [Op.close_lite]) ++
            (ir_ops ir ++ [Op.open_ 0, Op.write 0x05] ++ poll_ops (ks k) ++
              [Op.wait_busy, Op.close]))) ∧
    (∀ v v1 : World σ, wait_phase D fuel ir v = Except.ok v1 →
      ∃ k, 1 ≤ k ∧ k ≤ fuel ∧
        v1 = auxspi_close D (auxspi_wait_busy D
          (poll_iter D k (auxspi_write D 5 (auxspi_open D 0 (ir_gate D ir v))))) ∧
        D.data (poll_iter D k (auxspi_write D 5 (auxspi_open D 0 (ir_gate D ir v)))).dev
          &&& 0x01 = 0 ∧
        ∀ j, 1 ≤ j → j < k →
          D.data (poll_iter D j (auxspi_write D 5 (auxspi_open D 0 (ir_gate D ir v)))).dev
            &&& 0x01 ≠ 0) ∧
    (∀ (k : Nat) (v : World σ), (poll_iter D k v).trace = v.trace ++ poll_ops k) ∧
    (∀ (c : Chip) (tr : List Op), c.family = f → c.well_formed → c.latency < fuel →
      (N + WriteBurst f - 1) / WriteBurst f ≤ fuel →
      ∃ w1, auxspi_write_data sim fuel A buf N f ir ⟨c, tr⟩ = Except.ok w1) := by
  refine ⟨?_, ?_, poll_iter_trace D, ?_⟩
  · intro w1 h
    obtain ⟨ks, hks, hk⟩ := write_data_trace D fuel A N f buf ir w w1 hf hAN h
    simp only [cycle_ops_framing] at hk
    exact ⟨ks, hks, hk⟩
  · intro v v1 h
    exact wait_phase_iter D fuel ir v v1 h
  · intro c tr hfam hwf hlat hfuel
    obtain ⟨w1, hw1, _⟩ := write_data_chip fuel A N f buf ir ⟨c, tr⟩ hf hfam hwf hAN hlat hfuel
    exact ⟨w1, hw1⟩

/-- Witness of C17: one byte written to a family-2 device whose status reads
busy twice and then idle: three polls, the write-in-progress bit set after the
first two. -/
theorem write_cycle_framing_witness :
    (2 = 1 ∨ 2 = 2 ∨ 2 = 3) ∧ 0x100 + 1 < 2 ^ 32 ∧
    (∃ w1 : World Script,
      auxspi_write_data scripted 3 0x100 ramp 1 2 false (script_world [1, 1, 0]) =
        Except.ok w1 ∧
      w1.trace = [Op.open_ 0, Op.write 0x06, Op.close_lite,
        Op.open_ 0, Op.write 0x02, Op.write 0x01, Op.write 0x00, Op.write 0x00, Op.close_lite,
        Op.open_ 0, Op.write 0x05, Op.set_data 0, Op.wait_busy, Op.set_data 0, Op.wait_busy,
        Op.set_data 0, Op.wait_busy, Op.wait_busy, Op.close] ∧
      ∃ ks : Nat → Nat, (∀ k, 1 ≤ ks k) ∧
        w1.trace = (script_world [1, 1, 0]).trace ++
          (List.range ((1 + WriteBurst 2 - 1) / WriteBurst 2)).flatMap
          (fun k =>
            (ir_ops false ++ [Op.open_ 0, Op.write 0x06, Op.close_lite]) ++
            (ir_ops false ++ [Op.open_ 0] ++
              (write_header 2 (0x100 + k * WriteBurst 2)).map Op.write ++
              (chunk (fun i => ramp i % 256) (WriteBurst 2) 1 k).map Op.write ++
              [Op.close_lite]) ++
            (ir_ops false ++ [Op.open_ 0, Op.write 0x05] ++ poll_ops (ks k) ++
              [Op.wait_busy, Op.close]))) :=
  ⟨by decide, by decide, _, rfl, by decide,
    (write_cycle_framing scripted 3 0x100 1 2 ramp false (script_world [1, 1, 0])
      (by decide) (by decide)).1 _ rfl⟩

/-! ## Bursts and pages -/

theorem burst_addrs_length (buf : Nat → Nat) (A B N k : Nat) :
    (chunk buf B N k).length = (burst_addrs A B N k).length := by
  simp [chunk, slice, burst_addrs]

theorem burst_addrs_mem (A B N k x : Nat) (h : x ∈ burst_addrs A B N k) :
    ∃ j, j < B ∧ j < N - k * B ∧ x = A + k * B + j := by
  unfold burst_addrs at h
  rw [List.mem_map] at h
  obtain ⟨j, hj, hx⟩ := h
  rw [List.mem_range] at hj
  exact ⟨j, by omega, by omega, hx.symm⟩

theorem burst_page (A N f k x : Nat)
    (hal : A % WriteBurst f = 0) (h : x ∈ burst_addrs A (WriteBurst f) N k) :
    page (WriteBurst f) x = A / WriteBurst f + k := by
  obtain ⟨j, hj, _, hx⟩ := burst_addrs_mem A (WriteBurst f) N k x h
  unfold page
  rcases WriteBurst_cases f with hB | hB | hB <;> rw [hB] at hal hj hx ⊢ <;> omega

/-- C19, as the code has it: when the start address `A` is a multiple of the
burst size `B`, burst `k` of `auxspi_write_data` (command at address
`A + k*B`, `min(B, N - k*B)` data bytes) covers addresses of the single
`B`-aligned page `A / B + k`; no burst holds two addresses of different
pages. -/
theorem bursts_within_pages (D : Device σ) (fuel A N f : Nat) (buf : Nat → Nat) (ir : Bool)
    (w : World σ) (hf : f = 1 ∨ f = 2 ∨ f = 3) (hAN : A + N < 2 ^ 32)
    (hal : A % WriteBurst f = 0) :
    (∀ w1, auxspi_write_data D fuel A buf N f ir w = Except.ok w1 →
      ∃ ks : Nat → Nat, w1.trace = w.trace ++
        (List.range ((N + WriteBurst f - 1) / WriteBurst f)).flatMap
          (fun k => cycle_ops ir (write_header f (A + k * WriteBurst f))
            (chunk (fun i => buf i % 256) (WriteBurst f) N k) (ks k))) ∧
    (∀ k, (chunk (fun i => buf i % 256) (WriteBurst f) N k).length =
      (burst_addrs A (WriteBurst f) N k).length) ∧
    (∀ k x, x ∈ burst_addrs A (WriteBurst f) N k →
      page (WriteBurst f) x = A / WriteBurst f + k) ∧
    (∀ k x y, x ∈ burst_addrs A (WriteBurst f) N k → y ∈ burst_addrs A (WriteBurst f) N k →
      page (WriteBurst f) x = page (WriteBurst f) y) := by
  refine ⟨?_, ?_, ?_, ?_⟩
  · intro w1 h
    obtain ⟨ks, _, hk⟩ := write_data_trace D fuel A N f buf ir w w1 hf hAN h
    exact ⟨ks, hk⟩
  · intro k
    exact burst_addrs_length _ A (WriteBurst f) N k
  · intro k x hx
    exact burst_page A N f k x hal hx
  · intro k x y hx hy
    rw [burst_page A N f k x hal hx, burst_page A N f k y hal hy]

/-- Witness of C19 as amended: 20 bytes at address 16 with family 1 go out as
the bursts 16..31 and 32..35, each inside one 16-byte page. -/
theorem bursts_within_pages_witness :
    (1 = 1 ∨ 1 = 2 ∨ 1 = 3) ∧ 16 + 20 < 2 ^ 32 ∧ 16 % WriteBurst 1 = 0 ∧
    burst_addrs 16 (WriteBurst 1) 20 1 = [32, 33, 34, 35] ∧
    ∀ x, x ∈ burst_addrs 16 (WriteBurst 1) 20 1 →
      page (WriteBurst 1) x = 16 / WriteBurst 1 + 1 :=
  ⟨by decide, by decide, by decide, by decide,
    (bursts_within_pages scripted 2 16 20 1 ramp false (script_world [0, 0])
      (by decide) (by decide) (by decide)).2.2.1 1⟩

/-- Counterexample to C19 as stated: 16 bytes at address 8 with family 1 go
out as one burst, command at address 8 followed by 16 data bytes, covering
addresses 8..23, which lie in the two 16-byte pages 0 and 1. -/
theorem bursts_within_pages_counterexample :
    (∃ w1 : World Script,
      auxspi_write_data scripted 1 8 ramp 16 1 false (script_world [0]) = Except.ok w1 ∧
      w1.trace = cycle_ops false (write_header 1 8) (chunk ramp (WriteBurst 1) 16 0) 1) ∧
    write_header 1 8 = [0x02, 0x08] ∧
    (chunk ramp (WriteBurst 1) 16 0).length = 16 ∧
    burst_addrs 8 (WriteBurst 1) 16 0 =
      [8, 9, 10, 11, 12, 13, 14, 15, 16, 17, 18, 19, 20, 21, 22, 23] ∧
    page (WriteBurst 1) 8 ≠ page (WriteBurst 1) 23 := by
  refine ⟨⟨_, rfl, by decide⟩, by decide, by decide, by decide, by decide⟩

end Auxspi

namespace Strings

/-! ## Message lookup -/

/-- C20: `stringsGetMessageString` tests `id > STR_LAST` only, so for
`id = STR_LAST` and for `id = -1` it does not return null but reads
`message_strings[id]`, an index outside the `STR_LAST` allocated entries
(`new char*[STR_LAST]`); for `id = STR_LAST + 1` it returns null. -/
theorem lookup_out_of_bounds (STR_LAST : Nat) :
    stringsGetMessageString STR_LAST (STR_LAST : Int) = Lookup.element (STR_LAST : Int) ∧
    ¬ allocated STR_LAST (STR_LAST : Int) ∧
    stringsGetMessageString STR_LAST (-1) = Lookup.element (-1) ∧
    ¬ allocated STR_LAST (-1) ∧
    stringsGetMessageString STR_LAST ((STR_LAST : Int) + 1) = Lookup.null := by
  refine ⟨?_, ?_, ?_, ?_, ?_⟩
  · simp [stringsGetMessageString]
  · simp [allocated]
  · have h : ¬ ((-1 : Int) > (STR_LAST : Int)) := by omega
    simp [stringsGetMessageString, h]
  · simp [allocated]
  · have h : (STR_LAST : Int) + 1 > (STR_LAST : Int) := by omega
    simp [stringsGetMessageString, h]

end Strings
